import Mathlib

/-!
# Kd-tree construction with ropes (KdTree.cpp)

A shallow embedding of `src/source/KdTree.cpp`: the intersection primitives
(`hitBoundingBox`, `hitTriangle`), the leaf face assigner (`createLeafNode`),
the median selector (`findMedian`, `splitNodesAtMedian`), the face classifier
(`splitFaces`), the recursive node builder (`makeTree`), the rope constructor
(`createRopes`, `optimizeRope`) and the constructor of the tree object.

Conventions of the embedding.
* `cl_float` coordinates are exact rationals (`ℚ`): no rounding, no overflow.
  Values computed with a division (`1.0f / x`) live in `Flt`, which adds the
  IEEE values `+inf`, `-inf` and `NaN`; a zero divisor is taken as `+0`.
* A `kdNode_t*` is a `KdNode`: `KdNode.null` is the `NULL` pointer, and a
  pointer to a node is the node itself (its fields and its two child pointers).
* The three collections of the tree object (`mNodes`, `mLeaves`,
  `mNonLeaves`) hold the scalar fields of the nodes pushed to them.
* `std::sort` is a parameter (`StdSort`): any function that returns a
  permutation of its input in ascending order of the compared coordinate.
* `KD_EPSILON` (declared in a header outside the sources at hand) is a
  parameter `eps`.
-/

namespace KdTree

/-! ## Vectors and IEEE-like values -/

/-- Three coordinates: `glm::vec3`, `cl_float[3]`, and the `x, y, z` of a `cl_float4`. -/
structure Vec3 where
  x : ℚ
  y : ℚ
  z : ℚ
deriving DecidableEq

/-- Component `v[i]` for `i` in `0, 1, 2` (any other index reads `z`). -/
def Vec3.get (v : Vec3) (i : Nat) : ℚ :=
  match i with
  | 0 => v.x
  | 1 => v.y
  | _ => v.z

/-- Assignment `v[i] = q` for `i` in `0, 1, 2` (any other index writes `z`). -/
def Vec3.set (v : Vec3) (i : Nat) (q : ℚ) : Vec3 :=
  match i with
  | 0 => { v with x := q }
  | 1 => { v with y := q }
  | _ => { v with z := q }

/-- Componentwise difference `a - b`. -/
def Vec3.sub (a b : Vec3) : Vec3 := ⟨a.x - b.x, a.y - b.y, a.z - b.z⟩

/-- Dot product `glm::dot`. -/
def Vec3.dot (a b : Vec3) : ℚ := a.x * b.x + a.y * b.y + a.z * b.z

/-- Cross product `glm::cross`. -/
def Vec3.cross (a b : Vec3) : Vec3 :=
  ⟨a.y * b.z - b.y * a.z, a.z * b.x - b.z * a.x, a.x * b.y - b.x * a.y⟩

/-- A float value that may be infinite or NaN. -/
inductive Flt where
  | fin (q : ℚ)
  | pinf
  | ninf
  | nan
deriving DecidableEq

/-- Quotient `1.0f / d` of a finite `d`: `+inf` for a zero divisor. -/
def Flt.recip (d : ℚ) : Flt := if d = 0 then Flt.pinf else Flt.fin (1 / d)

/-- Product `a * f` of a finite `a` and a float `f`. -/
def Flt.scale (a : ℚ) (f : Flt) : Flt :=
  match f with
  | Flt.fin q => Flt.fin (a * q)
  | Flt.pinf => if a = 0 then Flt.nan else if 0 < a then Flt.pinf else Flt.ninf
  | Flt.ninf => if a = 0 then Flt.nan else if 0 < a then Flt.ninf else Flt.pinf
  | Flt.nan => Flt.nan

/-- Sum `f + g`. -/
def Flt.add (f g : Flt) : Flt :=
  match f, g with
  | Flt.nan, _ => Flt.nan
  | _, Flt.nan => Flt.nan
  | Flt.fin p, Flt.fin q => Flt.fin (p + q)
  | Flt.pinf, Flt.ninf => Flt.nan
  | Flt.ninf, Flt.pinf => Flt.nan
  | Flt.pinf, _ => Flt.pinf
  | _, Flt.pinf => Flt.pinf
  | Flt.ninf, _ => Flt.ninf
  | _, Flt.ninf => Flt.ninf

/-- Absolute value `abs( f )`. -/
def Flt.abs (f : Flt) : Flt :=
  match f with
  | Flt.fin q => Flt.fin |q|
  | Flt.pinf => Flt.pinf
  | Flt.ninf => Flt.pinf
  | Flt.nan => Flt.nan

/-- Comparison `f < g`: false as soon as one side is NaN. -/
def Flt.lt (f g : Flt) : Bool :=
  match f, g with
  | Flt.nan, _ => false
  | _, Flt.nan => false
  | Flt.fin p, Flt.fin q => decide (p < q)
  | Flt.ninf, Flt.ninf => false
  | Flt.ninf, _ => true
  | _, Flt.ninf => false
  | Flt.pinf, _ => false
  | _, Flt.pinf => true

/-- Comparison `f <= g`: false as soon as one side is NaN. -/
def Flt.le (f g : Flt) : Bool :=
  match f, g with
  | Flt.nan, _ => false
  | _, Flt.nan => false
  | Flt.fin p, Flt.fin q => decide (p ≤ q)
  | Flt.ninf, _ => true
  | _, Flt.pinf => true
  | Flt.pinf, _ => false
  | _, Flt.ninf => false

/-- Comparison `f > g`. -/
def Flt.gt (f g : Flt) : Bool := Flt.lt g f

/-- Comparison `f >= g`. -/
def Flt.ge (f g : Flt) : Bool := Flt.le g f

/-- Test `isnan( f )`. -/
def Flt.isnan (f : Flt) : Bool :=
  match f with
  | Flt.nan => true
  | _ => false

/-! ## Nodes and the tree object -/

/-- Scalar fields of a `kdNode_t`: everything but the child pointers and the ropes.
`axis` is `-1` for a leaf; `pos` is meaningful for internal nodes only. -/
structure NodeData where
  index : Nat
  axis : Int
  pos : Vec3
  bbMin : Vec3
  bbMax : Vec3
  faces : List Nat
deriving DecidableEq

/-- A `kdNode_t*`: the `NULL` pointer, or a node with its `left` and `right` pointers. -/
inductive KdNode where
  | null : KdNode
  | mk (d : NodeData) (left right : KdNode) : KdNode
deriving DecidableEq

/-- Collections `mNodes`, `mLeaves` and `mNonLeaves` of the tree object. -/
structure Build where
  mNodes : List NodeData
  mLeaves : List NodeData
  mNonLeaves : List NodeData
deriving DecidableEq

/-- State after `mNodes.push_back( leaf ); mLeaves.push_back( leaf );`. -/
def Build.pushLeaf (st : Build) (d : NodeData) : Build :=
  { st with mNodes := st.mNodes ++ [d], mLeaves := st.mLeaves ++ [d] }

/-- State after `mNodes.push_back( median ); mNonLeaves.push_back( median );`. -/
def Build.pushNonLeaf (st : Build) (d : NodeData) : Build :=
  { st with mNodes := st.mNodes ++ [d], mNonLeaves := st.mNonLeaves ++ [d] }

/-- Comparison object `compFunc( axis )`: `a[axis] < b[axis]`. -/
def compFunc (axis : Nat) (a b : Vec3) : Bool := decide (a.get axis < b.get axis)

/-- Any conforming `std::sort( begin, end, compFunc( axis ) )`: the result is a
permutation of the input in which no position compares less than one before
it. The order of positions with equal coordinates is left to the
implementation. -/
structure StdSort where
  sort : Nat → List Vec3 → List Vec3
  perm : ∀ axis l, List.Perm (sort axis l) l
  sorted : ∀ axis l, List.Pairwise (fun a b => compFunc axis b a = false) (sort axis l)

/-- List `xs` sorted by straight insertion with `compFunc( axis )`; equal keys keep their order. -/
def insertSort (axis : Nat) (xs : List Vec3) : List Vec3 :=
  List.insertionSort (fun a b => compFunc axis b a = false) xs

/-! ## Intersection primitives -/

/-- Vertex number `i` of the flat vertex array: `vertices[i * 3 + 0, 1, 2]`.
A read past the end of the array (undefined in the source) yields `0`. -/
def vertexAt (vertices : List ℚ) (i : Nat) : Vec3 :=
  ⟨vertices.getD (i * 3) 0, vertices.getD (i * 3 + 1) 0, vertices.getD (i * 3 + 2) 0⟩

/-- Point `p` inside or on the box: the fast test of `createLeafNode`. -/
def pointInBox (bbMin bbMax p : Vec3) : Bool :=
  decide (p.x ≥ bbMin.x) && decide (p.y ≥ bbMin.y) && decide (p.z ≥ bbMin.z) &&
  decide (p.x ≤ bbMax.x) && decide (p.y ≤ bbMax.y) && decide (p.z ≤ bbMax.z)

/-- Segment-vs-box slab test `KdTree::hitBoundingBox`, lines 280-324. -/
def hitBoundingBox (bbMin bbMax origin dir : Vec3) : Bool :=
  let invDirX := Flt.recip dir.x
  let invDirY := Flt.recip dir.y
  let invDirZ := Flt.recip dir.z
  let bounds : Bool → Vec3 := fun s => if s then bbMax else bbMin
  let signX := Flt.lt invDirX (Flt.fin 0)
  let signY := Flt.lt invDirY (Flt.fin 0)
  let signZ := Flt.lt invDirZ (Flt.fin 0)
  let tmin := Flt.scale ((bounds signX).x - origin.x) invDirX
  let tmax := Flt.scale ((bounds (!signX)).x - origin.x) invDirX
  let tymin := Flt.scale ((bounds signY).y - origin.y) invDirY
  let tymax := Flt.scale ((bounds (!signY)).y - origin.y) invDirY
  if Flt.gt tmin tymax || Flt.gt tymin tmax then false
  else
    let tmin1 := if Flt.gt tymin tmin then tymin else tmin
    let tmax1 := if Flt.lt tymax tmax then tymax else tmax
    let tzmin := Flt.scale ((bounds signZ).z - origin.z) invDirZ
    let tzmax := Flt.scale ((bounds (!signZ)).z - origin.z) invDirZ
    if Flt.gt tmin1 tzmax || Flt.gt tzmin tmax1 then false
    else
      let tmin2 := if Flt.gt tzmin tmin1 then tzmin else tmin1
      let tmax2 := if Flt.lt tzmax tmax1 then tzmax else tmax1
      (Flt.ge tmin2 (Flt.fin 0) && Flt.le tmax2 (Flt.fin 1)) ||
      (Flt.isnan tmin2 && Flt.le tmax2 (Flt.fin 1)) ||
      (Flt.isnan tmax2 && Flt.ge tmin2 (Flt.fin 0))

/-- Segment-vs-triangle test `KdTree::hitTriangle`, lines 336-368. -/
def hitTriangle (eps : ℚ) (vStart vEnd a b c : Vec3) : Bool :=
  let dir := vEnd.sub vStart
  let edge1 := b.sub a
  let edge2 := c.sub a
  let pVec := dir.cross edge2
  let invDet := Flt.recip (edge1.dot pVec)
  if Flt.lt (Flt.abs invDet) (Flt.fin eps) then false
  else
    let tVec := vStart.sub a
    let u := Flt.scale (tVec.dot pVec) invDet
    if Flt.lt u (Flt.fin 0) || Flt.gt u (Flt.fin 1) then false
    else
      let qVec := tVec.cross edge1
      let v := Flt.scale (dir.dot qVec) invDet
      if Flt.lt v (Flt.fin 0) || Flt.gt (Flt.add u v) (Flt.fin 1) then false
      else
        let t := Flt.scale (edge2.dot qVec) invDet
        if Flt.lt t (Flt.fin 0) || Flt.gt t (Flt.fin 1) then false
        else true

/-! ## Leaf face assigner -/

/-- Value of the flag `add` at the end of one round of the loop of
`createLeafNode` (lines 108-141) for the face with corners `a`, `b`, `c`. -/
def faceAdded (eps : ℚ) (bbMin bbMax a b c : Vec3) : Bool :=
  (pointInBox bbMin bbMax a || pointInBox bbMin bbMax b || pointInBox bbMin bbMax c) ||
  hitBoundingBox bbMin bbMax a (b.sub a) ||
  hitBoundingBox bbMin bbMax b (c.sub b) ||
  hitBoundingBox bbMin bbMax c (a.sub c) ||
  hitTriangle eps bbMin bbMax a b c

/-- Loop of `createLeafNode` (lines 89-148) over the index triples of `faces`:
the content of `leaf->faces`. -/
def leafFaces (eps : ℚ) (bbMin bbMax : Vec3) (vertices : List ℚ) : List Nat → List Nat
  | f0 :: f1 :: f2 :: rest =>
    (if faceAdded eps bbMin bbMax (vertexAt vertices f0) (vertexAt vertices f1)
        (vertexAt vertices f2) then [f0, f1, f2] else []) ++
      leafFaces eps bbMin bbMax vertices rest
  | _ => []

/-- Leaf made by `KdTree::createLeafNode` when `mLeaves` holds `nLeaves` entries. -/
def createLeafNode (eps : ℚ) (nLeaves : Nat) (bbMin bbMax : Vec3) (vertices : List ℚ)
    (faces : List Nat) : NodeData :=
  { index := nLeaves, axis := -1, pos := ⟨0, 0, 0⟩, bbMin := bbMin, bbMax := bbMax,
    faces := leafFaces eps bbMin bbMax vertices faces }

/-! ## Median selector and face classifier -/

/-- Function `KdTree::findMedian`: the position list as it is left behind
(sorted when it has more than one entry) and the median position. -/
def findMedian (S : StdSort) (vertsForNodes : List Vec3) (axis : Nat) : List Vec3 × Vec3 :=
  let sorted := if vertsForNodes.length > 1 then S.sort axis vertsForNodes else vertsForNodes
  let index := if vertsForNodes.length > 1 then vertsForNodes.length / 2 else 0
  (sorted, sorted.getD index ⟨0, 0, 0⟩)

/-- Loop of `KdTree::splitNodesAtMedian`: `(leftNodes, rightNodes)`. -/
def splitNodesAtMedian (median : Vec3) : List Vec3 → List Vec3 × List Vec3
  | [] => ([], [])
  | n :: rest =>
    if n.x = median.x ∧ n.y = median.y ∧ n.z = median.z then ([], rest)
    else ((n :: (splitNodesAtMedian median rest).1), (splitNodesAtMedian median rest).2)

/-- Face bounding box `KdTree::getFaceBB`: `(min corner, max corner)`. -/
def getFaceBB (v0 v1 v2 : Vec3) : Vec3 × Vec3 :=
  (⟨min (min v0.x v1.x) v2.x, min (min v0.y v1.y) v2.y, min (min v0.z v1.z) v2.z⟩,
   ⟨max (max v0.x v1.x) v2.x, max (max v0.y v1.y) v2.y, max (max v0.z v1.z) v2.z⟩)

/-- Loop of `KdTree::splitFaces`: `(leftFaces, rightFaces)`. The values pushed
are `a / 3` for `a = faces[i] * 3` (no wrap-around of the `cl_uint` product). -/
def splitFaces (vertices : List ℚ) (bbMaxLeft bbMinRight : Vec3) :
    List Nat → List Nat × List Nat
  | f0 :: f1 :: f2 :: rest =>
    let vBB := getFaceBB (vertexAt vertices f0) (vertexAt vertices f1) (vertexAt vertices f2)
    let tl := splitFaces vertices bbMaxLeft bbMinRight rest
    ((if vBB.1.x ≤ bbMaxLeft.x ∨ vBB.1.y ≤ bbMaxLeft.y ∨ vBB.1.z ≤ bbMaxLeft.z
        then [f0 * 3 / 3, f1 * 3 / 3, f2 * 3 / 3] else []) ++ tl.1,
     (if vBB.2.x ≥ bbMinRight.x ∨ vBB.2.y ≥ bbMinRight.y ∨ vBB.2.z ≥ bbMinRight.z
        then [f0 * 3 / 3, f1 * 3 / 3, f2 * 3 / 3] else []) ++ tl.2)
  | _ => ([], [])

/-! ## Recursive node builder -/

/-- Entry `splitsByAxis[axis]`. -/
def splitsOn (splitsByAxis : List (List ℚ)) (axis : Nat) : List ℚ :=
  splitsByAxis.getD axis []

/-- State after `splitsByAxis[axis].push_back( s )`. -/
def recordSplit (splitsByAxis : List (List ℚ)) (axis : Nat) (s : ℚ) : List (List ℚ) :=
  splitsByAxis.set axis (splitsOn splitsByAxis axis ++ [s])

/-- Recursion `KdTree::makeTree` (lines 379-442) with an explicit bound `fuel`
on the nesting of calls: the node returned and the collections afterwards,
or `none` when the bound is used up. -/
def makeTreeFuel (S : StdSort) (eps : ℚ) (mDepthLimit : Nat) :
    Nat → List Vec3 → Nat → Vec3 → Vec3 → List ℚ → List Nat → List (List ℚ) → Nat →
    Build → Option (KdNode × Build)
  | 0, _, _, _, _, _, _, _, _, _ => none
  | fuel + 1, vertsForNodes, axis, bbMin, bbMax, vertices, faces, splitsByAxis, depth, st =>
    if (mDepthLimit > 0 ∧ depth > mDepthLimit) ∨ vertsForNodes.length = 0 then
      let leafNode := createLeafNode eps st.mLeaves.length bbMin bbMax vertices faces
      some (KdNode.mk leafNode KdNode.null KdNode.null, st.pushLeaf leafNode)
    else
      let sorted := (findMedian S vertsForNodes axis).1
      let pos := (findMedian S vertsForNodes axis).2
      if pos.get axis ∈ splitsOn splitsByAxis axis then
        let leafNode := createLeafNode eps st.mLeaves.length bbMin bbMax vertices faces
        some (KdNode.mk leafNode KdNode.null KdNode.null, st.pushLeaf leafNode)
      else
        let splits := recordSplit splitsByAxis axis (pos.get axis)
        let median : NodeData :=
          { index := st.mNonLeaves.length, axis := (axis : Int), pos := pos,
            bbMin := bbMin, bbMax := bbMax, faces := [] }
        let st1 := st.pushNonLeaf median
        let leftNodes := (splitNodesAtMedian pos sorted).1
        let rightNodes := (splitNodesAtMedian pos sorted).2
        let bbMaxLeft := bbMax.set axis (pos.get axis)
        let bbMinRight := bbMin.set axis (pos.get axis)
        let leftFaces := (splitFaces vertices bbMaxLeft bbMinRight faces).1
        let rightFaces := (splitFaces vertices bbMaxLeft bbMinRight faces).2
        match makeTreeFuel S eps mDepthLimit fuel leftNodes ((axis + 1) % 3) bbMin bbMaxLeft
            vertices leftFaces splits (depth + 1) st1 with
        | none => none
        | some (left, st2) =>
          match makeTreeFuel S eps mDepthLimit fuel rightNodes ((axis + 1) % 3) bbMinRight
              bbMax vertices rightFaces splits (depth + 1) st2 with
          | none => none
          | some (right, st3) => some (KdNode.mk median left right, st3)

/-- Call `KdTree::makeTree`: the recursion with one more level of nesting
than there are positions, which is always enough. -/
def makeTree (S : StdSort) (eps : ℚ) (mDepthLimit : Nat) (vertsForNodes : List Vec3)
    (axis : Nat) (bbMin bbMax : Vec3) (vertices : List ℚ) (faces : List Nat)
    (splitsByAxis : List (List ℚ)) (depth : Nat) (st : Build) : Option (KdNode × Build) :=
  makeTreeFuel S eps mDepthLimit (vertsForNodes.length + 1) vertsForNodes axis bbMin bbMax
    vertices faces splitsByAxis depth st

/-! ## Rope constructor -/

/-- Loop of `KdTree::optimizeRope` (lines 453-476) on the rope `(*ropes)[side]`:
the node that entry points to afterwards. The caller never passes `NULL`. -/
def optimizeRope (side : Nat) (bbMin bbMax : Vec3) : KdNode → KdNode
  | KdNode.null => KdNode.null
  | KdNode.mk d left right =>
    if d.axis ≥ 0 then
      if side % 2 = 0 then
        if d.axis = ((side >>> 1 : Nat) : Int) ∨
            d.pos.get d.axis.toNat ≤ bbMin.get d.axis.toNat then
          optimizeRope side bbMin bbMax right
        else KdNode.mk d left right
      else
        if d.axis = ((side >>> 1 : Nat) : Int) ∨
            d.pos.get d.axis.toNat ≥ bbMax.get d.axis.toNat then
          optimizeRope side bbMin bbMax left
        else KdNode.mk d left right
    else KdNode.mk d left right

/-- One round of the loop of `createRopes` (lines 165-170) for side `i`. -/
def optimizeSide (bbMin bbMax : Vec3) (ropes : List KdNode) (i : Nat) : List KdNode :=
  if ropes.getD i KdNode.null = KdNode.null then ropes
  else ropes.set i (optimizeRope i bbMin bbMax (ropes.getD i KdNode.null))

/-- Function `KdTree::createRopes` (lines 159-182): the assignments
`node->ropes = ropes` it makes, as pairs of the leaf and its six ropes, in
the order they are made. -/
def createRopes : KdNode → List KdNode → List (NodeData × List KdNode)
  | KdNode.null, _ => []
  | KdNode.mk d left right, ropes =>
    if d.axis < 0 then [(d, ropes)]
    else
      let ropes1 := (List.range 6).foldl (optimizeSide d.bbMin d.bbMax) ropes
      let sideLeft := d.axis.toNat * 2
      let sideRight := d.axis.toNat * 2 + 1
      createRopes left (ropes1.set sideRight right) ++
        createRopes right (ropes1.set sideLeft left)

/-! ## The tree object -/

/-- Value `(cl_uint) -1` of the depth setting: no depth configured. -/
def depthUnset : Nat := 4294967295

/-- Function `KdTree::setDepthLimit`: the value of `mDepthLimit` for the
configured depth `cfg` (a `cl_uint`). `ceil( log2( n ) )` is `Nat.clog 2 n`
for `n ≥ 1`; for `n = 0` (fewer than three coordinates) the source converts
`-inf` to an integer, and the value here is `0`. -/
def setDepthLimit (cfg : Nat) (vertices : List ℚ) : Nat :=
  if cfg = depthUnset then Nat.clog 2 (vertices.length / 3) else cfg

/-- Loop of the constructor (lines 31-35): one position for each started triple
of coordinates. -/
def packVerts (vertices : List ℚ) : List Vec3 :=
  (List.range ((vertices.length + 2) / 3)).map (vertexAt vertices)

/-- Members of a `KdTree` object. `leafRopes` holds the `ropes` field of every
leaf once `createRopes` has run. -/
structure Tree where
  mRoot : KdNode
  mNodes : List NodeData
  mLeaves : List NodeData
  mNonLeaves : List NodeData
  mDepthLimit : Nat
  leafRopes : List (NodeData × List KdNode)

/-- Modelled from the spec: the members of a `KdTree` object before the body of
the constructor runs. The class declaration that goes with `KdTree.cpp` is not
among the sources; the spec has the root absent when nothing is built, and the
three collections are empty vectors. -/
def Tree.init : Tree :=
  { mRoot := KdNode.null, mNodes := [], mLeaves := [], mNonLeaves := [],
    mDepthLimit := 0, leafRopes := [] }

/-- Constructor `KdTree::KdTree` (lines 14-50) for the configured depth `cfg`:
the object it leaves behind (`none` only if `makeTree` gave no result). -/
def construct (S : StdSort) (eps : ℚ) (cfg : Nat) (vertices : List ℚ) (faces : List Nat)
    (bbMin bbMax : Vec3) : Option Tree :=
  if vertices.length ≤ 0 ∨ faces.length ≤ 0 then some Tree.init
  else
    match makeTree S eps (setDepthLimit cfg vertices) (packVerts vertices) 0 bbMin bbMax
        vertices faces [[], [], []] 1 ⟨[], [], []⟩ with
    | none => none
    | some (root, st) =>
      some { mRoot := root, mNodes := st.mNodes, mLeaves := st.mLeaves,
             mNonLeaves := st.mNonLeaves, mDepthLimit := setDepthLimit cfg vertices,
             leafRopes := createRopes root (List.replicate 6 KdNode.null) }

/-- Function `KdTree::getRootNode`. -/
def getRootNode (t : Tree) : KdNode := t.mRoot

/-! ## Notions used to state the properties -/

/-- A `std::sort` that sorts by straight insertion. -/
def insertionStdSort : StdSort where
  sort := insertSort
  perm := fun _ l => List.perm_insertionSort _ l
  sorted := fun axis l => by
    haveI : IsTotal Vec3 (fun a b => compFunc axis b a = false) :=
      ⟨fun a b => by simp only [compFunc, decide_eq_false_iff_not, not_lt]; exact le_total _ _⟩
    haveI : IsTrans Vec3 (fun a b => compFunc axis b a = false) :=
      ⟨fun a b c h1 h2 => by
        simp only [compFunc, decide_eq_false_iff_not, not_lt] at h1 h2 ⊢
        exact le_trans h1 h2⟩
    exact List.sorted_insertionSort _ l

/-- Point `u a + v b + w c` for weights `u`, `v`, `w`. -/
def combine (u v w : ℚ) (a b c : Vec3) : Vec3 :=
  ⟨u * a.x + v * b.x + w * c.x, u * a.y + v * b.y + w * c.y, u * a.z + v * b.z + w * c.z⟩

/-- Some point of the triangle with corners `a`, `b`, `c` (a convex combination
of the corners) lies inside or on the box. -/
def triangleMeetsBox (bbMin bbMax a b c : Vec3) : Prop :=
  ∃ u v w : ℚ, 0 ≤ u ∧ 0 ≤ v ∧ 0 ≤ w ∧ u + v + w = 1 ∧
    pointInBox bbMin bbMax (combine u v w a b c) = true

/-- Box with `min <= max` on each axis. -/
def boxWellFormed (bbMin bbMax : Vec3) : Prop :=
  bbMin.x ≤ bbMax.x ∧ bbMin.y ≤ bbMax.y ∧ bbMin.z ≤ bbMax.z

/-- Number of edges from the root to each leaf (a node with `axis < 0`) below
`node`, when `node` itself is `k` edges below the root. -/
def leafDepths : KdNode → Nat → List Nat
  | KdNode.null, _ => []
  | KdNode.mk d left right, k =>
    if d.axis < 0 then [k] else leafDepths left (k + 1) ++ leafDepths right (k + 1)

/-- Every node below has `axis < 0` and two `NULL` children, or `axis >= 0`
and two children that are both present. -/
def strictBinary : KdNode → Bool
  | KdNode.null => true
  | KdNode.mk d left right =>
    if d.axis < 0 then decide (left = KdNode.null) && decide (right = KdNode.null)
    else decide (left ≠ KdNode.null) && decide (right ≠ KdNode.null) &&
      strictBinary left && strictBinary right

/-- All nodes reachable from a pointer: the node itself and those below it. -/
def subnodes : KdNode → List KdNode
  | KdNode.null => []
  | KdNode.mk d left right => KdNode.mk d left right :: (subnodes left ++ subnodes right)

/-- Test `node->axis >= 0` of a non-`NULL` pointer: the node is internal. -/
def isInternal : KdNode → Bool
  | KdNode.null => false
  | KdNode.mk d _ _ => decide (d.axis ≥ 0)

/-- Tight bounding box `(min corner, max corner)` of a list of positions. -/
def tightBox : List Vec3 → Vec3 × Vec3
  | [] => (⟨0, 0, 0⟩, ⟨0, 0, 0⟩)
  | [p] => (p, p)
  | p :: q :: rest =>
    let b := tightBox (q :: rest)
    (⟨min p.x b.1.x, min p.y b.1.y, min p.z b.1.z⟩,
     ⟨max p.x b.2.x, max p.y b.2.y, max p.z b.2.z⟩)

/-- Box `(bbMin, bbMax)` of the node a pointer refers to. -/
def nodeBox : KdNode → Option (Vec3 × Vec3)
  | KdNode.null => none
  | KdNode.mk d _ _ => some (d.bbMin, d.bbMax)

/-- Below every internal node the split axis is `0`, `1` or `2`, both children
are present, and their boxes are the node's box cut at the split coordinate:
the left child keeps `bbMin`, the right child keeps `bbMax`. -/
def boxesLinked : KdNode → Prop
  | KdNode.null => True
  | KdNode.mk d left right =>
    d.axis < 0 ∨
    (∃ a : Nat, a < 3 ∧ d.axis = (a : Int) ∧
      nodeBox left = some (d.bbMin, d.bbMax.set a (d.pos.get a)) ∧
      nodeBox right = some (d.bbMin.set a (d.pos.get a), d.bbMax) ∧
      boxesLinked left ∧ boxesLinked right)

/-- Every rope borders the box on its side: the box of a rope on the positive
side of axis `a` (entry `2 a + 1`) starts where the box `(bbMin, bbMax)` ends,
and the box of a rope on the negative side (entry `2 a`) ends where it starts. -/
def ropesBorder (bbMin bbMax : Vec3) (ropes : List KdNode) : Prop :=
  ∀ a, a < 3 → ∀ dr rl rr,
    (ropes.getD (2 * a + 1) KdNode.null = KdNode.mk dr rl rr → dr.bbMin.get a = bbMax.get a) ∧
    (ropes.getD (2 * a) KdNode.null = KdNode.mk dr rl rr → dr.bbMax.get a = bbMin.get a)

/-- Every rope that is present refers to a subtree with linked boxes. -/
def ropesLinked (ropes : List KdNode) : Prop :=
  ∀ j dr rl rr, ropes.getD j KdNode.null = KdNode.mk dr rl rr → boxesLinked (KdNode.mk dr rl rr)

/-- For each path from a pointer down to a leaf, the `(axis, split coordinate)` pairs of
the internal nodes on it, top first. -/
def splitPaths : KdNode → List (List (Int × ℚ))
  | KdNode.null => []
  | KdNode.mk d left right =>
    if d.axis < 0 then [[]]
    else (splitPaths left ++ splitPaths right).map
      (fun p => (d.axis, d.pos.get d.axis.toNat) :: p)

/-- Box `(mn, mx)` lies inside the box `(pmn, pmx)`. -/
def boxInside (mn mx pmn pmx : Vec3) : Prop :=
  pmn.x ≤ mn.x ∧ pmn.y ≤ mn.y ∧ pmn.z ≤ mn.z ∧ mx.x ≤ pmx.x ∧ mx.y ≤ pmx.y ∧ mx.z ≤ pmx.z

/-- Every node below has a well-formed box; every internal node has an axis `a` in
`0, 1, 2`, a split coordinate `s = pos[a]` with `bbMin[a] <= s <= bbMax[a]`, a left child
whose box is the node's box with `max[a]` replaced by `s`, and a right child whose box is the
node's box with `min[a]` replaced by `s`; both child boxes lie inside the node's box. -/
def childBoxes : KdNode → Prop
  | KdNode.null => True
  | KdNode.mk d left right =>
    boxWellFormed d.bbMin d.bbMax ∧
    (d.axis < 0 ∨
     (∃ a : Nat, a < 3 ∧ d.axis = (a : Int) ∧
      d.bbMin.get a ≤ d.pos.get a ∧ d.pos.get a ≤ d.bbMax.get a ∧
      nodeBox left = some (d.bbMin, d.bbMax.set a (d.pos.get a)) ∧
      nodeBox right = some (d.bbMin.set a (d.pos.get a), d.bbMax) ∧
      boxInside d.bbMin (d.bbMax.set a (d.pos.get a)) d.bbMin d.bbMax ∧
      boxInside (d.bbMin.set a (d.pos.get a)) d.bbMax d.bbMin d.bbMax ∧
      childBoxes left ∧ childBoxes right))

/-- Index triples of a flat face array, one for each complete triple. -/
def faceTriples : List Nat → List (Nat × Nat × Nat)
  | f0 :: f1 :: f2 :: rest => (f0, f1, f2) :: faceTriples rest
  | _ => []

/-- Point `origin + t * dir` of a segment. -/
def pointAt (origin dir : Vec3) (t : ℚ) : Vec3 :=
  ⟨origin.x + t * dir.x, origin.y + t * dir.y, origin.z + t * dir.z⟩

/-- Parameter at which the line enters the slab `[lo, hi]` of one axis. -/
def slabNear (lo hi o d : ℚ) : ℚ := ((if 1 / d < 0 then hi else lo) - o) * (1 / d)

/-- Parameter at which the line leaves the slab `[lo, hi]` of one axis. -/
def slabFar (lo hi o d : ℚ) : ℚ := ((if 1 / d < 0 then lo else hi) - o) * (1 / d)

/-- Determinant `dot( edge1, pVec )` of `KdTree::hitTriangle`. -/
def triDet (vStart vEnd a b c : Vec3) : ℚ :=
  (b.sub a).dot ((vEnd.sub vStart).cross (c.sub a))

/-- The finite segment from `vStart` to `vEnd` meets the triangle `a b c`: a point
`vStart + t (vEnd - vStart)` with `0 <= t <= 1` equals `a + u (b - a) + v (c - a)` with
`0 <= u <= 1`, `v >= 0` and `u + v <= 1`. -/
def segmentMeetsTriangle (vStart vEnd a b c : Vec3) : Prop :=
  ∃ u v t : ℚ, 0 ≤ u ∧ u ≤ 1 ∧ 0 ≤ v ∧ u + v ≤ 1 ∧ 0 ≤ t ∧ t ≤ 1 ∧
    pointAt vStart (vEnd.sub vStart) t =
      ⟨a.x + u * (b.x - a.x) + v * (c.x - a.x), a.y + u * (b.y - a.y) + v * (c.y - a.y),
        a.z + u * (b.z - a.z) + v * (c.z - a.z)⟩

/-- Half-length of the segment used against a guard constant `eps`. -/
def shortHalf (eps : ℚ) : ℚ := min eps (1 / eps) / 4

/-- Every absent rope is on a side where the box `(bbMin, bbMax)` reaches the box
`(sceneMin, sceneMax)`: entry `2 a` for the negative side of axis `a`, entry `2 a + 1` for
the positive side. -/
def ropesScene (sceneMin sceneMax bbMin bbMax : Vec3) (ropes : List KdNode) : Prop :=
  ∀ a, a < 3 →
    (ropes.getD (2 * a) KdNode.null = KdNode.null → bbMin.get a = sceneMin.get a) ∧
    (ropes.getD (2 * a + 1) KdNode.null = KdNode.null → bbMax.get a = sceneMax.get a)

/-- All three corners of the face `tr` lie inside or on the box `(bbMin, bbMax)`. -/
def faceInBox (bbMin bbMax : Vec3) (vertices : List ℚ) (tr : Nat × Nat × Nat) : Prop :=
  pointInBox bbMin bbMax (vertexAt vertices tr.1) = true ∧
  pointInBox bbMin bbMax (vertexAt vertices tr.2.1) = true ∧
  pointInBox bbMin bbMax (vertexAt vertices tr.2.2) = true

/-- Some corner of the face `tr` lies inside or on the box `(bbMin, bbMax)`. -/
def faceTouchesBox (bbMin bbMax : Vec3) (vertices : List ℚ) (tr : Nat × Nat × Nat) : Prop :=
  pointInBox bbMin bbMax (vertexAt vertices tr.1) = true ∨
  pointInBox bbMin bbMax (vertexAt vertices tr.2.1) = true ∨
  pointInBox bbMin bbMax (vertexAt vertices tr.2.2) = true

/-- Left test of `splitFaces` for the face `tr`: its bounding box reaches below `bbMaxLeft`
on some axis. -/
def reachesLeft (vertices : List ℚ) (bbMaxLeft : Vec3) (tr : Nat × Nat × Nat) : Prop :=
  (getFaceBB (vertexAt vertices tr.1) (vertexAt vertices tr.2.1) (vertexAt vertices tr.2.2)).1.x
      ≤ bbMaxLeft.x ∨
  (getFaceBB (vertexAt vertices tr.1) (vertexAt vertices tr.2.1) (vertexAt vertices tr.2.2)).1.y
      ≤ bbMaxLeft.y ∨
  (getFaceBB (vertexAt vertices tr.1) (vertexAt vertices tr.2.1) (vertexAt vertices tr.2.2)).1.z
      ≤ bbMaxLeft.z

/-- Right test of `splitFaces` for the face `tr`: its bounding box reaches above `bbMinRight`
on some axis. -/
def reachesRight (vertices : List ℚ) (bbMinRight : Vec3) (tr : Nat × Nat × Nat) : Prop :=
  (getFaceBB (vertexAt vertices tr.1) (vertexAt vertices tr.2.1) (vertexAt vertices tr.2.2)).2.x
      ≥ bbMinRight.x ∨
  (getFaceBB (vertexAt vertices tr.1) (vertexAt vertices tr.2.1) (vertexAt vertices tr.2.2)).2.y
      ≥ bbMinRight.y ∨
  (getFaceBB (vertexAt vertices tr.1) (vertexAt vertices tr.2.1) (vertexAt vertices tr.2.2)).2.z
      ≥ bbMinRight.z

/-- Leaves of the tree below a pointer, left to right. -/
def treeLeaves : KdNode → List NodeData
  | KdNode.null => []
  | KdNode.mk d left right =>
    if d.axis < 0 then [d] else treeLeaves left ++ treeLeaves right

/-- The box of the node `dr` covers the box `(bbMin, bbMax)` on every axis other than `a`. -/
def coversBeside (a : Nat) (bbMin bbMax : Vec3) (dr : NodeData) : Prop :=
  ∀ k, k < 3 → k ≠ a → dr.bbMin.get k ≤ bbMin.get k ∧ bbMax.get k ≤ dr.bbMax.get k

/-- Every rope that is present covers the box `(bbMin, bbMax)` on the two axes other than
the axis of its side (entry `j` is a side of axis `j / 2`). -/
def ropesCover (bbMin bbMax : Vec3) (ropes : List KdNode) : Prop :=
  ∀ j dr rl rr, ropes.getD j KdNode.null = KdNode.mk dr rl rr →
    coversBeside (j / 2) bbMin bbMax dr

/-! ## Lemmas on the median selector and the recursion -/

theorem StdSort.sorted_le (S : StdSort) (axis : Nat) (l : List Vec3) :
    List.Pairwise (fun a b => a.get axis ≤ b.get axis) (S.sort axis l) := by
  refine (S.sorted axis l).imp ?_
  intro a b h
  simpa only [compFunc, decide_eq_false_iff_not, not_lt] using h

theorem splitNodesAtMedian_length (m : Vec3) (l : List Vec3) (h : m ∈ l) :
    (splitNodesAtMedian m l).1.length + (splitNodesAtMedian m l).2.length + 1 = l.length := by
  induction l with
  | nil => simp at h
  | cons n rest ih =>
    unfold splitNodesAtMedian
    by_cases hn : n.x = m.x ∧ n.y = m.y ∧ n.z = m.z
    · simp [hn]
    · have hne : m ≠ n := by
        intro e
        apply hn
        subst e
        exact ⟨rfl, rfl, rfl⟩
      have hm : m ∈ rest := by
        rcases List.mem_cons.mp h with h1 | h1
        · exact absurd h1 hne
        · exact h1
      have := ih hm
      simp only [hn, if_false, List.length_cons]
      omega

theorem findMedian_length (S : StdSort) (l : List Vec3) (axis : Nat) :
    (findMedian S l axis).1.length = l.length := by
  unfold findMedian
  by_cases h : l.length > 1
  · simp only [h, if_true]
    exact (S.perm axis l).length_eq
  · simp only [h, if_false]

theorem findMedian_mem (S : StdSort) (l : List Vec3) (axis : Nat) (h : l ≠ []) :
    (findMedian S l axis).2 ∈ (findMedian S l axis).1 := by
  have hlen := findMedian_length S l axis
  have hpos : 0 < l.length := List.length_pos.mpr h
  unfold findMedian at hlen ⊢
  simp only at hlen ⊢
  by_cases h1 : l.length > 1
  · simp only [h1, if_true] at hlen ⊢
    have hi : l.length / 2 < (S.sort axis l).length := by rw [hlen]; omega
    rw [List.getD_eq_getElem _ _ hi]
    exact List.getElem_mem _
  · simp only [h1, if_false] at hlen ⊢
    rw [List.getD_eq_getElem _ _ hpos]
    exact List.getElem_mem _

theorem makeTreeFuel_total (S : StdSort) (eps : ℚ) (lim : Nat) (fuel : Nat) :
    ∀ (l : List Vec3) (axis : Nat) (bbMin bbMax : Vec3) (vertices : List ℚ) (faces : List Nat)
      (splits : List (List ℚ)) (depth : Nat) (st : Build), l.length < fuel →
      ∃ r, makeTreeFuel S eps lim fuel l axis bbMin bbMax vertices faces splits depth st = some r := by
  induction fuel with
  | zero => intro l _ _ _ _ _ _ _ _ h; omega
  | succ n ih =>
    intro l axis bbMin bbMax vertices faces splits depth st h
    unfold makeTreeFuel
    by_cases hc : (lim > 0 ∧ depth > lim) ∨ l.length = 0
    · simp only [hc, if_true]; exact ⟨_, rfl⟩
    · simp only [hc, if_false]
      by_cases hs : (findMedian S l axis).2.get axis ∈ splitsOn splits axis
      · simp only [hs, if_true]; exact ⟨_, rfl⟩
      · simp only [hs, if_false]
        have hne : l ≠ [] := by
          intro e; apply hc; right; simp [e]
        have hsum := splitNodesAtMedian_length _ _ (findMedian_mem S l axis hne)
        rw [findMedian_length] at hsum
        obtain ⟨⟨lt, st2⟩, hl⟩ := ih (splitNodesAtMedian (findMedian S l axis).2 (findMedian S l axis).1).1
          ((axis + 1) % 3) bbMin (bbMax.set axis ((findMedian S l axis).2.get axis)) vertices
          (splitFaces vertices (bbMax.set axis ((findMedian S l axis).2.get axis))
            (bbMin.set axis ((findMedian S l axis).2.get axis)) faces).1
          (recordSplit splits axis ((findMedian S l axis).2.get axis)) (depth + 1)
          (st.pushNonLeaf _) (by omega)
        rw [hl]
        simp only
        obtain ⟨⟨rt, st3⟩, hr⟩ := ih (splitNodesAtMedian (findMedian S l axis).2 (findMedian S l axis).1).2
          ((axis + 1) % 3) (bbMin.set axis ((findMedian S l axis).2.get axis)) bbMax vertices
          (splitFaces vertices (bbMax.set axis ((findMedian S l axis).2.get axis))
            (bbMin.set axis ((findMedian S l axis).2.get axis)) faces).2
          (recordSplit splits axis ((findMedian S l axis).2.get axis)) (depth + 1)
          st2 (by omega)
        rw [hr]
        exact ⟨_, rfl⟩

theorem makeTreeFuel_cases (S : StdSort) (eps : ℚ) (lim n : Nat)
    (l : List Vec3) (axis : Nat) (bbMin bbMax : Vec3) (vertices : List ℚ) (faces : List Nat)
    (splits : List (List ℚ)) (depth : Nat) (st st' : Build) (t : KdNode)
    (h : makeTreeFuel S eps lim (n + 1) l axis bbMin bbMax vertices faces splits depth st
      = some (t, st')) :
    ((((lim > 0 ∧ depth > lim) ∨ l.length = 0) ∨
        (findMedian S l axis).2.get axis ∈ splitsOn splits axis) ∧
      t = KdNode.mk (createLeafNode eps st.mLeaves.length bbMin bbMax vertices faces)
        KdNode.null KdNode.null ∧
      st' = st.pushLeaf (createLeafNode eps st.mLeaves.length bbMin bbMax vertices faces)) ∨
    (¬ ((lim > 0 ∧ depth > lim) ∨ l.length = 0) ∧
      (findMedian S l axis).2.get axis ∉ splitsOn splits axis ∧
      ∃ left right st2,
        makeTreeFuel S eps lim n (splitNodesAtMedian (findMedian S l axis).2 (findMedian S l axis).1).1
          ((axis + 1) % 3) bbMin (bbMax.set axis ((findMedian S l axis).2.get axis)) vertices
          (splitFaces vertices (bbMax.set axis ((findMedian S l axis).2.get axis))
            (bbMin.set axis ((findMedian S l axis).2.get axis)) faces).1
          (recordSplit splits axis ((findMedian S l axis).2.get axis)) (depth + 1)
          (st.pushNonLeaf ⟨st.mNonLeaves.length, (axis : Int), (findMedian S l axis).2,
            bbMin, bbMax, []⟩) = some (left, st2) ∧
        makeTreeFuel S eps lim n (splitNodesAtMedian (findMedian S l axis).2 (findMedian S l axis).1).2
          ((axis + 1) % 3) (bbMin.set axis ((findMedian S l axis).2.get axis)) bbMax vertices
          (splitFaces vertices (bbMax.set axis ((findMedian S l axis).2.get axis))
            (bbMin.set axis ((findMedian S l axis).2.get axis)) faces).2
          (recordSplit splits axis ((findMedian S l axis).2.get axis)) (depth + 1)
          st2 = some (right, st') ∧
        t = KdNode.mk ⟨st.mNonLeaves.length, (axis : Int), (findMedian S l axis).2,
            bbMin, bbMax, []⟩ left right) := by
  unfold makeTreeFuel at h
  by_cases hc : (lim > 0 ∧ depth > lim) ∨ l.length = 0
  · simp only [hc, if_true, Option.some.injEq, Prod.mk.injEq] at h
    exact Or.inl ⟨Or.inl hc, h.1.symm, h.2.symm⟩
  · simp only [hc, if_false] at h
    by_cases hs : (findMedian S l axis).2.get axis ∈ splitsOn splits axis
    · simp only [hs, if_true, Option.some.injEq, Prod.mk.injEq] at h
      exact Or.inl ⟨Or.inr hs, h.1.symm, h.2.symm⟩
    · simp only [hs, if_false] at h
      refine Or.inr ⟨hc, hs, ?_⟩
      split at h
      · exact absurd h (by simp)
      · rename_i left st2 hl
        split at h
        · exact absurd h (by simp)
        · rename_i right st3 hr
          simp only [Option.some.injEq, Prod.mk.injEq] at h
          refine ⟨left, right, st2, hl, ?_, h.1.symm⟩
          rw [hr, h.2]

theorem makeTreeFuel_shape (S : StdSort) (eps : ℚ) (lim n : Nat) :
    ∀ (l : List Vec3) (axis : Nat) (bbMin bbMax : Vec3) (vertices : List ℚ) (faces : List Nat)
      (splits : List (List ℚ)) (depth : Nat) (st st' : Build) (t : KdNode),
      makeTreeFuel S eps lim n l axis bbMin bbMax vertices faces splits depth st = some (t, st') →
      t ≠ KdNode.null ∧ strictBinary t = true ∧
      st'.mLeaves.length + st.mNonLeaves.length = st.mLeaves.length + st'.mNonLeaves.length + 1 ∧
      st'.mNodes.length + st.mLeaves.length + st.mNonLeaves.length =
        st.mNodes.length + st'.mLeaves.length + st'.mNonLeaves.length := by
  induction n with
  | zero => intro l axis bbMin bbMax vertices faces splits depth st st' t h; simp [makeTreeFuel] at h
  | succ n ih =>
    intro l axis bbMin bbMax vertices faces splits depth st st' t h
    rcases makeTreeFuel_cases S eps lim n l axis bbMin bbMax vertices faces splits depth st st' t h
      with ⟨_, ht, hst⟩ | ⟨_, _, left, right, st2, hl, hr, ht⟩
    · subst ht; subst hst
      simp [strictBinary, createLeafNode, Build.pushLeaf]
      omega
    · subst ht
      obtain ⟨l1, l2, l3, l4⟩ := ih _ _ _ _ _ _ _ _ _ _ _ hl
      obtain ⟨r1, r2, r3, r4⟩ := ih _ _ _ _ _ _ _ _ _ _ _ hr
      simp [Build.pushNonLeaf] at l3 l4
      refine ⟨by simp, ?_, by omega, by omega⟩
      have hax : ¬ ((axis : Int) < 0) := by omega
      simp [strictBinary, hax, l1, l2, r1, r2]

theorem makeTreeFuel_depth (S : StdSort) (eps : ℚ) (lim n : Nat) (hlim : 0 < lim) :
    ∀ (l : List Vec3) (axis : Nat) (bbMin bbMax : Vec3) (vertices : List ℚ) (faces : List Nat)
      (splits : List (List ℚ)) (depth : Nat) (st st' : Build) (t : KdNode),
      makeTreeFuel S eps lim n l axis bbMin bbMax vertices faces splits depth st = some (t, st') →
      depth ≤ lim + 1 → ∀ k, ∀ d ∈ leafDepths t k, d + depth ≤ k + lim + 1 := by
  induction n with
  | zero => intro l axis bbMin bbMax vertices faces splits depth st st' t h; simp [makeTreeFuel] at h
  | succ n ih =>
    intro l axis bbMin bbMax vertices faces splits depth st st' t h hd k d hmem
    rcases makeTreeFuel_cases S eps lim n l axis bbMin bbMax vertices faces splits depth st st' t h
      with ⟨_, ht, _⟩ | ⟨hc, _, left, right, st2, hl, hr, ht⟩
    · subst ht
      simp [leafDepths, createLeafNode] at hmem
      omega
    · subst ht
      have hax : ¬ ((axis : Int) < 0) := by omega
      have hd1 : depth + 1 ≤ lim + 1 := by
        by_contra hcon
        exact hc (Or.inl ⟨hlim, by omega⟩)
      simp only [leafDepths, hax, if_false, List.mem_append] at hmem
      rcases hmem with hm | hm
      · have := ih _ _ _ _ _ _ _ _ _ _ _ hl hd1 (k + 1) d hm
        omega
      · have := ih _ _ _ _ _ _ _ _ _ _ _ hr hd1 (k + 1) d hm
        omega

/-! ## Lemmas on boxes and ropes -/

theorem Vec3.get_set_same (v : Vec3) (i : Nat) (q : ℚ) : (v.set i q).get i = q := by
  unfold Vec3.set Vec3.get
  split <;> simp

theorem Vec3.get_set_ne (v : Vec3) (i j : Nat) (q : ℚ) (hi : i < 3) (hj : j < 3) (h : i ≠ j) :
    (v.set i q).get j = v.get j := by
  interval_cases i <;> interval_cases j <;> simp_all [Vec3.set, Vec3.get]

theorem getD_set_same (rs : List KdNode) (i : Nat) (x : KdNode) (h : i < rs.length) :
    (rs.set i x).getD i KdNode.null = x := by
  simp [List.getD_eq_getElem?_getD, List.getElem?_set, h]

theorem getD_set_ne (rs : List KdNode) (i j : Nat) (x : KdNode) (h : i ≠ j) :
    (rs.set i x).getD j KdNode.null = rs.getD j KdNode.null := by
  simp [List.getD_eq_getElem?_getD, List.getElem?_set, h]

theorem optimizeRope_null (side : Nat) (mn mx : Vec3) :
    optimizeRope side mn mx KdNode.null = KdNode.null := by
  simp [optimizeRope]

theorem optimizeSide_length (mn mx : Vec3) (rs : List KdNode) (i : Nat) :
    (optimizeSide mn mx rs i).length = rs.length := by
  unfold optimizeSide
  split
  · rfl
  · rw [List.length_set]

theorem optimizeSide_getD (mn mx : Vec3) (rs : List KdNode) (i j : Nat) :
    (optimizeSide mn mx rs i).getD j KdNode.null =
      if j = i then optimizeRope i mn mx (rs.getD i KdNode.null) else rs.getD j KdNode.null := by
  unfold optimizeSide
  by_cases hji : j = i
  · subst hji
    simp only [if_true]
    split
    · rename_i hnull
      rw [hnull, optimizeRope_null]
    · rename_i hnn
      have hlt : j < rs.length := by
        by_contra hcon
        apply hnn
        rw [List.getD_eq_getElem?_getD, List.getElem?_eq_none (by omega)]
        rfl
      rw [getD_set_same _ _ _ hlt]
  · simp only [hji, if_false]
    split
    · rfl
    · rw [getD_set_ne _ _ _ _ (Ne.symm hji)]

theorem foldl_optimizeSide_length (mn mx : Vec3) (n : Nat) (rs : List KdNode) :
    ((List.range n).foldl (optimizeSide mn mx) rs).length = rs.length := by
  induction n with
  | zero => simp
  | succ n ih =>
    rw [List.range_succ, List.foldl_append]
    simp only [List.foldl_cons, List.foldl_nil]
    rw [optimizeSide_length]
    exact ih

theorem foldl_optimizeSide_getD (mn mx : Vec3) (n : Nat) (rs : List KdNode) (j : Nat) :
    ((List.range n).foldl (optimizeSide mn mx) rs).getD j KdNode.null =
      if j < n then optimizeRope j mn mx (rs.getD j KdNode.null) else rs.getD j KdNode.null := by
  induction n with
  | zero => simp
  | succ n ih =>
    rw [List.range_succ, List.foldl_append]
    simp only [List.foldl_cons, List.foldl_nil]
    rw [optimizeSide_getD]
    by_cases hjn : j = n
    · subst hjn
      simp only [lt_irrefl, if_false] at ih
      rw [ih]
      simp
    · simp only [hjn, if_false]
      rw [ih]
      by_cases h1 : j < n
      · simp [h1, Nat.lt_succ_of_lt h1]
      · have h2 : ¬ j < n + 1 := by omega
        simp [h1, h2]

theorem nodeBox_some (t : KdNode) (b : Vec3 × Vec3) (h : nodeBox t = some b) :
    ∃ d l r, t = KdNode.mk d l r ∧ d.bbMin = b.1 ∧ d.bbMax = b.2 := by
  cases t with
  | null => simp [nodeBox] at h
  | mk d l r =>
    simp only [nodeBox, Option.some.injEq] at h
    exact ⟨d, l, r, rfl, by rw [← h], by rw [← h]⟩

theorem makeTreeFuel_boxes (S : StdSort) (eps : ℚ) (lim n : Nat) :
    ∀ (l : List Vec3) (axis : Nat) (bbMin bbMax : Vec3) (vertices : List ℚ) (faces : List Nat)
      (splits : List (List ℚ)) (depth : Nat) (st st' : Build) (t : KdNode),
      makeTreeFuel S eps lim n l axis bbMin bbMax vertices faces splits depth st = some (t, st') →
      axis < 3 → nodeBox t = some (bbMin, bbMax) ∧ boxesLinked t := by
  induction n with
  | zero => intro l axis bbMin bbMax vertices faces splits depth st st' t h; simp [makeTreeFuel] at h
  | succ n ih =>
    intro l axis bbMin bbMax vertices faces splits depth st st' t h hax
    rcases makeTreeFuel_cases S eps lim n l axis bbMin bbMax vertices faces splits depth st st' t h
      with ⟨_, ht, _⟩ | ⟨_, _, left, right, st2, hl, hr, ht⟩
    · subst ht
      simp [nodeBox, boxesLinked, createLeafNode]
    · subst ht
      have hax1 : (axis + 1) % 3 < 3 := Nat.mod_lt _ (by norm_num)
      obtain ⟨l1, l2⟩ := ih _ _ _ _ _ _ _ _ _ _ _ hl hax1
      obtain ⟨r1, r2⟩ := ih _ _ _ _ _ _ _ _ _ _ _ hr hax1
      refine ⟨by simp [nodeBox], ?_⟩
      unfold boxesLinked
      exact Or.inr ⟨axis, hax, rfl, l1, r1, l2, r2⟩

theorem optimizeRope_odd (side : Nat) (mn mx : Vec3) (hs : side % 2 = 1) :
    ∀ (R : KdNode) (d : NodeData) (l r : KdNode), R = KdNode.mk d l r → boxesLinked R →
      ∃ d1 l1 r1, optimizeRope side mn mx R = KdNode.mk d1 l1 r1 ∧ d1.bbMin = d.bbMin ∧
        boxesLinked (KdNode.mk d1 l1 r1) := by
  intro R
  induction R with
  | null => intro d l r h; cases h
  | mk d0 l0 r0 ihl _ =>
    intro d l r h hb
    cases h
    unfold optimizeRope
    have hs0 : ¬ side % 2 = 0 := by omega
    by_cases hax : d0.axis ≥ 0
    · simp only [hax, if_true, hs0, if_false]
      by_cases hc : d0.axis = ((side >>> 1 : Nat) : Int) ∨
          d0.pos.get d0.axis.toNat ≥ mx.get d0.axis.toNat
      · rw [if_pos hc]
        have hb1 := hb
        unfold boxesLinked at hb1
        rcases hb1 with hneg | ⟨a, _, _, hlb, _, hll, _⟩
        · omega
        · obtain ⟨dl, ll, lr, hleq, hmin, _⟩ := nodeBox_some _ _ hlb
          obtain ⟨d1, l1, r1, e1, e2, e3⟩ := ihl dl ll lr hleq hll
          exact ⟨d1, l1, r1, e1, by rw [e2, hmin], e3⟩
      · rw [if_neg hc]
        exact ⟨d0, l0, r0, rfl, rfl, hb⟩
    · simp only [hax, if_false]
      exact ⟨d0, l0, r0, rfl, rfl, hb⟩

theorem optimizeRope_even (side : Nat) (mn mx : Vec3) (hs : side % 2 = 0) :
    ∀ (R : KdNode) (d : NodeData) (l r : KdNode), R = KdNode.mk d l r → boxesLinked R →
      ∃ d1 l1 r1, optimizeRope side mn mx R = KdNode.mk d1 l1 r1 ∧ d1.bbMax = d.bbMax ∧
        boxesLinked (KdNode.mk d1 l1 r1) := by
  intro R
  induction R with
  | null => intro d l r h; cases h
  | mk d0 l0 r0 _ ihr =>
    intro d l r h hb
    cases h
    unfold optimizeRope
    by_cases hax : d0.axis ≥ 0
    · simp only [hax, if_true, hs]
      by_cases hc : d0.axis = ((side >>> 1 : Nat) : Int) ∨
          d0.pos.get d0.axis.toNat ≤ mn.get d0.axis.toNat
      · rw [if_pos hc]
        have hb1 := hb
        unfold boxesLinked at hb1
        rcases hb1 with hneg | ⟨a, _, _, _, hrb, _, hrr⟩
        · omega
        · obtain ⟨dr, rl, rr, hreq, _, hmax⟩ := nodeBox_some _ _ hrb
          obtain ⟨d1, l1, r1, e1, e2, e3⟩ := ihr dr rl rr hreq hrr
          exact ⟨d1, l1, r1, e1, by rw [e2, hmax], e3⟩
      · rw [if_neg hc]
        exact ⟨d0, l0, r0, rfl, rfl, hb⟩
    · simp only [hax, if_false]
      exact ⟨d0, l0, r0, rfl, rfl, hb⟩

theorem createRopes_inv (Inv : NodeData → KdNode → KdNode → List KdNode → Prop)
    (step : ∀ d left right ropes, ¬ d.axis < 0 → Inv d left right ropes →
      (∀ dl ll lr, left = KdNode.mk dl ll lr →
        Inv dl ll lr (((List.range 6).foldl (optimizeSide d.bbMin d.bbMax) ropes).set
          (d.axis.toNat * 2 + 1) right)) ∧
      (∀ dr rl rr, right = KdNode.mk dr rl rr →
        Inv dr rl rr (((List.range 6).foldl (optimizeSide d.bbMin d.bbMax) ropes).set
          (d.axis.toNat * 2) left))) :
    ∀ (node : KdNode) (ropes : List KdNode) (d : NodeData) (l r : KdNode),
      node = KdNode.mk d l r → Inv d l r ropes →
      ∀ p ∈ createRopes node ropes, ∃ l1 r1, Inv p.1 l1 r1 p.2 ∧ p.1.axis < 0 := by
  intro node
  induction node with
  | null => intro ropes d l r h; cases h
  | mk d0 l0 r0 ihl ihr =>
    intro ropes d l r h hinv p hp
    cases h
    unfold createRopes at hp
    by_cases hax : d0.axis < 0
    · simp only [hax, if_true, List.mem_singleton] at hp
      subst hp
      exact ⟨l0, r0, hinv, hax⟩
    · simp only [hax, if_false, List.mem_append] at hp
      obtain ⟨sl, sr⟩ := step d0 l0 r0 ropes hax hinv
      rcases hp with hp | hp
      · cases hl0 : l0 with
        | null => rw [hl0] at hp; simp [createRopes] at hp
        | mk dl ll lr => exact ihl _ dl ll lr hl0 (sl dl ll lr hl0) p hp
      · cases hr0 : r0 with
        | null => rw [hr0] at hp; simp [createRopes] at hp
        | mk dr rl rr => exact ihr _ dr rl rr hr0 (sr dr rl rr hr0) p hp

theorem optimize_ropesLinked (mn mx : Vec3) (ropes : List KdNode) (h : ropesLinked ropes) :
    ropesLinked ((List.range 6).foldl (optimizeSide mn mx) ropes) := by
  intro j dr rl rr hj
  rw [foldl_optimizeSide_getD] at hj
  by_cases hj6 : j < 6
  · rw [if_pos hj6] at hj
    cases hr : ropes.getD j KdNode.null with
    | null => rw [hr, optimizeRope_null] at hj; cases hj
    | mk d0 l0 r0 =>
      rw [hr] at hj
      have hl := h j d0 l0 r0 hr
      rcases Nat.mod_two_eq_zero_or_one j with he | ho
      · obtain ⟨d1, l1, r1, e1, _, e3⟩ := optimizeRope_even j mn mx he _ d0 l0 r0 rfl hl
        rw [e1] at hj; rw [← hj]; exact e3
      · obtain ⟨d1, l1, r1, e1, _, e3⟩ := optimizeRope_odd j mn mx ho _ d0 l0 r0 rfl hl
        rw [e1] at hj; rw [← hj]; exact e3
  · rw [if_neg hj6] at hj
    exact h j dr rl rr hj

theorem optimize_ropesBorder (mn mx : Vec3) (ropes : List KdNode) (hl : ropesLinked ropes)
    (h : ropesBorder mn mx ropes) :
    ropesBorder mn mx ((List.range 6).foldl (optimizeSide mn mx) ropes) := by
  intro a ha dr rl rr
  constructor
  · intro hj
    rw [foldl_optimizeSide_getD, if_pos (by omega)] at hj
    cases hr : ropes.getD (2 * a + 1) KdNode.null with
    | null => rw [hr, optimizeRope_null] at hj; cases hj
    | mk d0 l0 r0 =>
      rw [hr] at hj
      obtain ⟨d1, l1, r1, e1, e2, _⟩ := optimizeRope_odd (2 * a + 1) mn mx (by omega) _ d0 l0 r0 rfl
        (hl _ d0 l0 r0 hr)
      rw [e1] at hj
      cases hj
      rw [e2]
      exact (h a ha d0 l0 r0).1 hr
  · intro hj
    rw [foldl_optimizeSide_getD, if_pos (by omega)] at hj
    cases hr : ropes.getD (2 * a) KdNode.null with
    | null => rw [hr, optimizeRope_null] at hj; cases hj
    | mk d0 l0 r0 =>
      rw [hr] at hj
      obtain ⟨d1, l1, r1, e1, e2, _⟩ := optimizeRope_even (2 * a) mn mx (by omega) _ d0 l0 r0 rfl
        (hl _ d0 l0 r0 hr)
      rw [e1] at hj
      cases hj
      rw [e2]
      exact (h a ha d0 l0 r0).2 hr

theorem ropesLinked_set (ropes : List KdNode) (i : Nat) (x : KdNode) (h : ropesLinked ropes)
    (hx : boxesLinked x) : ropesLinked (ropes.set i x) := by
  intro j dr rl rr hj
  by_cases hij : i = j
  · subst hij
    by_cases hlt : i < ropes.length
    · rw [getD_set_same _ _ _ hlt] at hj
      rw [← hj]; exact hx
    · rw [List.getD_eq_getElem?_getD, List.getElem?_eq_none (by rw [List.length_set]; omega)] at hj
      cases hj
  · rw [getD_set_ne _ _ _ _ hij] at hj
    exact h j dr rl rr hj

theorem getD_replicate_null (n j : Nat) :
    (List.replicate n KdNode.null).getD j KdNode.null = KdNode.null := by
  rw [List.getD_eq_getElem?_getD, List.getElem?_replicate]
  by_cases h : j < n
  · rw [if_pos h]; rfl
  · rw [if_neg h]; rfl

theorem createRopes_border (root : KdNode) (d : NodeData) (l r : KdNode)
    (hroot : root = KdNode.mk d l r) (hb : boxesLinked root) :
    ∀ p ∈ createRopes root (List.replicate 6 KdNode.null), p.2.length = 6 ∧
      ropesBorder p.1.bbMin p.1.bbMax p.2 := by
  intro p hp
  have key := createRopes_inv
    (fun d l r ropes => boxesLinked (KdNode.mk d l r) ∧ ropes.length = 6 ∧ ropesLinked ropes ∧
      ropesBorder d.bbMin d.bbMax ropes) ?_ root (List.replicate 6 KdNode.null) d l r hroot ?_ p hp
  · obtain ⟨_, _, ⟨_, h2, _, h4⟩, _⟩ := key
    exact ⟨h2, h4⟩
  · intro d left right ropes hax ⟨hbl, hlen, hlk, hbd⟩
    have hbl1 := hbl
    unfold boxesLinked at hbl1
    rcases hbl1 with hneg | ⟨ax, hax3, haxe, hlb, hrb, hll, hrl⟩
    · exact absurd hneg hax
    have htn : d.axis.toNat = ax := by omega
    have hlen1 := foldl_optimizeSide_length d.bbMin d.bbMax 6 ropes
    have hlk1 := optimize_ropesLinked d.bbMin d.bbMax ropes hlk
    have hbd1 := optimize_ropesBorder d.bbMin d.bbMax ropes hlk hbd
    rw [htn]
    constructor
    · intro dl ll lr hleft
      rw [hleft] at hlb hll
      simp only [nodeBox, Option.some.injEq, Prod.mk.injEq] at hlb
      refine ⟨hll, by rw [List.length_set, hlen1, hlen], ropesLinked_set _ _ _ hlk1 hrl, ?_⟩
      intro a ha dr rl rr
      constructor
      · intro hj
        by_cases hae : a = ax
        · subst hae
          rw [show a * 2 + 1 = 2 * a + 1 by omega,
            getD_set_same _ _ _ (by rw [hlen1, hlen]; omega)] at hj
          rw [hj] at hrb
          simp only [nodeBox, Option.some.injEq, Prod.mk.injEq] at hrb
          rw [hrb.1, hlb.2, Vec3.get_set_same, Vec3.get_set_same]
        · rw [getD_set_ne _ _ _ _ (by omega)] at hj
          rw [hlb.2, Vec3.get_set_ne _ _ _ _ hax3 ha (Ne.symm hae)]
          exact (hbd1 a ha dr rl rr).1 hj
      · intro hj
        rw [getD_set_ne _ _ _ _ (by omega)] at hj
        rw [hlb.1]
        exact (hbd1 a ha dr rl rr).2 hj
    · intro dr0 rl0 rr0 hright
      rw [hright] at hrb hrl
      simp only [nodeBox, Option.some.injEq, Prod.mk.injEq] at hrb
      refine ⟨hrl, by rw [List.length_set, hlen1, hlen], ropesLinked_set _ _ _ hlk1 hll, ?_⟩
      intro a ha dr rl rr
      constructor
      · intro hj
        rw [getD_set_ne _ _ _ _ (by omega)] at hj
        rw [hrb.2]
        exact (hbd1 a ha dr rl rr).1 hj
      · intro hj
        by_cases hae : a = ax
        · subst hae
          rw [show a * 2 = 2 * a by omega,
            getD_set_same _ _ _ (by rw [hlen1, hlen]; omega)] at hj
          rw [hj] at hlb
          simp only [nodeBox, Option.some.injEq, Prod.mk.injEq] at hlb
          rw [hlb.2, hrb.1, Vec3.get_set_same, Vec3.get_set_same]
        · rw [getD_set_ne _ _ _ _ (by omega)] at hj
          rw [hrb.1, Vec3.get_set_ne _ _ _ _ hax3 ha (Ne.symm hae)]
          exact (hbd1 a ha dr rl rr).2 hj
  · rw [hroot] at hb
    refine ⟨hb, by simp, ?_, ?_⟩
    · intro j dr rl rr hj
      rw [getD_replicate_null] at hj
      cases hj
    · intro a _ dr rl rr
      constructor <;> intro hj <;> rw [getD_replicate_null] at hj <;> cases hj

/-! ## The constructor -/

theorem makeTree_some (S : StdSort) (eps : ℚ) (lim : Nat) (l : List Vec3) (axis : Nat)
    (bbMin bbMax : Vec3) (vertices : List ℚ) (faces : List Nat) (splits : List (List ℚ))
    (depth : Nat) (st : Build) :
    ∃ root st1, makeTree S eps lim l axis bbMin bbMax vertices faces splits depth st
      = some (root, st1) := by
  obtain ⟨⟨root, st1⟩, h⟩ := makeTreeFuel_total S eps lim (l.length + 1) l axis bbMin bbMax
    vertices faces splits depth st (Nat.lt_succ_self _)
  exact ⟨root, st1, h⟩

theorem construct_cases (S : StdSort) (eps : ℚ) (cfg : Nat) (vertices : List ℚ)
    (faces : List Nat) (bbMin bbMax : Vec3) :
    ((vertices.length ≤ 0 ∨ faces.length ≤ 0) ∧
      construct S eps cfg vertices faces bbMin bbMax = some Tree.init) ∨
    (¬ (vertices.length ≤ 0 ∨ faces.length ≤ 0) ∧ ∃ root st,
      makeTree S eps (setDepthLimit cfg vertices) (packVerts vertices) 0 bbMin bbMax
        vertices faces [[], [], []] 1 ⟨[], [], []⟩ = some (root, st) ∧
      construct S eps cfg vertices faces bbMin bbMax =
        some ⟨root, st.mNodes, st.mLeaves, st.mNonLeaves, setDepthLimit cfg vertices,
          createRopes root (List.replicate 6 KdNode.null)⟩) := by
  by_cases h : vertices.length ≤ 0 ∨ faces.length ≤ 0
  · left
    exact ⟨h, by unfold construct; rw [if_pos h]⟩
  · right
    obtain ⟨root, st, hm⟩ := makeTree_some S eps (setDepthLimit cfg vertices)
      (packVerts vertices) 0 bbMin bbMax vertices faces [[], [], []] 1 ⟨[], [], []⟩
    refine ⟨h, root, st, hm, ?_⟩
    unfold construct
    rw [if_neg h, hm]

/-! ## Termination of the recursion -/

/-- C10: `makeTree` gives a result on every input: any position list (coincident
positions included), any depth limit (`0`, which switches the depth cut-off
off, included), any split history. The reason is that, whenever the position
list is not empty, the left and right lists handed to the two recursive calls
hold together exactly one position fewer than the current list. -/
theorem makeTree_total (S : StdSort) (eps : ℚ) (lim : Nat) (l : List Vec3) (axis : Nat)
    (bbMin bbMax : Vec3) (vertices : List ℚ) (faces : List Nat) (splits : List (List ℚ))
    (depth : Nat) (st : Build) :
    (∃ r, makeTree S eps lim l axis bbMin bbMax vertices faces splits depth st = some r) ∧
    (l ≠ [] →
      (splitNodesAtMedian (findMedian S l axis).2 (findMedian S l axis).1).1.length +
      (splitNodesAtMedian (findMedian S l axis).2 (findMedian S l axis).1).2.length + 1
        = l.length) := by
  constructor
  · exact makeTreeFuel_total S eps lim (l.length + 1) l axis bbMin bbMax vertices faces
      splits depth st (Nat.lt_succ_self _)
  · intro hne
    have h := splitNodesAtMedian_length _ _ (findMedian_mem S l axis hne)
    rw [findMedian_length] at h
    exact h

/-! ## Shape of the tree -/

/-- C3: in the tree `makeTree` builds (starting from empty collections), every
node with `axis >= 0` has both children present, every leaf (`axis < 0`) has
two `NULL` children, and the number of entries of `mNonLeaves` is the number
of entries of `mLeaves` minus one. -/
theorem makeTree_strict_binary (S : StdSort) (eps : ℚ) (lim : Nat) (l : List Vec3)
    (axis : Nat) (bbMin bbMax : Vec3) (vertices : List ℚ) (faces : List Nat)
    (splits : List (List ℚ)) (depth : Nat) :
    ∃ root st, makeTree S eps lim l axis bbMin bbMax vertices faces splits depth ⟨[], [], []⟩
        = some (root, st) ∧
      root ≠ KdNode.null ∧ strictBinary root = true ∧
      st.mNonLeaves.length + 1 = st.mLeaves.length := by
  obtain ⟨root, st, h⟩ := makeTree_some S eps lim l axis bbMin bbMax vertices faces splits
    depth ⟨[], [], []⟩
  obtain ⟨h1, h2, h3, _⟩ := makeTreeFuel_shape S eps lim _ _ _ _ _ _ _ _ _ _ _ _ h
  refine ⟨root, st, h, h1, h2, ?_⟩
  simp only [List.length_nil] at h3
  omega

/-! ## Depth bound -/

/-- C2 (as amended): when the depth limit `L` used by the constructor (the
configured value, or the derived one when unset) is at least `1`, every path
from the root to a leaf has at most `L` edges. -/
theorem depth_bound (S : StdSort) (eps : ℚ) (cfg : Nat) (vertices : List ℚ)
    (faces : List Nat) (bbMin bbMax : Vec3) (hL : 0 < setDepthLimit cfg vertices) :
    ∃ t, construct S eps cfg vertices faces bbMin bbMax = some t ∧
      ∀ d ∈ leafDepths t.mRoot 0, d ≤ setDepthLimit cfg vertices := by
  rcases construct_cases S eps cfg vertices faces bbMin bbMax with ⟨_, hc⟩ | ⟨_, root, st, hm, hc⟩
  · exact ⟨_, hc, by simp [Tree.init, leafDepths]⟩
  · refine ⟨_, hc, ?_⟩
    intro d hd
    have := makeTreeFuel_depth S eps _ _ hL _ _ _ _ _ _ _ _ _ _ _ hm (by omega) 0 d hd
    omega

/-- Witness for C2: a mesh of three vertices built with the configured depth `1`. -/
theorem depth_bound_witness :
    0 < setDepthLimit 1 [0, 2, 0, 1, 0, 0, 2, 1, 0] ∧
    ∃ t, construct insertionStdSort (1 / 100000) 1 [0, 2, 0, 1, 0, 0, 2, 1, 0] [0, 1, 2]
        ⟨0, 0, 0⟩ ⟨2, 2, 0⟩ = some t ∧
      ∀ d ∈ leafDepths t.mRoot 0, d ≤ setDepthLimit 1 [0, 2, 0, 1, 0, 0, 2, 1, 0] :=
  ⟨by simp [setDepthLimit, depthUnset],
   depth_bound insertionStdSort (1 / 100000) 1 [0, 2, 0, 1, 0, 0, 2, 1, 0] [0, 1, 2]
    ⟨0, 0, 0⟩ ⟨2, 2, 0⟩ (by simp [setDepthLimit, depthUnset])⟩

set_option maxRecDepth 4000 in
/-- C2 fails as stated: with the configured depth `0` the depth cut-off is
switched off (`mDepthLimit > 0` is false), and the tree of this three-vertex
mesh has a leaf two edges below the root, more than the limit `0`. -/
theorem depth_bound_fails_for_limit_zero :
    ∃ t, construct insertionStdSort (1 / 100000) 0 [0, 2, 0, 1, 0, 0, 2, 1, 0] [0, 1, 2]
        ⟨0, 0, 0⟩ ⟨2, 2, 0⟩ = some t ∧
      t.mDepthLimit = 0 ∧ ∃ d ∈ leafDepths t.mRoot 0, t.mDepthLimit < d := by
  simp [construct, makeTree, makeTreeFuel, packVerts, vertexAt, setDepthLimit, depthUnset,
    findMedian, insertionStdSort, insertSort, compFunc, splitNodesAtMedian, Vec3.get, Vec3.set,
    splitsOn, recordSplit, Build.pushLeaf, Build.pushNonLeaf, List.range, List.range.loop,
    createLeafNode, leafDepths]


/-! ## Ropes -/

theorem subnodes_self (d : NodeData) (l r : KdNode) :
    KdNode.mk d l r ∈ subnodes (KdNode.mk d l r) := by
  simp [subnodes]

theorem subnodes_trans (a : KdNode) : ∀ (c b : KdNode), a ∈ subnodes b → b ∈ subnodes c →
    a ∈ subnodes c := by
  intro c
  induction c with
  | null => intro b _ hb; simp [subnodes] at hb
  | mk d l r ihl ihr =>
    intro b ha hb
    simp only [subnodes, List.mem_cons, List.mem_append] at hb ⊢
    rcases hb with hb | hb | hb
    · subst hb
      simpa only [subnodes, List.mem_cons, List.mem_append] using ha
    · exact Or.inr (Or.inl (ihl b ha hb))
    · exact Or.inr (Or.inr (ihr b ha hb))

theorem optimizeRope_subnodes (side : Nat) (mn mx : Vec3) : ∀ R : KdNode,
    optimizeRope side mn mx R = KdNode.null ∨ optimizeRope side mn mx R ∈ subnodes R := by
  intro R
  induction R with
  | null => left; rfl
  | mk d l r ihl ihr =>
    unfold optimizeRope
    have hl : ∀ x, (x = KdNode.null ∨ x ∈ subnodes l) →
        (x = KdNode.null ∨ x ∈ subnodes (KdNode.mk d l r)) := by
      intro x hx
      rcases hx with hx | hx
      · exact Or.inl hx
      · right; simp only [subnodes, List.mem_cons, List.mem_append]; exact Or.inr (Or.inl hx)
    have hr : ∀ x, (x = KdNode.null ∨ x ∈ subnodes r) →
        (x = KdNode.null ∨ x ∈ subnodes (KdNode.mk d l r)) := by
      intro x hx
      rcases hx with hx | hx
      · exact Or.inl hx
      · right; simp only [subnodes, List.mem_cons, List.mem_append]; exact Or.inr (Or.inr hx)
    split
    · split
      · split
        · exact hr _ ihr
        · exact Or.inr (subnodes_self d l r)
      · split
        · exact hl _ ihl
        · exact Or.inr (subnodes_self d l r)
    · exact Or.inr (subnodes_self d l r)

theorem createRopes_targets (root : KdNode) (d : NodeData) (l r : KdNode)
    (hroot : root = KdNode.mk d l r) :
    ∀ p ∈ createRopes root (List.replicate 6 KdNode.null), p.1.axis < 0 ∧ p.2.length = 6 ∧
      ∀ j, p.2.getD j KdNode.null = KdNode.null ∨ p.2.getD j KdNode.null ∈ subnodes root := by
  intro p hp
  have key := createRopes_inv
    (fun d l r ropes => KdNode.mk d l r ∈ subnodes root ∧ ropes.length = 6 ∧
      ∀ j, ropes.getD j KdNode.null = KdNode.null ∨ ropes.getD j KdNode.null ∈ subnodes root)
    ?_ root (List.replicate 6 KdNode.null) d l r hroot ?_ p hp
  · obtain ⟨_, _, ⟨_, h2, h3⟩, h4⟩ := key
    exact ⟨h4, h2, h3⟩
  · intro d left right ropes _ ⟨hmem, hlen, hall⟩
    have hlen1 := foldl_optimizeSide_length d.bbMin d.bbMax 6 ropes
    have hall1 : ∀ j, ((List.range 6).foldl (optimizeSide d.bbMin d.bbMax) ropes).getD j
          KdNode.null = KdNode.null ∨
        ((List.range 6).foldl (optimizeSide d.bbMin d.bbMax) ropes).getD j KdNode.null
          ∈ subnodes root := by
      intro j
      rw [foldl_optimizeSide_getD]
      by_cases hj : j < 6
      · rw [if_pos hj]
        rcases optimizeRope_subnodes j d.bbMin d.bbMax (ropes.getD j KdNode.null) with h | h
        · exact Or.inl h
        · rcases hall j with h0 | h0
          · rw [h0] at h; simp [subnodes] at h
          · exact Or.inr (subnodes_trans _ _ _ h h0)
      · rw [if_neg hj]; exact hall j
    have hset : ∀ (i : Nat) (x : KdNode), (x = KdNode.null ∨ x ∈ subnodes root) → ∀ j,
        (((List.range 6).foldl (optimizeSide d.bbMin d.bbMax) ropes).set i x).getD j
          KdNode.null = KdNode.null ∨
        (((List.range 6).foldl (optimizeSide d.bbMin d.bbMax) ropes).set i x).getD j
          KdNode.null ∈ subnodes root := by
      intro i x hx j
      by_cases hij : i = j
      · subst hij
        by_cases hlt : i < ((List.range 6).foldl (optimizeSide d.bbMin d.bbMax) ropes).length
        · rw [getD_set_same _ _ _ hlt]; exact hx
        · left
          rw [List.getD_eq_getElem?_getD,
            List.getElem?_eq_none (by rw [List.length_set]; omega)]
          rfl
      · rw [getD_set_ne _ _ _ _ hij]; exact hall1 j
    have hleft : left = KdNode.null ∨ left ∈ subnodes root := by
      cases hl : left with
      | null => exact Or.inl rfl
      | mk dl ll lr =>
        right
        refine subnodes_trans _ _ _ ?_ hmem
        rw [← hl]
        simp only [subnodes, List.mem_cons, List.mem_append]
        rw [hl]
        exact Or.inr (Or.inl (subnodes_self dl ll lr))
    have hright : right = KdNode.null ∨ right ∈ subnodes root := by
      cases hr : right with
      | null => exact Or.inl rfl
      | mk dr rl rr =>
        right
        refine subnodes_trans _ _ _ ?_ hmem
        rw [← hr]
        simp only [subnodes, List.mem_cons, List.mem_append]
        rw [hr]
        exact Or.inr (Or.inr (subnodes_self dr rl rr))
    constructor
    · intro dl ll lr hl
      refine ⟨?_, by rw [List.length_set, hlen1, hlen], hset _ _ hright⟩
      rcases hleft with h | h
      · rw [hl] at h; cases h
      · rw [← hl]; exact h
    · intro dr rl rr hr
      refine ⟨?_, by rw [List.length_set, hlen1, hlen], hset _ _ hleft⟩
      rcases hright with h | h
      · rw [hr] at h; cases h
      · rw [← hr]; exact h
  · refine ⟨by rw [hroot]; exact subnodes_self d l r, by simp, ?_⟩
    intro j
    left
    exact getD_replicate_null 6 j

/-- C4: in the object the constructor leaves behind, every leaf has six ropes,
and every rope that is present shares the leaf's boundary plane on its side:
the box of the rope on the positive side of axis `a` (entry `2 a + 1`) has
`bbMin[a]` equal to the leaf's `bbMax[a]`, and the box of the rope on the
negative side (entry `2 a`) has `bbMax[a]` equal to the leaf's `bbMin[a]`. -/
theorem ropes_share_boundary_plane (S : StdSort) (eps : ℚ) (cfg : Nat) (vertices : List ℚ)
    (faces : List Nat) (bbMin bbMax : Vec3) :
    ∃ t, construct S eps cfg vertices faces bbMin bbMax = some t ∧
      ∀ p ∈ t.leafRopes, p.2.length = 6 ∧ ∀ a, a < 3 → ∀ dr rl rr,
        (p.2.getD (2 * a + 1) KdNode.null = KdNode.mk dr rl rr →
          dr.bbMin.get a = p.1.bbMax.get a) ∧
        (p.2.getD (2 * a) KdNode.null = KdNode.mk dr rl rr →
          dr.bbMax.get a = p.1.bbMin.get a) := by
  rcases construct_cases S eps cfg vertices faces bbMin bbMax with ⟨_, hc⟩ | ⟨_, root, st, hm, hc⟩
  · exact ⟨_, hc, by simp [Tree.init]⟩
  · refine ⟨_, hc, ?_⟩
    intro p hp
    obtain ⟨hne, _, _, _⟩ := makeTreeFuel_shape S eps _ _ _ _ _ _ _ _ _ _ _ _ _ hm
    obtain ⟨_, hb⟩ := makeTreeFuel_boxes S eps _ _ _ _ _ _ _ _ _ _ _ _ _ hm (by norm_num)
    cases hr : root with
    | null => exact absurd hr hne
    | mk d l r =>
      have hp1 : p ∈ createRopes root (List.replicate 6 KdNode.null) := hp
      exact createRopes_border root d l r hr hb p hp1

/-- C5 (as amended): in the object the constructor leaves behind, the ropes are
stored in leaves only, every leaf has six of them, and each is either absent
(`NULL`) or refers to a node of the built tree; that node may be a leaf or an
internal node. -/
theorem ropes_refer_to_tree_nodes (S : StdSort) (eps : ℚ) (cfg : Nat) (vertices : List ℚ)
    (faces : List Nat) (bbMin bbMax : Vec3) :
    ∃ t, construct S eps cfg vertices faces bbMin bbMax = some t ∧
      ∀ p ∈ t.leafRopes, p.1.axis < 0 ∧ p.2.length = 6 ∧
        ∀ rope ∈ p.2, rope = KdNode.null ∨ rope ∈ subnodes t.mRoot := by
  rcases construct_cases S eps cfg vertices faces bbMin bbMax with ⟨_, hc⟩ | ⟨_, root, st, hm, hc⟩
  · exact ⟨_, hc, by simp [Tree.init]⟩
  · refine ⟨_, hc, ?_⟩
    intro p hp
    obtain ⟨hne, _, _, _⟩ := makeTreeFuel_shape S eps _ _ _ _ _ _ _ _ _ _ _ _ _ hm
    cases hr : root with
    | null => exact absurd hr hne
    | mk d l r =>
      have hp1 : p ∈ createRopes root (List.replicate 6 KdNode.null) := hp
      obtain ⟨h1, h2, h3⟩ := createRopes_targets root d l r hr p hp1
      refine ⟨h1, h2, ?_⟩
      intro rope hrope
      obtain ⟨j, hj, hje⟩ := List.getElem_of_mem hrope
      have := h3 j
      rw [List.getD_eq_getElem _ _ hj, hje] at this
      rw [← hr]
      exact this

set_option maxRecDepth 8000 in
/-- C5 fails as stated: in the tree of this three-vertex mesh (configured depth
`0`) a leaf stores a rope that refers to an internal node: `optimizeRope`
stops at the right child of the root, whose split plane `y = 1` lies inside
the box it is optimised against. -/
theorem rope_refers_to_internal_node :
    ∃ t, construct insertionStdSort (1 / 100000) 0 [0, 2, 0, 1, 0, 0, 2, 1, 0] [0, 1, 2]
        ⟨0, 0, 0⟩ ⟨2, 2, 0⟩ = some t ∧
      t.leafRopes.any (fun p => p.2.any isInternal) = true := by
  simp [-List.any_eq_true, construct, makeTree, makeTreeFuel, packVerts, vertexAt, setDepthLimit, depthUnset,
    findMedian, insertionStdSort, insertSort, compFunc, splitNodesAtMedian, Vec3.get, Vec3.set,
    splitsOn, recordSplit, Build.pushLeaf, Build.pushNonLeaf, List.range, List.range.loop,
    createLeafNode, createRopes, optimizeSide, optimizeRope, isInternal]


/-! ## Empty input and the depth limit -/

/-- C8: when the vertex list or the face list is empty the constructor returns
at once, without a failure: the root is absent and `mNodes`, `mLeaves` and
`mNonLeaves` are empty. -/
theorem construct_empty_input (S : StdSort) (eps : ℚ) (cfg : Nat) (vertices : List ℚ)
    (faces : List Nat) (bbMin bbMax : Vec3) (h : vertices = [] ∨ faces = []) :
    ∃ t, construct S eps cfg vertices faces bbMin bbMax = some t ∧
      getRootNode t = KdNode.null ∧ t.mNodes = [] ∧ t.mLeaves = [] ∧ t.mNonLeaves = [] ∧
      t.leafRopes = [] := by
  have hc : vertices.length ≤ 0 ∨ faces.length ≤ 0 := by
    rcases h with h | h
    · left; simp [h]
    · right; simp [h]
  refine ⟨Tree.init, ?_, rfl, rfl, rfl, rfl, rfl⟩
  unfold construct
  rw [if_pos hc]

/-- Witness for C8: three vertices and no face. -/
theorem construct_empty_input_witness :
    (([0, 2, 0, 1, 0, 0, 2, 1, 0] : List ℚ) = [] ∨ ([] : List Nat) = []) ∧
    ∃ t, construct insertionStdSort (1 / 100000) 0 [0, 2, 0, 1, 0, 0, 2, 1, 0] []
        ⟨0, 0, 0⟩ ⟨2, 2, 0⟩ = some t ∧
      getRootNode t = KdNode.null ∧ t.mNodes = [] ∧ t.mLeaves = [] ∧ t.mNonLeaves = [] ∧
      t.leafRopes = [] :=
  ⟨Or.inr rfl,
   construct_empty_input insertionStdSort (1 / 100000) 0 [0, 2, 0, 1, 0, 0, 2, 1, 0] []
    ⟨0, 0, 0⟩ ⟨2, 2, 0⟩ (Or.inr rfl)⟩

/-- C9 (as amended): for a mesh with at least one vertex and one face, when the
configured depth is unset (`(cl_uint) -1`) the depth limit of the object is
`ceil( log2( V ) )`, the least `k` with `2^k >= V`, where `V` is the number of
vertices (length of the coordinate array divided by 3); when it is set, the
limit is the configured value. -/
theorem derived_depth_limit (S : StdSort) (eps : ℚ) (cfg : Nat) (vertices : List ℚ)
    (faces : List Nat) (bbMin bbMax : Vec3) (hv : 3 ≤ vertices.length) (hf : faces ≠ []) :
    ∃ t, construct S eps cfg vertices faces bbMin bbMax = some t ∧
      (cfg = depthUnset →
        vertices.length / 3 ≤ 2 ^ t.mDepthLimit ∧
        ∀ k, vertices.length / 3 ≤ 2 ^ k → t.mDepthLimit ≤ k) ∧
      (cfg ≠ depthUnset → t.mDepthLimit = cfg) := by
  rcases construct_cases S eps cfg vertices faces bbMin bbMax with ⟨he, _⟩ | ⟨_, root, st, _, hc⟩
  · exfalso
    rcases he with he | he
    · omega
    · exact hf (List.length_eq_zero.mp (Nat.le_zero.mp he))
  · refine ⟨_, hc, ?_, ?_⟩
    · intro hu
      simp only [setDepthLimit, hu, if_true]
      exact ⟨Nat.le_pow_clog (by norm_num) _,
        fun k hk => (Nat.le_pow_iff_clog_le (by norm_num)).mp hk⟩
    · intro hu
      simp only [setDepthLimit, hu, if_false]

/-- Witness for C9: three vertices, one face, depth unset. -/
theorem derived_depth_limit_witness :
    3 ≤ ([0, 2, 0, 1, 0, 0, 2, 1, 0] : List ℚ).length ∧ ([0, 1, 2] : List Nat) ≠ [] ∧
    ∃ t, construct insertionStdSort (1 / 100000) depthUnset [0, 2, 0, 1, 0, 0, 2, 1, 0]
        [0, 1, 2] ⟨0, 0, 0⟩ ⟨2, 2, 0⟩ = some t ∧
      (depthUnset = depthUnset →
        ([0, 2, 0, 1, 0, 0, 2, 1, 0] : List ℚ).length / 3 ≤ 2 ^ t.mDepthLimit ∧
        ∀ k, ([0, 2, 0, 1, 0, 0, 2, 1, 0] : List ℚ).length / 3 ≤ 2 ^ k → t.mDepthLimit ≤ k) ∧
      (depthUnset ≠ depthUnset → t.mDepthLimit = depthUnset) :=
  ⟨by simp, by simp,
   derived_depth_limit insertionStdSort (1 / 100000) depthUnset [0, 2, 0, 1, 0, 0, 2, 1, 0]
    [0, 1, 2] ⟨0, 0, 0⟩ ⟨2, 2, 0⟩ (by simp) (by simp)⟩

/-- C9 fails as stated: a mesh with three vertices and two triangles, depth
unset. The triangle count is `T = 2`, so the claimed limit is `1`
(`2^1 >= 2`), but the limit of the object is `2 = ceil( log2( 3 ) )`: the
constructor passes the vertex array, not the face array, to `setDepthLimit`. -/
theorem derived_depth_limit_counts_vertices :
    ∃ t, construct insertionStdSort (1 / 100000) depthUnset [0, 2, 0, 1, 0, 0, 2, 1, 0]
        [0, 1, 2, 0, 2, 1] ⟨0, 0, 0⟩ ⟨2, 2, 0⟩ = some t ∧
      t.mDepthLimit = 2 ∧ ([0, 1, 2, 0, 2, 1] : List Nat).length / 3 ≤ 2 ^ 1 := by
  rcases construct_cases insertionStdSort (1 / 100000) depthUnset [0, 2, 0, 1, 0, 0, 2, 1, 0]
    [0, 1, 2, 0, 2, 1] ⟨0, 0, 0⟩ ⟨2, 2, 0⟩ with ⟨he, _⟩ | ⟨_, root, st, _, hc⟩
  · simp at he
  · refine ⟨_, hc, ?_, by simp⟩
    simp only [setDepthLimit, if_true, List.length_cons, List.length_nil]
    norm_num [Nat.clog]


/-! ## Scenario B: two triangles, depth limit 1 -/

theorem makeTreeFuel_leaf_of_depth (S : StdSort) (eps : ℚ) (lim n : Nat)
    (l : List Vec3) (axis : Nat) (bbMin bbMax : Vec3) (vertices : List ℚ) (faces : List Nat)
    (splits : List (List ℚ)) (depth : Nat) (st : Build) (h1 : 0 < lim) (h2 : lim < depth) :
    makeTreeFuel S eps lim (n + 1) l axis bbMin bbMax vertices faces splits depth st =
      some (KdNode.mk (createLeafNode eps st.mLeaves.length bbMin bbMax vertices faces)
        KdNode.null KdNode.null,
        st.pushLeaf (createLeafNode eps st.mLeaves.length bbMin bbMax vertices faces)) := by
  unfold makeTreeFuel
  rw [if_pos (Or.inl ⟨h1, h2⟩)]

theorem makeTreeFuel_root_limit_one (S : StdSort) (eps : ℚ) (n : Nat)
    (l : List Vec3) (bbMin bbMax : Vec3) (vertices : List ℚ) (faces : List Nat)
    (hl : l ≠ []) :
    makeTreeFuel S eps 1 (n + 2) l 0 bbMin bbMax vertices faces [[], [], []] 1 ⟨[], [], []⟩ =
      some (KdNode.mk ⟨0, 0, (findMedian S l 0).2, bbMin, bbMax, []⟩
        (KdNode.mk (createLeafNode eps 0 bbMin (bbMax.set 0 ((findMedian S l 0).2.get 0)) vertices
          (splitFaces vertices (bbMax.set 0 ((findMedian S l 0).2.get 0))
            (bbMin.set 0 ((findMedian S l 0).2.get 0)) faces).1) KdNode.null KdNode.null)
        (KdNode.mk (createLeafNode eps 1 (bbMin.set 0 ((findMedian S l 0).2.get 0)) bbMax vertices
          (splitFaces vertices (bbMax.set 0 ((findMedian S l 0).2.get 0))
            (bbMin.set 0 ((findMedian S l 0).2.get 0)) faces).2) KdNode.null KdNode.null),
        ⟨[⟨0, 0, (findMedian S l 0).2, bbMin, bbMax, []⟩,
          createLeafNode eps 0 bbMin (bbMax.set 0 ((findMedian S l 0).2.get 0)) vertices
          (splitFaces vertices (bbMax.set 0 ((findMedian S l 0).2.get 0))
            (bbMin.set 0 ((findMedian S l 0).2.get 0)) faces).1,
          createLeafNode eps 1 (bbMin.set 0 ((findMedian S l 0).2.get 0)) bbMax vertices
          (splitFaces vertices (bbMax.set 0 ((findMedian S l 0).2.get 0))
            (bbMin.set 0 ((findMedian S l 0).2.get 0)) faces).2],
         [createLeafNode eps 0 bbMin (bbMax.set 0 ((findMedian S l 0).2.get 0)) vertices
          (splitFaces vertices (bbMax.set 0 ((findMedian S l 0).2.get 0))
            (bbMin.set 0 ((findMedian S l 0).2.get 0)) faces).1,
          createLeafNode eps 1 (bbMin.set 0 ((findMedian S l 0).2.get 0)) bbMax vertices
          (splitFaces vertices (bbMax.set 0 ((findMedian S l 0).2.get 0))
            (bbMin.set 0 ((findMedian S l 0).2.get 0)) faces).2],
         [⟨0, 0, (findMedian S l 0).2, bbMin, bbMax, []⟩]⟩) := by
  have hlen : ¬ l.length = 0 := by
    intro h; exact hl (List.length_eq_zero.mp h)
  have hc : ¬ ((1 > 0 ∧ 1 > 1) ∨ l.length = 0) := by
    rintro (⟨_, h⟩ | h)
    · omega
    · exact hlen h
  rw [makeTreeFuel]
  rw [if_neg hc]
  have hs : ¬ ((findMedian S l 0).2.get 0 ∈ splitsOn [[], [], []] 0) := by
    simp [splitsOn]
  rw [if_neg hs]
  dsimp only
  rw [makeTreeFuel_leaf_of_depth S eps 1 n _ _ _ _ _ _ _ (1 + 1) _ (by norm_num) (by norm_num)]
  dsimp only
  rw [makeTreeFuel_leaf_of_depth S eps 1 n _ _ _ _ _ _ _ (1 + 1) _ (by norm_num) (by norm_num)]
  simp [Build.pushLeaf, Build.pushNonLeaf]

theorem pointInBox_iff (mn mx p : Vec3) :
    pointInBox mn mx p = true ↔
      mn.x ≤ p.x ∧ mn.y ≤ p.y ∧ mn.z ≤ p.z ∧ p.x ≤ mx.x ∧ p.y ≤ mx.y ∧ p.z ≤ mx.z := by
  simp [pointInBox, and_assoc]

theorem tightBox_contains : ∀ (l : List Vec3) (p : Vec3), p ∈ l →
    pointInBox (tightBox l).1 (tightBox l).2 p = true := by
  intro l
  induction l with
  | nil => intro p hp; simp at hp
  | cons q rest ih =>
    intro p hp
    cases rest with
    | nil =>
      simp only [List.mem_singleton] at hp
      subst hp
      simp [tightBox, pointInBox_iff]
    | cons r rest2 =>
      rw [pointInBox_iff]
      simp only [tightBox]
      rcases List.mem_cons.mp hp with h | h
      · subst h
        exact ⟨min_le_left _ _, min_le_left _ _, min_le_left _ _, le_max_left _ _,
          le_max_left _ _, le_max_left _ _⟩
      · have := (pointInBox_iff _ _ _).mp (ih p h)
        obtain ⟨h1, h2, h3, h4, h5, h6⟩ := this
        exact ⟨le_trans (min_le_right _ _) h1, le_trans (min_le_right _ _) h2,
          le_trans (min_le_right _ _) h3, le_trans h4 (le_max_right _ _),
          le_trans h5 (le_max_right _ _), le_trans h6 (le_max_right _ _)⟩

theorem splitFaces_cons_both (vs : List ℚ) (mxL mnR : Vec3) (f0 f1 f2 : Nat) (rest : List Nat)
    (hl : (vertexAt vs f0).y ≤ mxL.y) (hr : mnR.y ≤ (vertexAt vs f0).y) :
    splitFaces vs mxL mnR (f0 :: f1 :: f2 :: rest) =
      (f0 :: f1 :: f2 :: (splitFaces vs mxL mnR rest).1,
       f0 :: f1 :: f2 :: (splitFaces vs mxL mnR rest).2) := by
  have h1 : (getFaceBB (vertexAt vs f0) (vertexAt vs f1) (vertexAt vs f2)).1.y ≤ mxL.y :=
    le_trans (le_trans (min_le_left _ _) (min_le_left _ _)) hl
  have h2 : (getFaceBB (vertexAt vs f0) (vertexAt vs f1) (vertexAt vs f2)).2.y ≥ mnR.y :=
    le_trans hr (le_trans (le_max_left _ _) (le_max_left _ _))
  rw [splitFaces]
  simp only [h1, h2, true_or, or_true, if_true, Nat.mul_div_cancel _ (show 0 < 3 by norm_num),
    List.cons_append, List.nil_append]

theorem leafFaces_cons_of_point (eps : ℚ) (mn mx : Vec3) (vs : List ℚ) (f0 f1 f2 : Nat)
    (rest : List Nat)
    (h : pointInBox mn mx (vertexAt vs f0) = true ∨ pointInBox mn mx (vertexAt vs f1) = true ∨
      pointInBox mn mx (vertexAt vs f2) = true) :
    leafFaces eps mn mx vs (f0 :: f1 :: f2 :: rest) = f0 :: f1 :: f2 :: leafFaces eps mn mx vs rest := by
  have hadd : faceAdded eps mn mx (vertexAt vs f0) (vertexAt vs f1) (vertexAt vs f2) = true := by
    unfold faceAdded
    rcases h with h | h | h <;> simp [h]
  rw [leafFaces, if_pos hadd]
  rfl

theorem leafFaces_cons_either (eps : ℚ) (mn mx : Vec3) (vs : List ℚ) (f0 f1 f2 : Nat)
    (rest : List Nat) :
    leafFaces eps mn mx vs (f0 :: f1 :: f2 :: rest) = f0 :: f1 :: f2 :: leafFaces eps mn mx vs rest ∨
    leafFaces eps mn mx vs (f0 :: f1 :: f2 :: rest) = leafFaces eps mn mx vs rest := by
  rw [leafFaces]
  by_cases hadd : faceAdded eps mn mx (vertexAt vs f0) (vertexAt vs f1) (vertexAt vs f2) = true
  · left; rw [if_pos hadd]; rfl
  · right; rw [if_neg hadd]; rfl

theorem median_of_separated (S : StdSort) (v0 v1 v2 v3 v4 v5 : Vec3)
    (hsep : ∀ a ∈ [v0, v1, v2], ∀ b ∈ [v3, v4, v5], a.x < b.x) :
    (findMedian S [v0, v1, v2, v3, v4, v5] 0).2 ∈ [v3, v4, v5] := by
  have hperm := S.perm 0 [v0, v1, v2, v3, v4, v5]
  have hsorted := S.sorted_le 0 [v0, v1, v2, v3, v4, v5]
  have hlen := hperm.length_eq
  have hcount := hperm.countP_eq (fun v => decide (v.x < v3.x ∧ v.x < v4.x ∧ v.x < v5.x))
  have h0 := hsep v0 (by simp); have h1 := hsep v1 (by simp); have h2 := hsep v2 (by simp)
  have hc : List.countP (fun v => decide (v.x < v3.x ∧ v.x < v4.x ∧ v.x < v5.x))
      [v0, v1, v2, v3, v4, v5] = 3 := by
    simp [List.countP_cons, h0 v3, h0 v4, h0 v5, h1 v3, h1 v4, h1 v5, h2 v3, h2 v4, h2 v5]
  rw [hc] at hcount
  unfold findMedian
  simp only [List.length_cons, List.length_nil, show (0 + 1 + 1 + 1 + 1 + 1 + 1 > 1) by norm_num,
    if_true]
  match hs : S.sort 0 [v0, v1, v2, v3, v4, v5], hlen with
  | [a, b, c, d, e, f], _ =>
    rw [hs] at hsorted hcount hperm
    have hd : d ∈ [v0, v1, v2, v3, v4, v5] := hperm.subset (by simp)
    simp only [List.pairwise_cons, List.mem_cons, List.mem_singleton, Vec3.get] at hsorted
    have had : a.x ≤ d.x := hsorted.1 d (by simp)
    have hbd : b.x ≤ d.x := hsorted.2.1 d (by simp)
    have hcd : c.x ≤ d.x := hsorted.2.2.1 d (by simp)
    show [a, b, c, d, e, f].getD (6 / 2) ⟨0, 0, 0⟩ ∈ [v3, v4, v5]
    have hget : [a, b, c, d, e, f].getD (6 / 2) ⟨0, 0, 0⟩ = d := by simp
    rw [hget]
    by_contra hnot
    have hd012 : d ∈ [v0, v1, v2] := by
      simp only [List.mem_cons, List.mem_singleton, List.not_mem_nil, or_false] at hd hnot ⊢
      tauto
    have hPd := hsep d hd012
    have hd3 := hPd v3 (by simp); have hd4 := hPd v4 (by simp); have hd5 := hPd v5 (by simp)
    have pa : (a.x < v3.x ∧ a.x < v4.x ∧ a.x < v5.x) := ⟨by linarith, by linarith, by linarith⟩
    have pb : (b.x < v3.x ∧ b.x < v4.x ∧ b.x < v5.x) := ⟨by linarith, by linarith, by linarith⟩
    have pc : (c.x < v3.x ∧ c.x < v4.x ∧ c.x < v5.x) := ⟨by linarith, by linarith, by linarith⟩
    have pd : (d.x < v3.x ∧ d.x < v4.x ∧ d.x < v5.x) := ⟨hd3, hd4, hd5⟩
    simp only [List.countP_cons, pa, pb, pc, pd, and_self, decide_True, if_true] at hcount
    omega

/-- C7 (as amended): for every mesh of two triangles (6 vertices, faces
`0 1 2` and `3 4 5`) with every x of the first triangle smaller than every x
of the second, the scene box their tight bounding box and the configured depth
`1`, the built tree has exactly one internal node, split on axis 0, and two
leaves. The face list of the left leaf holds both triangles (the split plane
passes through a vertex of the second triangle, which is therefore on the left
box), and the face list of the right leaf holds the second triangle, preceded
by the first one only if the edge or diagonal tests accept it. -/
theorem two_triangles_limit_one (S : StdSort) (eps : ℚ) (vertices : List ℚ) (bbMin bbMax : Vec3)
    (hlen : vertices.length = 18)
    (hsep : ∀ i, i < 3 → ∀ j, 3 ≤ j → j < 6 →
      (vertexAt vertices i).x < (vertexAt vertices j).x)
    (hbox : (bbMin, bbMax) = tightBox (packVerts vertices)) :
    ∃ t d dl dr, construct S eps 1 vertices [0, 1, 2, 3, 4, 5] bbMin bbMax = some t ∧
      t.mRoot = KdNode.mk d (KdNode.mk dl KdNode.null KdNode.null)
        (KdNode.mk dr KdNode.null KdNode.null) ∧
      d.axis = 0 ∧ dl.axis < 0 ∧ dr.axis < 0 ∧
      t.mNonLeaves = [d] ∧ t.mLeaves = [dl, dr] ∧
      dl.faces = [0, 1, 2, 3, 4, 5] ∧
      (dr.faces = [3, 4, 5] ∨ dr.faces = [0, 1, 2, 3, 4, 5]) := by
  have hpack : packVerts vertices = [vertexAt vertices 0, vertexAt vertices 1,
      vertexAt vertices 2, vertexAt vertices 3, vertexAt vertices 4, vertexAt vertices 5] := by
    simp [packVerts, hlen, List.range, List.range.loop]
  have hmin : bbMin = (tightBox (packVerts vertices)).1 := by rw [← hbox]
  have hmax : bbMax = (tightBox (packVerts vertices)).2 := by rw [← hbox]
  have hin : ∀ p ∈ packVerts vertices, pointInBox bbMin bbMax p = true := by
    intro p hp
    rw [hmin, hmax]
    exact tightBox_contains _ p hp
  have hmed := median_of_separated S (vertexAt vertices 0) (vertexAt vertices 1)
    (vertexAt vertices 2) (vertexAt vertices 3) (vertexAt vertices 4) (vertexAt vertices 5) (by
      intro a ha b hb
      simp only [List.mem_cons, List.mem_singleton, List.not_mem_nil, or_false] at ha hb
      rcases ha with rfl | rfl | rfl <;> rcases hb with rfl | rfl | rfl <;>
        exact hsep _ (by norm_num) _ (by norm_num) (by norm_num))
  rw [← hpack] at hmed
  have hmp : (findMedian S (packVerts vertices) 0).2 ∈ packVerts vertices := by
    rw [hpack] at hmed ⊢
    simp only [List.mem_cons, List.mem_singleton, List.not_mem_nil, or_false] at hmed ⊢
    tauto
  have hmbox := (pointInBox_iff _ _ _).mp (hin _ hmp)
  have hv0 := (pointInBox_iff _ _ _).mp (hin (vertexAt vertices 0) (by rw [hpack]; simp))
  have hv0m : (vertexAt vertices 0).x < (findMedian S (packVerts vertices) 0).2.x := by
    rw [hpack] at hmed
    simp only [List.mem_cons, List.mem_singleton, List.not_mem_nil, or_false] at hmed
    rcases hmed with h | h | h <;> rw [← hpack] at h <;> rw [h] <;>
      exact hsep _ (by norm_num) _ (by norm_num) (by norm_num)
  have hne : packVerts vertices ≠ [] := by rw [hpack]; simp
  have hroot := makeTreeFuel_root_limit_one S eps 5 (packVerts vertices) bbMin bbMax vertices
    [0, 1, 2, 3, 4, 5] hne
  have hfuel : (packVerts vertices).length + 1 = 5 + 2 := by rw [hpack]; rfl
  have hsf : splitFaces vertices (bbMax.set 0 ((findMedian S (packVerts vertices) 0).2.get 0))
      (bbMin.set 0 ((findMedian S (packVerts vertices) 0).2.get 0)) [0, 1, 2, 3, 4, 5] =
      ([0, 1, 2, 3, 4, 5], [0, 1, 2, 3, 4, 5]) := by
    have hv3 := (pointInBox_iff _ _ _).mp (hin (vertexAt vertices 3) (by rw [hpack]; simp))
    rw [splitFaces_cons_both _ _ _ _ _ _ _ (by simpa [Vec3.set] using hv0.2.2.2.2.1)
      (by simpa [Vec3.set] using hv0.2.1)]
    rw [splitFaces_cons_both _ _ _ _ _ _ _ (by simpa [Vec3.set] using hv3.2.2.2.2.1)
      (by simpa [Vec3.set] using hv3.2.1)]
    simp [splitFaces]
  have hmedL : pointInBox bbMin (bbMax.set 0 ((findMedian S (packVerts vertices) 0).2.get 0))
      (findMedian S (packVerts vertices) 0).2 = true := by
    rw [pointInBox_iff]
    simp only [Vec3.set, Vec3.get]
    exact ⟨hmbox.1, hmbox.2.1, hmbox.2.2.1, le_refl _, hmbox.2.2.2.2.1, hmbox.2.2.2.2.2⟩
  have hmedR : pointInBox (bbMin.set 0 ((findMedian S (packVerts vertices) 0).2.get 0)) bbMax
      (findMedian S (packVerts vertices) 0).2 = true := by
    rw [pointInBox_iff]
    simp only [Vec3.set, Vec3.get]
    exact ⟨le_refl _, hmbox.2.1, hmbox.2.2.1, hmbox.2.2.2.1, hmbox.2.2.2.2.1, hmbox.2.2.2.2.2⟩
  have htri2 : ∀ mn mx, pointInBox mn mx (findMedian S (packVerts vertices) 0).2 = true →
      (pointInBox mn mx (vertexAt vertices 3) = true ∨
       pointInBox mn mx (vertexAt vertices 4) = true ∨
       pointInBox mn mx (vertexAt vertices 5) = true) := by
    intro mn mx h
    rw [hpack] at hmed
    simp only [List.mem_cons, List.mem_singleton, List.not_mem_nil, or_false] at hmed
    rw [← hpack] at hmed
    rcases hmed with e | e | e <;> rw [e] at h <;> simp [h]
  have hv0L : pointInBox bbMin (bbMax.set 0 ((findMedian S (packVerts vertices) 0).2.get 0))
      (vertexAt vertices 0) = true := by
    rw [pointInBox_iff]
    simp only [Vec3.set, Vec3.get]
    exact ⟨hv0.1, hv0.2.1, hv0.2.2.1, le_of_lt hv0m, hv0.2.2.2.2.1, hv0.2.2.2.2.2⟩
  refine ⟨?t, ?d, ?dl, ?dr, ?h1, ?h2, ?h3, ?h4, ?h5, ?h6, ?h7, ?h8, ?h9⟩
  case h1 =>
    unfold construct
    rw [if_neg (by simp [hlen])]
    have hlim : setDepthLimit 1 vertices = 1 := by simp [setDepthLimit, depthUnset]
    rw [hlim]
    unfold makeTree
    rw [hfuel, hroot]
    exact rfl
  case h2 => exact rfl
  case h3 => exact rfl
  case h4 => simp [createLeafNode]
  case h5 => simp [createLeafNode]
  case h6 => exact rfl
  case h7 => exact rfl
  case h8 =>
    simp only [createLeafNode, hsf]
    rw [leafFaces_cons_of_point _ _ _ _ _ _ _ _ (Or.inl hv0L),
      leafFaces_cons_of_point _ _ _ _ _ _ _ _ (htri2 _ _ hmedL)]
    simp [leafFaces]
  case h9 =>
    simp only [createLeafNode, hsf]
    rcases leafFaces_cons_either eps (bbMin.set 0 ((findMedian S (packVerts vertices) 0).2.get 0))
      bbMax vertices 0 1 2 [3, 4, 5] with h | h
    · right
      rw [h, leafFaces_cons_of_point _ _ _ _ _ _ _ _ (htri2 _ _ hmedR)]
      simp [leafFaces]
    · left
      rw [h, leafFaces_cons_of_point _ _ _ _ _ _ _ _ (htri2 _ _ hmedR)]
      simp [leafFaces]

/-- Witness for C7: two triangles in general position, separated along x. -/
theorem two_triangles_limit_one_witness :
    ([0, 0, 0, 1, 2, 0, 0, 1, 3, 2, 0, 0, 3, 1, 1, 4, 0, 2] : List ℚ).length = 18 ∧
    (∀ i, i < 3 → ∀ j, 3 ≤ j → j < 6 →
      (vertexAt [0, 0, 0, 1, 2, 0, 0, 1, 3, 2, 0, 0, 3, 1, 1, 4, 0, 2] i).x <
      (vertexAt [0, 0, 0, 1, 2, 0, 0, 1, 3, 2, 0, 0, 3, 1, 1, 4, 0, 2] j).x) ∧
    ((⟨0, 0, 0⟩, ⟨4, 2, 3⟩) : Vec3 × Vec3) =
      tightBox (packVerts [0, 0, 0, 1, 2, 0, 0, 1, 3, 2, 0, 0, 3, 1, 1, 4, 0, 2]) ∧
    ∃ t d dl dr, construct insertionStdSort (1 / 100000) 1
        [0, 0, 0, 1, 2, 0, 0, 1, 3, 2, 0, 0, 3, 1, 1, 4, 0, 2] [0, 1, 2, 3, 4, 5]
        ⟨0, 0, 0⟩ ⟨4, 2, 3⟩ = some t ∧
      t.mRoot = KdNode.mk d (KdNode.mk dl KdNode.null KdNode.null)
        (KdNode.mk dr KdNode.null KdNode.null) ∧
      d.axis = 0 ∧ dl.axis < 0 ∧ dr.axis < 0 ∧
      t.mNonLeaves = [d] ∧ t.mLeaves = [dl, dr] ∧
      dl.faces = [0, 1, 2, 3, 4, 5] ∧
      (dr.faces = [3, 4, 5] ∨ dr.faces = [0, 1, 2, 3, 4, 5]) :=
  have h1 : ([0, 0, 0, 1, 2, 0, 0, 1, 3, 2, 0, 0, 3, 1, 1, 4, 0, 2] : List ℚ).length = 18 := rfl
  have h2 : ∀ i, i < 3 → ∀ j, 3 ≤ j → j < 6 →
      (vertexAt [0, 0, 0, 1, 2, 0, 0, 1, 3, 2, 0, 0, 3, 1, 1, 4, 0, 2] i).x <
      (vertexAt [0, 0, 0, 1, 2, 0, 0, 1, 3, 2, 0, 0, 3, 1, 1, 4, 0, 2] j).x := by
    intro i hi j hj1 hj2
    interval_cases i <;> interval_cases j <;> norm_num [vertexAt]
  have h3 : ((⟨0, 0, 0⟩, ⟨4, 2, 3⟩) : Vec3 × Vec3) =
      tightBox (packVerts [0, 0, 0, 1, 2, 0, 0, 1, 3, 2, 0, 0, 3, 1, 1, 4, 0, 2]) := by
    norm_num [tightBox, packVerts, vertexAt, List.range, List.range.loop]
  ⟨h1, h2, h3, two_triangles_limit_one insertionStdSort (1 / 100000) _ _ _ h1 h2 h3⟩

set_option maxRecDepth 8000 in
/-- C7 fails as stated: for these two triangles, separated along x, the face
list of the left leaf is not the first triangle alone: it holds both
triangles, because the vertex `(2,0,0)` of the second triangle lies on the
split plane `x = 2`. The right leaf holds the second triangle only. -/
theorem two_triangles_left_leaf_holds_both :
    ∃ t d dl dr, construct insertionStdSort (1 / 100000) 1
        [0, 0, 0, 1, 2, 0, 0, 1, 3, 2, 0, 0, 3, 1, 1, 4, 0, 2] [0, 1, 2, 3, 4, 5]
        ⟨0, 0, 0⟩ ⟨4, 2, 3⟩ = some t ∧
      t.mRoot = KdNode.mk d (KdNode.mk dl KdNode.null KdNode.null)
        (KdNode.mk dr KdNode.null KdNode.null) ∧
      dl.faces = [0, 1, 2, 3, 4, 5] ∧ dr.faces = [3, 4, 5] := by
  simp [construct, makeTree, makeTreeFuel, packVerts, vertexAt, setDepthLimit, depthUnset,
    findMedian, insertionStdSort, insertSort, compFunc, splitNodesAtMedian, Vec3.get, Vec3.set,
    splitsOn, recordSplit, Build.pushLeaf, Build.pushNonLeaf, List.range, List.range.loop,
    createLeafNode, splitFaces, getFaceBB, leafFaces, faceAdded, pointInBox, hitBoundingBox,
      hitTriangle, Vec3.sub, Vec3.dot, Vec3.cross, Flt.recip, Flt.scale, Flt.lt, Flt.gt,
      Flt.le, Flt.ge, Flt.isnan, Flt.abs, Flt.add]
  norm_num
  exact ⟨_, _, _, ⟨rfl, rfl, rfl⟩, rfl, rfl⟩

/-! ## Scenario A: one triangle, depth limit 0 -/

theorem findMedian_perm (S : StdSort) (l : List Vec3) (axis : Nat) :
    List.Perm (findMedian S l axis).1 l := by
  unfold findMedian
  by_cases h : l.length > 1
  · simp only [h, if_true]; exact S.perm axis l
  · simp only [h, if_false]; exact List.Perm.refl l

theorem findMedian_pairwise (S : StdSort) (l : List Vec3) (axis : Nat) :
    List.Pairwise (fun a b => a.get axis ≤ b.get axis) (findMedian S l axis).1 := by
  unfold findMedian
  by_cases h : l.length > 1
  · simp only [h, if_true]; exact S.sorted_le axis l
  · simp only [h, if_false]
    match l, h with
    | [], _ => exact List.Pairwise.nil
    | [a], _ => exact List.pairwise_singleton _ a
    | _ :: _ :: _, h => simp at h

theorem splitNodesAtMedian_sides (axis : Nat) (m : Vec3) : ∀ (sorted : List Vec3),
    List.Pairwise (fun a b => a.get axis ≤ b.get axis) sorted → m ∈ sorted →
    (∀ p ∈ (splitNodesAtMedian m sorted).1, p.get axis ≤ m.get axis ∧ p ∈ sorted) ∧
    (∀ p ∈ (splitNodesAtMedian m sorted).2, m.get axis ≤ p.get axis ∧ p ∈ sorted) := by
  intro sorted
  induction sorted with
  | nil => intro _ hm; simp at hm
  | cons n rest ih =>
    intro hpw hm
    rw [List.pairwise_cons] at hpw
    unfold splitNodesAtMedian
    by_cases hn : n.x = m.x ∧ n.y = m.y ∧ n.z = m.z
    · have hnm : n = m := by
        cases n; cases m; simp only [Vec3.mk.injEq]; exact hn
      simp only [hn, and_self, if_true]
      constructor
      · intro p hp; simp at hp
      · intro p hp
        exact ⟨by rw [← hnm]; exact hpw.1 p hp, List.mem_cons_of_mem _ hp⟩
    · have hne : m ≠ n := by
        intro e; apply hn; subst e; exact ⟨rfl, rfl, rfl⟩
      have hmr : m ∈ rest := by
        rcases List.mem_cons.mp hm with h1 | h1
        · exact absurd h1 hne
        · exact h1
      obtain ⟨ihl, ihr⟩ := ih hpw.2 hmr
      simp only [hn, if_false]
      constructor
      · intro p hp
        rcases List.mem_cons.mp hp with h1 | h1
        · subst h1
          exact ⟨hpw.1 m hmr, List.mem_cons_self _ _⟩
        · exact ⟨(ihl p h1).1, List.mem_cons_of_mem _ (ihl p h1).2⟩
      · intro p hp
        exact ⟨(ihr p hp).1, List.mem_cons_of_mem _ (ihr p hp).2⟩

theorem pointInBox_set_max (mn mx p : Vec3) (a : Nat) (s : ℚ) (ha : a < 3)
    (h : pointInBox mn mx p = true) (hs : p.get a ≤ s) :
    pointInBox mn (mx.set a s) p = true := by
  rw [pointInBox_iff] at h ⊢
  obtain ⟨h1, h2, h3, h4, h5, h6⟩ := h
  interval_cases a <;> simp only [Vec3.set, Vec3.get] at hs ⊢ <;>
    exact ⟨h1, h2, h3, by first | exact hs | exact h4, by first | exact hs | exact h5,
      by first | exact hs | exact h6⟩

theorem pointInBox_set_min (mn mx p : Vec3) (a : Nat) (s : ℚ) (ha : a < 3)
    (h : pointInBox mn mx p = true) (hs : s ≤ p.get a) :
    pointInBox (mn.set a s) mx p = true := by
  rw [pointInBox_iff] at h ⊢
  obtain ⟨h1, h2, h3, h4, h5, h6⟩ := h
  interval_cases a <;> simp only [Vec3.set, Vec3.get] at hs ⊢ <;>
    exact ⟨by first | exact hs | exact h1, by first | exact hs | exact h2,
      by first | exact hs | exact h3, h4, h5, h6⟩

theorem getFaceBB_bounds (a b c v : Vec3) (hv : v = a ∨ v = b ∨ v = c) :
    pointInBox (getFaceBB a b c).1 (getFaceBB a b c).2 v = true := by
  rw [pointInBox_iff]
  simp only [getFaceBB]
  rcases hv with rfl | rfl | rfl <;>
    simp [le_max_iff, min_le_iff]

theorem splitFaces_single (vs : List ℚ) (mxL mnR : Vec3) (f0 f1 f2 : Nat) (v w : Vec3)
    (hv : v = vertexAt vs f0 ∨ v = vertexAt vs f1 ∨ v = vertexAt vs f2)
    (hw : w = vertexAt vs f0 ∨ w = vertexAt vs f1 ∨ w = vertexAt vs f2)
    (hl : v.x ≤ mxL.x ∨ v.y ≤ mxL.y ∨ v.z ≤ mxL.z)
    (hr : mnR.x ≤ w.x ∨ mnR.y ≤ w.y ∨ mnR.z ≤ w.z) :
    splitFaces vs mxL mnR [f0, f1, f2] = ([f0, f1, f2], [f0, f1, f2]) := by
  have bv := (pointInBox_iff _ _ _).mp (getFaceBB_bounds _ _ _ v hv)
  have bw := (pointInBox_iff _ _ _).mp (getFaceBB_bounds _ _ _ w hw)
  have h1 : (getFaceBB (vertexAt vs f0) (vertexAt vs f1) (vertexAt vs f2)).1.x ≤ mxL.x ∨
      (getFaceBB (vertexAt vs f0) (vertexAt vs f1) (vertexAt vs f2)).1.y ≤ mxL.y ∨
      (getFaceBB (vertexAt vs f0) (vertexAt vs f1) (vertexAt vs f2)).1.z ≤ mxL.z := by
    rcases hl with h | h | h
    · exact Or.inl (le_trans bv.1 h)
    · exact Or.inr (Or.inl (le_trans bv.2.1 h))
    · exact Or.inr (Or.inr (le_trans bv.2.2.1 h))
  have h2 : (getFaceBB (vertexAt vs f0) (vertexAt vs f1) (vertexAt vs f2)).2.x ≥ mnR.x ∨
      (getFaceBB (vertexAt vs f0) (vertexAt vs f1) (vertexAt vs f2)).2.y ≥ mnR.y ∨
      (getFaceBB (vertexAt vs f0) (vertexAt vs f1) (vertexAt vs f2)).2.z ≥ mnR.z := by
    rcases hr with h | h | h
    · exact Or.inl (le_trans h bw.2.2.2.1)
    · exact Or.inr (Or.inl (le_trans h bw.2.2.2.2.1))
    · exact Or.inr (Or.inr (le_trans h bw.2.2.2.2.2))
  rw [splitFaces]
  simp only [h1, h2, if_true, Nat.mul_div_cancel _ (show 0 < 3 by norm_num), splitFaces,
    List.append_nil]

theorem makeTreeFuel_mono (S : StdSort) (eps : ℚ) (lim n : Nat) :
    ∀ (l : List Vec3) (axis : Nat) (bbMin bbMax : Vec3) (vertices : List ℚ) (faces : List Nat)
      (splits : List (List ℚ)) (depth : Nat) (st st' : Build) (t : KdNode),
      makeTreeFuel S eps lim n l axis bbMin bbMax vertices faces splits depth st = some (t, st') →
      st.mNonLeaves.length ≤ st'.mNonLeaves.length ∧ st.mLeaves.length < st'.mLeaves.length := by
  induction n with
  | zero => intro l axis bbMin bbMax vertices faces splits depth st st' t h; simp [makeTreeFuel] at h
  | succ n ih =>
    intro l axis bbMin bbMax vertices faces splits depth st st' t h
    rcases makeTreeFuel_cases S eps lim n l axis bbMin bbMax vertices faces splits depth st st' t h
      with ⟨_, _, hst⟩ | ⟨_, _, left, right, st2, hl, hr, _⟩
    · subst hst
      simp [Build.pushLeaf]
    · obtain ⟨l1, l2⟩ := ih _ _ _ _ _ _ _ _ _ _ _ hl
      obtain ⟨r1, r2⟩ := ih _ _ _ _ _ _ _ _ _ _ _ hr
      simp [Build.pushNonLeaf] at l1 l2
      constructor <;> omega

theorem makeTreeFuel_single_face (S : StdSort) (eps : ℚ) (lim n : Nat) (vertices : List ℚ)
    (f0 f1 f2 : Nat) (V : List Vec3)
    (hV : ∀ p ∈ V, p = vertexAt vertices f0 ∨ p = vertexAt vertices f1 ∨
      p = vertexAt vertices f2) :
    ∀ (l : List Vec3) (axis : Nat) (bbMin bbMax : Vec3) (splits : List (List ℚ)) (depth : Nat)
      (st st' : Build) (t : KdNode),
      makeTreeFuel S eps lim n l axis bbMin bbMax vertices [f0, f1, f2] splits depth st
        = some (t, st') →
      axis < 3 → (∀ p ∈ l, p ∈ V ∧ pointInBox bbMin bbMax p = true) →
      (∃ v ∈ V, pointInBox bbMin bbMax v = true) →
      ∀ d ∈ st'.mLeaves, d ∈ st.mLeaves ∨ d.faces = [f0, f1, f2] := by
  induction n with
  | zero => intro l axis bbMin bbMax splits depth st st' t h; simp [makeTreeFuel] at h
  | succ n ih =>
    intro l axis bbMin bbMax splits depth st st' t h hax hl hv d hd
    rcases makeTreeFuel_cases S eps lim n l axis bbMin bbMax vertices _ splits depth st st' t h
      with ⟨_, _, hst⟩ | ⟨hc, _, left, right, st2, hleft, hright, _⟩
    · subst hst
      simp only [Build.pushLeaf, List.mem_append, List.mem_singleton] at hd
      rcases hd with hd | hd
      · exact Or.inl hd
      · right
        subst hd
        obtain ⟨v, hvV, hvb⟩ := hv
        have hpt : pointInBox bbMin bbMax (vertexAt vertices f0) = true ∨
            pointInBox bbMin bbMax (vertexAt vertices f1) = true ∨
            pointInBox bbMin bbMax (vertexAt vertices f2) = true := by
          rcases hV v hvV with e | e | e <;> rw [e] at hvb <;> simp [hvb]
        simp only [createLeafNode]
        rw [leafFaces_cons_of_point _ _ _ _ _ _ _ _ hpt]
        simp [leafFaces]
    · have hne : l ≠ [] := by
        intro e; apply hc; right; simp [e]
      have hmem := findMedian_mem S l axis hne
      have hperm := findMedian_perm S l axis
      have hpw := findMedian_pairwise S l axis
      have hml : (findMedian S l axis).2 ∈ l := hperm.subset hmem
      obtain ⟨hmV, hmb⟩ := hl _ hml
      obtain ⟨sl, sr⟩ := splitNodesAtMedian_sides axis _ _ hpw hmem
      have hmL := pointInBox_set_max bbMin bbMax _ axis ((findMedian S l axis).2.get axis) hax
        hmb (le_refl _)
      have hmR := pointInBox_set_min bbMin bbMax _ axis ((findMedian S l axis).2.get axis) hax
        hmb (le_refl _)
      have hsf := splitFaces_single vertices
        (bbMax.set axis ((findMedian S l axis).2.get axis))
        (bbMin.set axis ((findMedian S l axis).2.get axis)) f0 f1 f2
        (findMedian S l axis).2 (findMedian S l axis).2 (hV _ hmV) (hV _ hmV)
        (Or.inl ((pointInBox_iff _ _ _).mp hmL).2.2.2.1)
        (Or.inl ((pointInBox_iff _ _ _).mp hmR).1)
      rw [hsf] at hleft hright
      have hax1 : (axis + 1) % 3 < 3 := Nat.mod_lt _ (by norm_num)
      have hL := ih _ _ _ _ _ _ _ _ _ hleft hax1 (by
        intro p hp
        obtain ⟨h1, h2⟩ := sl p hp
        obtain ⟨h3, h4⟩ := hl p (hperm.subset h2)
        exact ⟨h3, pointInBox_set_max _ _ _ _ _ hax h4 h1⟩) ⟨_, hmV, hmL⟩
      have hR := ih _ _ _ _ _ _ _ _ _ hright hax1 (by
        intro p hp
        obtain ⟨h1, h2⟩ := sr p hp
        obtain ⟨h3, h4⟩ := hl p (hperm.subset h2)
        exact ⟨h3, pointInBox_set_min _ _ _ _ _ hax h4 h1⟩) ⟨_, hmV, hmR⟩
      rcases hR d hd with h1 | h1
      · rcases hL d h1 with h2 | h2
        · left; simpa [Build.pushNonLeaf] using h2
        · exact Or.inr h2
      · exact Or.inr h1

/-- C6 (as amended): for every mesh of exactly 3 vertices and 1 face over them,
with the scene box the triangle's tight bounding box, building with the
configured depth `0` (which switches the depth cut-off off) yields a root that
is an internal node split on axis 0, hence at least one internal node and at
least two leaves; the face list of every leaf is that face's 3 indices. -/
theorem single_triangle_limit_zero (S : StdSort) (eps : ℚ) (vertices : List ℚ)
    (faces : List Nat) (bbMin bbMax : Vec3)
    (hlen : vertices.length = 9) (hf : List.Perm faces [0, 1, 2])
    (hbox : (bbMin, bbMax) = tightBox (packVerts vertices)) :
    ∃ t d left right, construct S eps 0 vertices faces bbMin bbMax = some t ∧
      t.mRoot = KdNode.mk d left right ∧ d.axis = 0 ∧
      1 ≤ t.mNonLeaves.length ∧ 2 ≤ t.mLeaves.length ∧
      ∀ leaf ∈ t.mLeaves, leaf.faces = faces := by
  have hpack : packVerts vertices = [vertexAt vertices 0, vertexAt vertices 1,
      vertexAt vertices 2] := by
    simp [packVerts, hlen, List.range, List.range.loop]
  have hmin : bbMin = (tightBox (packVerts vertices)).1 := by rw [← hbox]
  have hmax : bbMax = (tightBox (packVerts vertices)).2 := by rw [← hbox]
  have hin : ∀ p ∈ packVerts vertices, pointInBox bbMin bbMax p = true := by
    intro p hp
    rw [hmin, hmax]
    exact tightBox_contains _ p hp
  have hflen := hf.length_eq
  match faces, hflen, hf with
  | [f0, f1, f2], _, hf =>
    have hmemf : ∀ i ∈ [0, 1, 2], i = f0 ∨ i = f1 ∨ i = f2 := by
      intro i hi
      have := hf.symm.subset hi
      simpa using this
    have hV : ∀ p ∈ packVerts vertices, p = vertexAt vertices f0 ∨ p = vertexAt vertices f1 ∨
        p = vertexAt vertices f2 := by
      intro p hp
      rw [hpack] at hp
      simp only [List.mem_cons, List.mem_singleton, List.not_mem_nil, or_false] at hp
      rcases hp with rfl | rfl | rfl
      · rcases hmemf 0 (by simp) with e | e | e <;> rw [← e] <;> simp
      · rcases hmemf 1 (by simp) with e | e | e <;> rw [← e] <;> simp
      · rcases hmemf 2 (by simp) with e | e | e <;> rw [← e] <;> simp
    rcases construct_cases S eps 0 vertices [f0, f1, f2] bbMin bbMax with
      ⟨he, _⟩ | ⟨_, root, st, hm, hc⟩
    · simp [hlen] at he
    · have hlim : setDepthLimit 0 vertices = 0 := by simp [setDepthLimit, depthUnset]
      rw [hlim] at hm hc
      have hm0 := hm
      unfold makeTree at hm
      have hfaces := makeTreeFuel_single_face S eps 0 _ vertices f0 f1 f2 (packVerts vertices) hV
        _ _ _ _ _ _ _ _ _ hm (by norm_num) (fun p hp => ⟨hp, hin p hp⟩)
        ⟨vertexAt vertices 0, by rw [hpack]; simp, hin _ (by rw [hpack]; simp)⟩
      rcases makeTreeFuel_cases S eps 0 _ _ _ _ _ _ _ _ _ _ _ _ hm with
        ⟨hleaf, _, _⟩ | ⟨_, _, left, right, st2, hl, hr, ht⟩
      · exfalso
        rcases hleaf with (⟨h0, _⟩ | h0) | h0
        · omega
        · rw [hpack] at h0; simp at h0
        · simp [splitsOn] at h0
      · obtain ⟨l1, l2⟩ := makeTreeFuel_mono S eps 0 _ _ _ _ _ _ _ _ _ _ _ _ hl
        obtain ⟨r1, r2⟩ := makeTreeFuel_mono S eps 0 _ _ _ _ _ _ _ _ _ _ _ _ hr
        simp only [Build.pushNonLeaf, List.length_append, List.length_singleton,
          List.length_nil] at l1 l2
        refine ⟨_, _, left, right, hc, ht, rfl, ?_, ?_, ?_⟩
        · show 1 ≤ st.mNonLeaves.length
          omega
        · show 2 ≤ st.mLeaves.length
          omega
        · intro leaf hleaf
          rcases hfaces leaf hleaf with h | h
          · simp at h
          · exact h

/-- Witness for C6: a triangle in general position. -/
theorem single_triangle_limit_zero_witness :
    ([0, 2, 1, 1, 0, 0, 2, 1, 3] : List ℚ).length = 9 ∧
    List.Perm ([0, 1, 2] : List Nat) [0, 1, 2] ∧
    ((⟨0, 0, 0⟩, ⟨2, 2, 3⟩) : Vec3 × Vec3) = tightBox (packVerts [0, 2, 1, 1, 0, 0, 2, 1, 3]) ∧
    ∃ t d left right, construct insertionStdSort (1 / 100000) 0 [0, 2, 1, 1, 0, 0, 2, 1, 3]
        [0, 1, 2] ⟨0, 0, 0⟩ ⟨2, 2, 3⟩ = some t ∧
      t.mRoot = KdNode.mk d left right ∧ d.axis = 0 ∧
      1 ≤ t.mNonLeaves.length ∧ 2 ≤ t.mLeaves.length ∧
      ∀ leaf ∈ t.mLeaves, leaf.faces = [0, 1, 2] :=
  have h1 : ([0, 2, 1, 1, 0, 0, 2, 1, 3] : List ℚ).length = 9 := rfl
  have h2 : List.Perm ([0, 1, 2] : List Nat) [0, 1, 2] := List.Perm.refl _
  have h3 : ((⟨0, 0, 0⟩, ⟨2, 2, 3⟩) : Vec3 × Vec3) =
      tightBox (packVerts [0, 2, 1, 1, 0, 0, 2, 1, 3]) := by
    norm_num [tightBox, packVerts, vertexAt, List.range, List.range.loop]
  ⟨h1, h2, h3, single_triangle_limit_zero insertionStdSort (1 / 100000) _ _ _ _ h1 h2 h3⟩

set_option maxRecDepth 8000 in
/-- C6 fails as stated: for this triangle, with the scene box its tight
bounding box and the configured depth `0`, the constructor records four leaves
and three internal nodes, not one leaf and no internal node. -/
theorem single_triangle_limit_zero_splits :
    ((⟨0, 0, 0⟩, ⟨2, 2, 3⟩) : Vec3 × Vec3) = tightBox (packVerts [0, 2, 1, 1, 0, 0, 2, 1, 3]) ∧
    ∃ t, construct insertionStdSort (1 / 100000) 0 [0, 2, 1, 1, 0, 0, 2, 1, 3] [0, 1, 2]
        ⟨0, 0, 0⟩ ⟨2, 2, 3⟩ = some t ∧
      t.mLeaves.length = 4 ∧ t.mNonLeaves.length = 3 := by
  constructor
  · norm_num [tightBox, packVerts, vertexAt, List.range, List.range.loop]
  · simp [construct, makeTree, makeTreeFuel, packVerts, vertexAt, setDepthLimit, depthUnset,
      findMedian, insertionStdSort, insertSort, compFunc, splitNodesAtMedian, Vec3.get, Vec3.set,
      splitsOn, recordSplit, Build.pushLeaf, Build.pushNonLeaf, List.range, List.range.loop]

/-! ## Leaf face assigner: a dropped face -/

set_option maxRecDepth 16000 in
set_option maxHeartbeats 1000000 in
/-- C1 (fails on the code): a mesh of two triangles, scene box its tight
bounding box, configured depth `3`. The fourth leaf the constructor makes has
the well-formed box `(-1,0,0)..(4,5,5)` and is made by `createLeafNode` with
both faces as candidates. The triangle `0 1 2`, with corners `(-1,-1,-2)`,
`(6,5,-1)`, `(5,-2,5)`, passes through the interior of that box (its point
`(3, 1/2, 1/2)` is in the box), yet the leaf's face list holds the other
triangle only, for every `KD_EPSILON`: no corner is in the box, no edge
crosses it, and the one box diagonal that `hitTriangle` is run on misses
the triangle. -/
theorem built_leaf_drops_crossing_face (eps : ℚ) :
    ((⟨-1, -2, -2⟩, ⟨6, 5, 5⟩) : Vec3 × Vec3) =
      tightBox (packVerts [-1, -1, -2, 6, 5, -1, 5, -2, 5, 4, 2, 2, 0, 0, 1, 1, 1, 0]) ∧
    boxWellFormed ⟨-1, 0, 0⟩ ⟨4, 5, 5⟩ ∧
    triangleMeetsBox ⟨-1, 0, 0⟩ ⟨4, 5, 5⟩ ⟨-1, -1, -2⟩ ⟨6, 5, -1⟩ ⟨5, -2, 5⟩ ∧
    ∃ t, construct insertionStdSort eps 3
        [-1, -1, -2, 6, 5, -1, 5, -2, 5, 4, 2, 2, 0, 0, 1, 1, 1, 0] [0, 1, 2, 3, 4, 5]
        ⟨-1, -2, -2⟩ ⟨6, 5, 5⟩ = some t ∧
      t.mLeaves.getD 3 ⟨0, 0, ⟨0, 0, 0⟩, ⟨0, 0, 0⟩, ⟨0, 0, 0⟩, []⟩ =
        createLeafNode eps 3 ⟨-1, 0, 0⟩ ⟨4, 5, 5⟩
          [-1, -1, -2, 6, 5, -1, 5, -2, 5, 4, 2, 2, 0, 0, 1, 1, 1, 0] [0, 1, 2, 3, 4, 5] ∧
      (createLeafNode eps 3 ⟨-1, 0, 0⟩ ⟨4, 5, 5⟩
          [-1, -1, -2, 6, 5, -1, 5, -2, 5, 4, 2, 2, 0, 0, 1, 1, 1, 0] [0, 1, 2, 3, 4, 5]).faces
        = [3, 4, 5] := by
  refine ⟨?_, by norm_num [boxWellFormed], ⟨33 / 86, 13 / 43, 27 / 86, ?_⟩, ?_⟩
  · norm_num [tightBox, packVerts, vertexAt, List.range, List.range.loop]
  · norm_num [pointInBox, combine]
  · have hfaces : (createLeafNode eps 3 ⟨-1, 0, 0⟩ ⟨4, 5, 5⟩
          [-1, -1, -2, 6, 5, -1, 5, -2, 5, 4, 2, 2, 0, 0, 1, 1, 1, 0] [0, 1, 2, 3, 4, 5]).faces
        = [3, 4, 5] := by
      simp [createLeafNode, leafFaces, faceAdded, vertexAt, pointInBox, hitBoundingBox,
        hitTriangle, Vec3.sub, Vec3.dot, Vec3.cross, Flt.recip, Flt.scale, Flt.lt, Flt.gt,
        Flt.le, Flt.ge, Flt.isnan, Flt.abs, Flt.add]
      norm_num
    simp only [createLeafNode] at hfaces
    norm_num [construct, makeTree, makeTreeFuel, packVerts, vertexAt, setDepthLimit, depthUnset,
      findMedian, insertionStdSort, insertSort, compFunc, splitNodesAtMedian, Vec3.get, Vec3.set,
      splitsOn, recordSplit, Build.pushLeaf, Build.pushNonLeaf, List.range, List.range.loop,
      createLeafNode, splitFaces, getFaceBB]
    exact hfaces

/-! ## Indices and used splits -/

theorem makeTreeFuel_indices (S : StdSort) (eps : ℚ) (lim n : Nat) :
    ∀ (l : List Vec3) (axis : Nat) (bbMin bbMax : Vec3) (vertices : List ℚ) (faces : List Nat)
      (splits : List (List ℚ)) (depth : Nat) (st st' : Build) (t : KdNode),
      makeTreeFuel S eps lim n l axis bbMin bbMax vertices faces splits depth st = some (t, st') →
      st.mLeaves.map NodeData.index = List.range st.mLeaves.length →
      st.mNonLeaves.map NodeData.index = List.range st.mNonLeaves.length →
      st'.mLeaves.map NodeData.index = List.range st'.mLeaves.length ∧
      st'.mNonLeaves.map NodeData.index = List.range st'.mNonLeaves.length := by
  induction n with
  | zero => intro l axis bbMin bbMax vertices faces splits depth st st' t h; simp [makeTreeFuel] at h
  | succ n ih =>
    intro l axis bbMin bbMax vertices faces splits depth st st' t h h1 h2
    rcases makeTreeFuel_cases S eps lim n l axis bbMin bbMax vertices faces splits depth st st' t h
      with ⟨_, _, hst⟩ | ⟨_, _, left, right, st2, hl, hr, _⟩
    · subst hst
      refine ⟨?_, h2⟩
      simp only [Build.pushLeaf, List.map_append, List.map_cons, List.map_nil,
        List.length_append, List.length_singleton, List.range_succ, h1, createLeafNode]
    · have hst1 : (st.pushNonLeaf ⟨st.mNonLeaves.length, (axis : Int), (findMedian S l axis).2,
          bbMin, bbMax, []⟩).mNonLeaves.map NodeData.index =
          List.range (st.pushNonLeaf ⟨st.mNonLeaves.length, (axis : Int),
            (findMedian S l axis).2, bbMin, bbMax, []⟩).mNonLeaves.length := by
        simp only [Build.pushNonLeaf, List.map_append, List.map_cons, List.map_nil,
          List.length_append, List.length_singleton, List.range_succ, h2]
      obtain ⟨l1, l2⟩ := ih _ _ _ _ _ _ _ _ _ _ _ hl h1 hst1
      exact ih _ _ _ _ _ _ _ _ _ _ _ hr l1 l2

/-- C11: the constructor returns a tree in which the i-th entry of the leaf array has
index i and the i-th entry of the internal-node array has index i, so the indices of a kind
are pairwise distinct, and the flat node array has as many entries as the two arrays
together. -/
theorem stable_indices (S : StdSort) (eps : ℚ) (cfg : Nat) (vertices : List ℚ)
    (faces : List Nat) (bbMin bbMax : Vec3) :
    ∃ t, construct S eps cfg vertices faces bbMin bbMax = some t ∧
      t.mLeaves.map NodeData.index = List.range t.mLeaves.length ∧
      t.mNonLeaves.map NodeData.index = List.range t.mNonLeaves.length ∧
      (t.mLeaves.map NodeData.index).Nodup ∧ (t.mNonLeaves.map NodeData.index).Nodup ∧
      t.mNodes.length = t.mLeaves.length + t.mNonLeaves.length := by
  rcases construct_cases S eps cfg vertices faces bbMin bbMax with ⟨_, hc⟩ | ⟨_, root, st, hm, hc⟩
  · exact ⟨_, hc, by simp [Tree.init]⟩
  · obtain ⟨h1, h2⟩ := makeTreeFuel_indices S eps _ _ _ _ _ _ _ _ _ _ _ _ _ hm rfl rfl
    obtain ⟨_, _, _, h4⟩ := makeTreeFuel_shape S eps _ _ _ _ _ _ _ _ _ _ _ _ _ hm
    refine ⟨_, hc, h1, h2, ?_, ?_, ?_⟩
    · show (st.mLeaves.map NodeData.index).Nodup
      rw [h1]; exact List.nodup_range _
    · show (st.mNonLeaves.map NodeData.index).Nodup
      rw [h2]; exact List.nodup_range _
    · show st.mNodes.length = st.mLeaves.length + st.mNonLeaves.length
      simp only [List.length_nil] at h4
      omega

theorem recordSplit_length (sp : List (List ℚ)) (a : Nat) (s : ℚ) :
    (recordSplit sp a s).length = sp.length := by
  simp [recordSplit]

theorem splitsOn_recordSplit_same (sp : List (List ℚ)) (a : Nat) (s : ℚ) (h : a < sp.length) :
    splitsOn (recordSplit sp a s) a = splitsOn sp a ++ [s] := by
  simp [recordSplit, splitsOn, List.getD_eq_getElem?_getD, List.getElem?_set, h]

theorem splitsOn_recordSplit_mono (sp : List (List ℚ)) (a b : Nat) (s x : ℚ)
    (h : x ∈ splitsOn sp b) : x ∈ splitsOn (recordSplit sp a s) b := by
  by_cases hab : a = b
  · subst hab
    by_cases hlt : a < sp.length
    · rw [splitsOn_recordSplit_same _ _ _ hlt]
      exact List.mem_append_left _ h
    · exfalso
      simp [splitsOn, List.getD_eq_getElem?_getD, List.getElem?_eq_none (not_lt.mp hlt)] at h
  · simpa [recordSplit, splitsOn, List.getD_eq_getElem?_getD, List.getElem?_set, hab] using h

theorem makeTreeFuel_fresh_splits (S : StdSort) (eps : ℚ) (lim n : Nat) :
    ∀ (l : List Vec3) (axis : Nat) (bbMin bbMax : Vec3) (vertices : List ℚ) (faces : List Nat)
      (splits : List (List ℚ)) (depth : Nat) (st st' : Build) (t : KdNode),
      makeTreeFuel S eps lim n l axis bbMin bbMax vertices faces splits depth st = some (t, st') →
      axis < 3 → splits.length = 3 →
      ∀ p ∈ splitPaths t, p.Nodup ∧
        ∀ q ∈ p, ∃ a : Nat, a < 3 ∧ q.1 = (a : Int) ∧ q.2 ∉ splitsOn splits a := by
  induction n with
  | zero => intro l axis bbMin bbMax vertices faces splits depth st st' t h; simp [makeTreeFuel] at h
  | succ n ih =>
    intro l axis bbMin bbMax vertices faces splits depth st st' t h hax hlen p hp
    rcases makeTreeFuel_cases S eps lim n l axis bbMin bbMax vertices faces splits depth st st' t h
      with ⟨_, ht, _⟩ | ⟨_, hfresh, left, right, st2, hl, hr, ht⟩
    · subst ht
      simp [splitPaths, createLeafNode] at hp
      subst hp
      simp
    · subst ht
      have hnn : ¬ ((axis : Int) < 0) := by omega
      have hax1 : (axis + 1) % 3 < 3 := Nat.mod_lt _ (by norm_num)
      have hlen1 := (recordSplit_length splits axis ((findMedian S l axis).2.get axis)).trans hlen
      simp only [splitPaths, hnn, if_false, List.mem_map, List.mem_append, Int.toNat_ofNat] at hp
      obtain ⟨p', hp', rfl⟩ := hp
      have hsub : p'.Nodup ∧ ∀ q ∈ p', ∃ a : Nat, a < 3 ∧ q.1 = (a : Int) ∧
          q.2 ∉ splitsOn (recordSplit splits axis ((findMedian S l axis).2.get axis)) a := by
        rcases hp' with h1 | h1
        · exact ih _ _ _ _ _ _ _ _ _ _ _ hl hax1 hlen1 p' h1
        · exact ih _ _ _ _ _ _ _ _ _ _ _ hr hax1 hlen1 p' h1
      obtain ⟨hnd, hq⟩ := hsub
      constructor
      · rw [List.nodup_cons]
        refine ⟨?_, hnd⟩
        intro hmem
        obtain ⟨a, _, ha, hnot⟩ := hq _ hmem
        simp only at ha hnot
        have : a = axis := by omega
        subst this
        apply hnot
        rw [splitsOn_recordSplit_same _ _ _ (by omega)]
        simp
      · intro q hqm
        rcases List.mem_cons.mp hqm with h1 | h1
        · subst h1
          exact ⟨axis, hax, rfl, hfresh⟩
        · obtain ⟨a, ha3, ha, hnot⟩ := hq q h1
          exact ⟨a, ha3, ha, fun hx => hnot (splitsOn_recordSplit_mono _ _ _ _ _ hx)⟩

theorem makeTreeFuel_leaf_of_used (S : StdSort) (eps : ℚ) (lim n : Nat)
    (l : List Vec3) (axis : Nat) (bbMin bbMax : Vec3) (vertices : List ℚ) (faces : List Nat)
    (splits : List (List ℚ)) (depth : Nat) (st : Build)
    (h : (findMedian S l axis).2.get axis ∈ splitsOn splits axis) :
    makeTreeFuel S eps lim (n + 1) l axis bbMin bbMax vertices faces splits depth st =
      some (KdNode.mk (createLeafNode eps st.mLeaves.length bbMin bbMax vertices faces)
        KdNode.null KdNode.null,
        st.pushLeaf (createLeafNode eps st.mLeaves.length bbMin bbMax vertices faces)) := by
  unfold makeTreeFuel
  by_cases hc : (lim > 0 ∧ depth > lim) ∨ l.length = 0
  · rw [if_pos hc]
  · rw [if_neg hc]
    dsimp only
    rw [if_pos h]

/-- C12: the constructor returns a tree in which, along every path from the root to a
leaf, the (axis, split coordinate) pairs of the internal nodes are pairwise distinct; and
`makeTree` returns a leaf whenever the coordinate of the median on the current axis is in the
list of used splits of that axis. -/
theorem split_uniqueness (S : StdSort) (eps : ℚ) (cfg : Nat) (vertices : List ℚ)
    (faces : List Nat) (bbMin bbMax : Vec3) (lim : Nat) (l : List Vec3) (axis : Nat)
    (mn mx : Vec3) (fs : List Nat) (splits : List (List ℚ)) (depth : Nat) (st : Build) :
    (∃ t, construct S eps cfg vertices faces bbMin bbMax = some t ∧
      ∀ p ∈ splitPaths t.mRoot, p.Nodup) ∧
    ((findMedian S l axis).2.get axis ∈ splitsOn splits axis →
      makeTree S eps lim l axis mn mx vertices fs splits depth st =
        some (KdNode.mk (createLeafNode eps st.mLeaves.length mn mx vertices fs)
          KdNode.null KdNode.null,
          st.pushLeaf (createLeafNode eps st.mLeaves.length mn mx vertices fs))) := by
  constructor
  · rcases construct_cases S eps cfg vertices faces bbMin bbMax with
      ⟨_, hc⟩ | ⟨_, root, st, hm, hc⟩
    · exact ⟨_, hc, by simp [Tree.init, splitPaths]⟩
    · refine ⟨_, hc, ?_⟩
      intro p hp
      exact (makeTreeFuel_fresh_splits S eps _ _ _ _ _ _ _ _ _ _ _ _ _ hm (by norm_num) rfl
        p hp).1
  · intro h
    exact makeTreeFuel_leaf_of_used S eps lim _ l axis mn mx vertices fs splits depth st h

/-- C12, instance of the second part: the single position (1,0,0) on axis 0 with the
coordinate 1 already used on that axis gives a leaf. -/
theorem split_uniqueness_witness :
    (findMedian insertionStdSort [⟨1, 0, 0⟩] 0).2.get 0 ∈ splitsOn [[1], [], []] 0 ∧
    makeTree insertionStdSort (1 / 100000) 0 [⟨1, 0, 0⟩] 0 ⟨0, 0, 0⟩ ⟨2, 2, 2⟩ [] [] [[1], [], []] 1
        ⟨[], [], []⟩ =
      some (KdNode.mk (createLeafNode (1 / 100000) 0 ⟨0, 0, 0⟩ ⟨2, 2, 2⟩ [] [])
          KdNode.null KdNode.null,
        Build.pushLeaf ⟨[], [], []⟩ (createLeafNode (1 / 100000) 0 ⟨0, 0, 0⟩ ⟨2, 2, 2⟩ [] [])) :=
  have h : (findMedian insertionStdSort [⟨1, 0, 0⟩] 0).2.get 0 ∈ splitsOn [[1], [], []] 0 := by
    simp [findMedian, splitsOn, Vec3.get]
  ⟨h, (split_uniqueness insertionStdSort (1 / 100000) 0 [] [] ⟨0, 0, 0⟩ ⟨2, 2, 2⟩ 0 [⟨1, 0, 0⟩] 0
    ⟨0, 0, 0⟩ ⟨2, 2, 2⟩ [] [[1], [], []] 1 ⟨[], [], []⟩).2 h⟩

/-! ## Median selector and partition -/

theorem splitNodesAtMedian_append (m : Vec3) : ∀ (sorted : List Vec3), m ∈ sorted →
    sorted = (splitNodesAtMedian m sorted).1 ++ m :: (splitNodesAtMedian m sorted).2 ∧
    m ∉ (splitNodesAtMedian m sorted).1 := by
  intro sorted
  induction sorted with
  | nil => intro hm; simp at hm
  | cons n rest ih =>
    intro hm
    unfold splitNodesAtMedian
    by_cases hn : n.x = m.x ∧ n.y = m.y ∧ n.z = m.z
    · have hnm : n = m := by
        cases n; cases m; simp only [Vec3.mk.injEq]; exact hn
      simp only [hn, and_self, if_true]
      subst hnm
      simp
    · have hne : m ≠ n := by
        intro e; apply hn; subst e; exact ⟨rfl, rfl, rfl⟩
      have hmr : m ∈ rest := by
        rcases List.mem_cons.mp hm with h1 | h1
        · exact absurd h1 hne
        · exact h1
      obtain ⟨h1, h2⟩ := ih hmr
      simp only [hn, if_false]
      constructor
      · rw [List.cons_append, ← h1]
      · intro hmem
        rcases List.mem_cons.mp hmem with h3 | h3
        · exact hne h3
        · exact h2 h3

/-- C14, amended: for every non-empty position list, the sorted list is the left group,
then the median position, then the right group; the median position is not in the left
group, and if the positions are pairwise distinct it is not in the right group either. -/
theorem median_dropped_once (S : StdSort) (l : List Vec3) (axis : Nat) (hl : l ≠ []) :
    (findMedian S l axis).1 =
      (splitNodesAtMedian (findMedian S l axis).2 (findMedian S l axis).1).1 ++
      (findMedian S l axis).2 ::
      (splitNodesAtMedian (findMedian S l axis).2 (findMedian S l axis).1).2 ∧
    (findMedian S l axis).2 ∉
      (splitNodesAtMedian (findMedian S l axis).2 (findMedian S l axis).1).1 ∧
    (l.Nodup → (findMedian S l axis).2 ∉
      (splitNodesAtMedian (findMedian S l axis).2 (findMedian S l axis).1).2) := by
  obtain ⟨h1, h2⟩ := splitNodesAtMedian_append _ _ (findMedian_mem S l axis hl)
  refine ⟨h1, h2, ?_⟩
  intro hnd hmem
  have hnd1 : (findMedian S l axis).1.Nodup := ((findMedian_perm S l axis).nodup_iff).mpr hnd
  rw [h1] at hnd1
  have := (List.nodup_append.mp hnd1).2.1
  rw [List.nodup_cons] at this
  exact this.1 hmem

/-- C14, witness: the amended statement at three distinct positions. -/
theorem median_dropped_once_witness :
    ([⟨0, 0, 0⟩, ⟨1, 0, 0⟩, ⟨2, 0, 0⟩] : List Vec3) ≠ [] ∧
    ((findMedian insertionStdSort [⟨0, 0, 0⟩, ⟨1, 0, 0⟩, ⟨2, 0, 0⟩] 0).1 =
      (splitNodesAtMedian (findMedian insertionStdSort [⟨0, 0, 0⟩, ⟨1, 0, 0⟩, ⟨2, 0, 0⟩] 0).2
        (findMedian insertionStdSort [⟨0, 0, 0⟩, ⟨1, 0, 0⟩, ⟨2, 0, 0⟩] 0).1).1 ++
      (findMedian insertionStdSort [⟨0, 0, 0⟩, ⟨1, 0, 0⟩, ⟨2, 0, 0⟩] 0).2 ::
      (splitNodesAtMedian (findMedian insertionStdSort [⟨0, 0, 0⟩, ⟨1, 0, 0⟩, ⟨2, 0, 0⟩] 0).2
        (findMedian insertionStdSort [⟨0, 0, 0⟩, ⟨1, 0, 0⟩, ⟨2, 0, 0⟩] 0).1).2 ∧
    (findMedian insertionStdSort [⟨0, 0, 0⟩, ⟨1, 0, 0⟩, ⟨2, 0, 0⟩] 0).2 ∉
      (splitNodesAtMedian (findMedian insertionStdSort [⟨0, 0, 0⟩, ⟨1, 0, 0⟩, ⟨2, 0, 0⟩] 0).2
        (findMedian insertionStdSort [⟨0, 0, 0⟩, ⟨1, 0, 0⟩, ⟨2, 0, 0⟩] 0).1).1 ∧
    (([⟨0, 0, 0⟩, ⟨1, 0, 0⟩, ⟨2, 0, 0⟩] : List Vec3).Nodup →
      (findMedian insertionStdSort [⟨0, 0, 0⟩, ⟨1, 0, 0⟩, ⟨2, 0, 0⟩] 0).2 ∉
      (splitNodesAtMedian (findMedian insertionStdSort [⟨0, 0, 0⟩, ⟨1, 0, 0⟩, ⟨2, 0, 0⟩] 0).2
        (findMedian insertionStdSort [⟨0, 0, 0⟩, ⟨1, 0, 0⟩, ⟨2, 0, 0⟩] 0).1).2)) :=
  ⟨by simp, median_dropped_once insertionStdSort _ 0 (by simp)⟩

/-- C14, counterexample: for the positions (0,0,0), (0,0,0), (1,0,0) and axis 0 the median
is (0,0,0) and the right group is (0,0,0), (1,0,0): a position equal to the median is passed
to the right recursion. -/
theorem median_stays_in_right_group :
    (findMedian insertionStdSort [⟨0, 0, 0⟩, ⟨0, 0, 0⟩, ⟨1, 0, 0⟩] 0).2 = ⟨0, 0, 0⟩ ∧
    (splitNodesAtMedian (findMedian insertionStdSort [⟨0, 0, 0⟩, ⟨0, 0, 0⟩, ⟨1, 0, 0⟩] 0).2
        (findMedian insertionStdSort [⟨0, 0, 0⟩, ⟨0, 0, 0⟩, ⟨1, 0, 0⟩] 0).1).2 =
      [⟨0, 0, 0⟩, ⟨1, 0, 0⟩] := by
  simp [findMedian, insertionStdSort, insertSort, compFunc, Vec3.get, splitNodesAtMedian]

/-! ## Child boxes and the face classifier -/

theorem pointInBox_get (mn mx p : Vec3) (a : Nat) (ha : a < 3)
    (h : pointInBox mn mx p = true) : mn.get a ≤ p.get a ∧ p.get a ≤ mx.get a := by
  rw [pointInBox_iff] at h
  obtain ⟨h1, h2, h3, h4, h5, h6⟩ := h
  interval_cases a <;> simp only [Vec3.get] <;> constructor <;> assumption

theorem cut_max_boxes (mn mx : Vec3) (a : Nat) (s : ℚ) (ha : a < 3)
    (hwf : boxWellFormed mn mx) (h1 : mn.get a ≤ s) (h2 : s ≤ mx.get a) :
    boxWellFormed mn (mx.set a s) ∧ boxInside mn (mx.set a s) mn mx := by
  obtain ⟨w1, w2, w3⟩ := hwf
  interval_cases a <;> simp only [Vec3.get] at h1 h2 <;>
    simp only [boxWellFormed, boxInside, Vec3.set] <;>
    refine ⟨⟨?_, ?_, ?_⟩, le_refl _, le_refl _, le_refl _, ?_, ?_, ?_⟩ <;>
    first | assumption | exact le_refl _

theorem cut_min_boxes (mn mx : Vec3) (a : Nat) (s : ℚ) (ha : a < 3)
    (hwf : boxWellFormed mn mx) (h1 : mn.get a ≤ s) (h2 : s ≤ mx.get a) :
    boxWellFormed (mn.set a s) mx ∧ boxInside (mn.set a s) mx mn mx := by
  obtain ⟨w1, w2, w3⟩ := hwf
  interval_cases a <;> simp only [Vec3.get] at h1 h2 <;>
    simp only [boxWellFormed, boxInside, Vec3.set] <;>
    refine ⟨⟨?_, ?_, ?_⟩, ?_, ?_, ?_, le_refl _, le_refl _, le_refl _⟩ <;>
    first | assumption | exact le_refl _

theorem makeTreeFuel_childBoxes (S : StdSort) (eps : ℚ) (lim n : Nat) :
    ∀ (l : List Vec3) (axis : Nat) (bbMin bbMax : Vec3) (vertices : List ℚ) (faces : List Nat)
      (splits : List (List ℚ)) (depth : Nat) (st st' : Build) (t : KdNode),
      makeTreeFuel S eps lim n l axis bbMin bbMax vertices faces splits depth st = some (t, st') →
      axis < 3 → boxWellFormed bbMin bbMax → (∀ p ∈ l, pointInBox bbMin bbMax p = true) →
      nodeBox t = some (bbMin, bbMax) ∧ childBoxes t := by
  induction n with
  | zero => intro l axis bbMin bbMax vertices faces splits depth st st' t h; simp [makeTreeFuel] at h
  | succ n ih =>
    intro l axis bbMin bbMax vertices faces splits depth st st' t h hax hwf hin
    rcases makeTreeFuel_cases S eps lim n l axis bbMin bbMax vertices faces splits depth st st' t h
      with ⟨_, ht, _⟩ | ⟨hc, _, left, right, st2, hl, hr, ht⟩
    · subst ht
      refine ⟨by simp [nodeBox, createLeafNode], ?_⟩
      unfold childBoxes
      exact ⟨by simpa [createLeafNode] using hwf, Or.inl (by simp [createLeafNode])⟩
    · subst ht
      have hne : l ≠ [] := by
        intro e; apply hc; right; simp [e]
      have hmem := findMedian_mem S l axis hne
      have hperm := findMedian_perm S l axis
      have hpw := findMedian_pairwise S l axis
      have hmb := hin _ (hperm.subset hmem)
      obtain ⟨hlo, hhi⟩ := pointInBox_get _ _ _ axis hax hmb
      obtain ⟨sl, sr⟩ := splitNodesAtMedian_sides axis _ _ hpw hmem
      obtain ⟨wfL, inL⟩ := cut_max_boxes bbMin bbMax axis _ hax hwf hlo hhi
      obtain ⟨wfR, inR⟩ := cut_min_boxes bbMin bbMax axis _ hax hwf hlo hhi
      have hax1 : (axis + 1) % 3 < 3 := Nat.mod_lt _ (by norm_num)
      obtain ⟨l1, l2⟩ := ih _ _ _ _ _ _ _ _ _ _ _ hl hax1 wfL (by
        intro p hp
        obtain ⟨h1, h2⟩ := sl p hp
        exact pointInBox_set_max _ _ _ _ _ hax (hin p (hperm.subset h2)) h1)
      obtain ⟨r1, r2⟩ := ih _ _ _ _ _ _ _ _ _ _ _ hr hax1 wfR (by
        intro p hp
        obtain ⟨h1, h2⟩ := sr p hp
        exact pointInBox_set_min _ _ _ _ _ hax (hin p (hperm.subset h2)) h1)
      refine ⟨by simp [nodeBox], ?_⟩
      unfold childBoxes
      exact ⟨hwf, Or.inr ⟨axis, hax, rfl, hlo, hhi, l1, r1, inL, inR, l2, r2⟩⟩

/-- C15: if the scene box is well-formed and contains every vertex, the constructor
returns a tree in which every node has a well-formed box and every internal node with axis
a and split coordinate s has bbMin[a] <= s <= bbMax[a], a left child whose box is the node's
box with max[a] replaced by s and a right child whose box is the node's box with min[a]
replaced by s, both inside the node's box. -/
theorem child_boxes (S : StdSort) (eps : ℚ) (cfg : Nat) (vertices : List ℚ)
    (faces : List Nat) (bbMin bbMax : Vec3) (hwf : boxWellFormed bbMin bbMax)
    (hin : ∀ p ∈ packVerts vertices, pointInBox bbMin bbMax p = true) :
    ∃ t, construct S eps cfg vertices faces bbMin bbMax = some t ∧ childBoxes t.mRoot := by
  rcases construct_cases S eps cfg vertices faces bbMin bbMax with ⟨_, hc⟩ | ⟨_, root, st, hm, hc⟩
  · exact ⟨_, hc, by simp [Tree.init, childBoxes]⟩
  · exact ⟨_, hc, (makeTreeFuel_childBoxes S eps _ _ _ _ _ _ _ _ _ _ _ _ _ hm (by norm_num)
      hwf hin).2⟩

/-- C15, witness: one triangle in the box (0,0,0)-(2,2,3). -/
theorem child_boxes_witness :
    boxWellFormed ⟨0, 0, 0⟩ ⟨2, 2, 3⟩ ∧
    (∀ p ∈ packVerts [0, 2, 1, 1, 0, 0, 2, 1, 3], pointInBox ⟨0, 0, 0⟩ ⟨2, 2, 3⟩ p = true) ∧
    ∃ t, construct insertionStdSort (1 / 100000) 0 [0, 2, 1, 1, 0, 0, 2, 1, 3] [0, 1, 2]
      ⟨0, 0, 0⟩ ⟨2, 2, 3⟩ = some t ∧ childBoxes t.mRoot :=
  have h1 : boxWellFormed ⟨0, 0, 0⟩ ⟨2, 2, 3⟩ := by norm_num [boxWellFormed]
  have h2 : ∀ p ∈ packVerts [0, 2, 1, 1, 0, 0, 2, 1, 3],
      pointInBox ⟨0, 0, 0⟩ ⟨2, 2, 3⟩ p = true := by
    intro p hp
    simp [packVerts, vertexAt, List.range, List.range.loop] at hp
    rcases hp with rfl | rfl | rfl <;> norm_num [pointInBox]
  ⟨h1, h2, child_boxes insertionStdSort (1 / 100000) 0 _ [0, 1, 2] _ _ h1 h2⟩

theorem faceTriples_splitFaces (vs : List ℚ) (mxL mnR : Vec3) (a : Nat) (ha : a < 3)
    (hs : mxL.get a = mnR.get a) : ∀ (n : Nat) (faces : List Nat), faces.length ≤ n →
    ∀ tr ∈ faceTriples faces, tr ∈ faceTriples (splitFaces vs mxL mnR faces).1 ∨
      tr ∈ faceTriples (splitFaces vs mxL mnR faces).2 := by
  intro n
  induction n with
  | zero =>
    intro faces hlen tr htr
    have : faces = [] := List.length_eq_zero.mp (Nat.le_zero.mp hlen)
    subst this
    simp [faceTriples] at htr
  | succ n ih =>
    intro faces hlen tr htr
    match faces, hlen, htr with
    | [], _, htr => simp [faceTriples] at htr
    | [_], _, htr => simp [faceTriples] at htr
    | [_, _], _, htr => simp [faceTriples] at htr
    | f0 :: f1 :: f2 :: rest, hlen, htr =>
      simp only [faceTriples, List.mem_cons] at htr
      have hrest := ih rest (by simp only [List.length_cons] at hlen; omega)
      have hb := (pointInBox_iff _ _ _).mp
        (getFaceBB_bounds (vertexAt vs f0) (vertexAt vs f1) (vertexAt vs f2) (vertexAt vs f0)
          (Or.inl rfl))
      rw [splitFaces]
      simp only [Nat.mul_div_cancel _ (show 0 < 3 by norm_num)]
      rcases htr with rfl | htr
      · by_cases hL : (getFaceBB (vertexAt vs f0) (vertexAt vs f1) (vertexAt vs f2)).1.x ≤ mxL.x ∨
            (getFaceBB (vertexAt vs f0) (vertexAt vs f1) (vertexAt vs f2)).1.y ≤ mxL.y ∨
            (getFaceBB (vertexAt vs f0) (vertexAt vs f1) (vertexAt vs f2)).1.z ≤ mxL.z
        · left
          rw [if_pos hL]
          simp [faceTriples]
        · right
          have hR : (getFaceBB (vertexAt vs f0) (vertexAt vs f1) (vertexAt vs f2)).2.x ≥ mnR.x ∨
              (getFaceBB (vertexAt vs f0) (vertexAt vs f1) (vertexAt vs f2)).2.y ≥ mnR.y ∨
              (getFaceBB (vertexAt vs f0) (vertexAt vs f1) (vertexAt vs f2)).2.z ≥ mnR.z := by
            simp only [not_or, not_le] at hL
            obtain ⟨n1, n2, n3⟩ := hL
            obtain ⟨b1, b2, b3, b4, b5, b6⟩ := hb
            interval_cases a <;> simp only [Vec3.get] at hs
            · left; linarith
            · right; left; linarith
            · right; right; linarith
          rw [if_pos hR]
          simp [faceTriples]
      · rcases hrest tr htr with h | h
        · left
          split <;> simp [faceTriples, h]
        · right
          split <;> simp [faceTriples, h]

/-- C16: if `bbMaxLeft` and `bbMinRight` agree on one of the three axes, every face of
the input of `splitFaces` is in the left output or in the right output. -/
theorem splitFaces_keeps_every_face (vs : List ℚ) (mxL mnR : Vec3) (a : Nat) (faces : List Nat)
    (ha : a < 3) (hs : mxL.get a = mnR.get a) :
    ∀ tr ∈ faceTriples faces, tr ∈ faceTriples (splitFaces vs mxL mnR faces).1 ∨
      tr ∈ faceTriples (splitFaces vs mxL mnR faces).2 :=
  faceTriples_splitFaces vs mxL mnR a ha hs faces.length faces (le_refl _)

/-- C16, witness: one face and a split at x = 1. -/
theorem splitFaces_keeps_every_face_witness :
    0 < 3 ∧ Vec3.get ⟨1, 2, 2⟩ 0 = Vec3.get ⟨1, 0, 0⟩ 0 ∧
    ∀ tr ∈ faceTriples [0, 1, 2],
      tr ∈ faceTriples (splitFaces [0, 0, 0, 2, 0, 0, 0, 2, 0] ⟨1, 2, 2⟩ ⟨1, 0, 0⟩ [0, 1, 2]).1 ∨
      tr ∈ faceTriples (splitFaces [0, 0, 0, 2, 0, 0, 0, 2, 0] ⟨1, 2, 2⟩ ⟨1, 0, 0⟩ [0, 1, 2]).2 :=
  ⟨by decide, rfl, splitFaces_keeps_every_face [0, 0, 0, 2, 0, 0, 0, 2, 0] ⟨1, 2, 2⟩ ⟨1, 0, 0⟩ 0
    [0, 1, 2] (by decide) rfl⟩

/-! ## Segment against box -/

theorem Flt.ite_fin (c : Prop) [Decidable c] (p q : ℚ) :
    (if c then Flt.fin p else Flt.fin q) = Flt.fin (if c then p else q) := by
  split <;> rfl

theorem Flt.lt_fin (p q : ℚ) : Flt.lt (Flt.fin p) (Flt.fin q) = decide (p < q) := rfl

theorem Flt.le_fin (p q : ℚ) : Flt.le (Flt.fin p) (Flt.fin q) = decide (p ≤ q) := rfl

theorem Flt.isnan_fin (p : ℚ) : Flt.isnan (Flt.fin p) = false := rfl

theorem ite_lt_max (a b : ℚ) : (if decide (a < b) = true then b else a) = max a b := by
  simp only [decide_eq_true_eq, max_def]
  split_ifs <;> linarith

theorem ite_lt_min (a b : ℚ) : (if decide (b < a) = true then b else a) = min a b := by
  simp only [decide_eq_true_eq, min_def]
  split_ifs <;> linarith

theorem slab_accept (lx ux ly uy lz uz : ℚ) :
    (if (decide (uy < lx) || decide (ux < ly)) = true then false
      else if (decide (uz < (if decide (lx < ly) = true then ly else lx)) ||
          decide ((if decide (uy < ux) = true then uy else ux) < lz)) = true then false
        else
          (decide (0 ≤ (if decide ((if decide (lx < ly) = true then ly else lx) < lz) = true
              then lz else (if decide (lx < ly) = true then ly else lx))) &&
            decide ((if decide (uz < (if decide (uy < ux) = true then uy else ux)) = true
              then uz else (if decide (uy < ux) = true then uy else ux)) ≤ 1) ||
            (false && decide ((if decide (uz < (if decide (uy < ux) = true then uy else ux)) = true
              then uz else (if decide (uy < ux) = true then uy else ux)) ≤ 1)) ||
            (false && decide (0 ≤ (if decide ((if decide (lx < ly) = true then ly else lx) < lz) = true
              then lz else (if decide (lx < ly) = true then ly else lx)))))) = true ↔
      lx ≤ uy ∧ ly ≤ ux ∧ max lx ly ≤ uz ∧ lz ≤ min ux uy ∧
      0 ≤ max (max lx ly) lz ∧ min (min ux uy) uz ≤ 1 := by
  simp only [ite_lt_max, ite_lt_min, Bool.false_and, Bool.or_false]
  by_cases h1 : uy < lx ∨ ux < ly
  · have : (decide (uy < lx) || decide (ux < ly)) = true := by simpa using h1
    rw [if_pos this]
    constructor
    · intro h; exact absurd h (by simp)
    · rintro ⟨a, b, _⟩
      rcases h1 with h | h <;> linarith
  · have : ¬ ((decide (uy < lx) || decide (ux < ly)) = true) := by simpa using h1
    rw [if_neg this]
    push_neg at h1
    by_cases h2 : uz < max lx ly ∨ min ux uy < lz
    · have : (decide (uz < max lx ly) || decide (min ux uy < lz)) = true := by simpa using h2
      rw [if_pos this]
      constructor
      · intro h; exact absurd h (by simp)
      · rintro ⟨_, _, a, b, _⟩
        rcases h2 with h | h <;> linarith
    · have : ¬ ((decide (uz < max lx ly) || decide (min ux uy < lz)) = true) := by simpa using h2
      rw [if_neg this]
      push_neg at h2
      simp only [Bool.and_eq_true, decide_eq_true_eq]
      constructor
      · rintro ⟨a, b⟩
        exact ⟨h1.1, h1.2, h2.1, h2.2, a, b⟩
      · rintro ⟨_, _, _, _, a, b⟩
        exact ⟨a, b⟩

theorem hitBoundingBox_finite (mn mx o d : Vec3) (hx : d.x ≠ 0) (hy : d.y ≠ 0) (hz : d.z ≠ 0) :
    hitBoundingBox mn mx o d = true ↔
      slabNear mn.x mx.x o.x d.x ≤ slabFar mn.y mx.y o.y d.y ∧
      slabNear mn.y mx.y o.y d.y ≤ slabFar mn.x mx.x o.x d.x ∧
      max (slabNear mn.x mx.x o.x d.x) (slabNear mn.y mx.y o.y d.y) ≤ slabFar mn.z mx.z o.z d.z ∧
      slabNear mn.z mx.z o.z d.z ≤ min (slabFar mn.x mx.x o.x d.x) (slabFar mn.y mx.y o.y d.y) ∧
      0 ≤ max (max (slabNear mn.x mx.x o.x d.x) (slabNear mn.y mx.y o.y d.y))
        (slabNear mn.z mx.z o.z d.z) ∧
      min (min (slabFar mn.x mx.x o.x d.x) (slabFar mn.y mx.y o.y d.y))
        (slabFar mn.z mx.z o.z d.z) ≤ 1 := by
  have bx : ∀ (c : Prop) [Decidable c], ((if decide c = true then mx else mn).x = if c then mx.x else mn.x)
      ∧ ((if (!decide c) = true then mx else mn).x = if c then mn.x else mx.x) := by
    intro c _; by_cases h : c <;> simp [h]
  have by_ : ∀ (c : Prop) [Decidable c], ((if decide c = true then mx else mn).y = if c then mx.y else mn.y)
      ∧ ((if (!decide c) = true then mx else mn).y = if c then mn.y else mx.y) := by
    intro c _; by_cases h : c <;> simp [h]
  have bz : ∀ (c : Prop) [Decidable c], ((if decide c = true then mx else mn).z = if c then mx.z else mn.z)
      ∧ ((if (!decide c) = true then mx else mn).z = if c then mn.z else mx.z) := by
    intro c _; by_cases h : c <;> simp [h]
  rw [← slab_accept]
  simp only [hitBoundingBox, Flt.recip, hx, hy, hz, if_false, Flt.scale, Flt.gt, Flt.ge,
    Flt.lt_fin, Flt.le_fin, Flt.ite_fin, Flt.isnan_fin,
    (bx _).1, (bx _).2, (by_ _).1, (by_ _).2, (bz _).1, (bz _).2, slabNear, slabFar]

theorem slab_iff (lo hi o d t : ℚ) (hd : d ≠ 0) :
    (lo ≤ o + t * d ∧ o + t * d ≤ hi) ↔ slabNear lo hi o d ≤ t ∧ t ≤ slabFar lo hi o d := by
  unfold slabNear slabFar
  rcases lt_or_gt_of_ne hd with h | h
  · have hinv : 1 / d < 0 := one_div_neg.mpr h
    rw [if_pos hinv, if_pos hinv, ← div_eq_mul_one_div, ← div_eq_mul_one_div,
      div_le_iff_of_neg h, le_div_iff_of_neg h]
    constructor
    · rintro ⟨a, b⟩; exact ⟨by linarith, by linarith⟩
    · rintro ⟨a, b⟩; exact ⟨by linarith, by linarith⟩
  · have hinv : ¬ (1 / d < 0) := not_lt.mpr (le_of_lt (one_div_pos.mpr h))
    rw [if_neg hinv, if_neg hinv, ← div_eq_mul_one_div, ← div_eq_mul_one_div,
      div_le_iff₀ h, le_div_iff₀ h]
    constructor
    · rintro ⟨a, b⟩; exact ⟨by linarith, by linarith⟩
    · rintro ⟨a, b⟩; exact ⟨by linarith, by linarith⟩

theorem slab_nonempty (lo hi o d : ℚ) (hd : d ≠ 0) (h : lo ≤ hi) :
    slabNear lo hi o d ≤ slabFar lo hi o d := by
  unfold slabNear slabFar
  rcases lt_or_gt_of_ne hd with h1 | h1
  · have hinv : 1 / d < 0 := one_div_neg.mpr h1
    rw [if_pos hinv, if_pos hinv]
    exact mul_le_mul_of_nonpos_right (by linarith) (le_of_lt hinv)
  · have hinv : 0 < 1 / d := one_div_pos.mpr h1
    rw [if_neg (not_lt.mpr (le_of_lt hinv)), if_neg (not_lt.mpr (le_of_lt hinv))]
    exact mul_le_mul_of_nonneg_right (by linarith) (le_of_lt hinv)

theorem pointAt_in_box (mn mx o d : Vec3) (t : ℚ) (hx : d.x ≠ 0) (hy : d.y ≠ 0) (hz : d.z ≠ 0) :
    pointInBox mn mx (pointAt o d t) = true ↔
      (slabNear mn.x mx.x o.x d.x ≤ t ∧ t ≤ slabFar mn.x mx.x o.x d.x) ∧
      (slabNear mn.y mx.y o.y d.y ≤ t ∧ t ≤ slabFar mn.y mx.y o.y d.y) ∧
      (slabNear mn.z mx.z o.z d.z ≤ t ∧ t ≤ slabFar mn.z mx.z o.z d.z) := by
  rw [pointInBox_iff, ← slab_iff _ _ _ _ _ hx, ← slab_iff _ _ _ _ _ hy, ← slab_iff _ _ _ _ _ hz]
  simp only [pointAt]
  tauto

/-- The accept rule of `hitBoundingBox` as it is coded: for a well-formed box and a
direction without zero component, it returns true exactly when the line `origin + t * dir`
meets the box and every point of the line inside the box has `0 <= t <= 1`, that is when
the intersection of the three slab intervals is non-empty and contained in `[0, 1]`. -/
theorem hitBoundingBox_chord (mn mx o d : Vec3) (hwf : boxWellFormed mn mx)
    (hx : d.x ≠ 0) (hy : d.y ≠ 0) (hz : d.z ≠ 0) :
    hitBoundingBox mn mx o d = true ↔
      (∃ t, pointInBox mn mx (pointAt o d t) = true) ∧
      ∀ t, pointInBox mn mx (pointAt o d t) = true → 0 ≤ t ∧ t ≤ 1 := by
  rw [hitBoundingBox_finite mn mx o d hx hy hz]
  simp only [pointAt_in_box mn mx o d _ hx hy hz]
  obtain ⟨w1, w2, w3⟩ := hwf
  have nx := slab_nonempty mn.x mx.x o.x d.x hx w1
  have ny := slab_nonempty mn.y mx.y o.y d.y hy w2
  have nz := slab_nonempty mn.z mx.z o.z d.z hz w3
  generalize slabNear mn.x mx.x o.x d.x = lx at *
  generalize slabNear mn.y mx.y o.y d.y = ly at *
  generalize slabNear mn.z mx.z o.z d.z = lz at *
  generalize slabFar mn.x mx.x o.x d.x = ux at *
  generalize slabFar mn.y mx.y o.y d.y = uy at *
  generalize slabFar mn.z mx.z o.z d.z = uz at *
  constructor
  · rintro ⟨a1, a2, a3, a4, a5, a6⟩
    have b1 := max_le_iff.mp a3
    have b2 := le_min_iff.mp a4
    constructor
    · refine ⟨max (max lx ly) lz, ⟨?_, ?_⟩, ⟨?_, ?_⟩, ⟨?_, ?_⟩⟩
      · exact le_trans (le_max_left _ _) (le_max_left _ _)
      · exact max_le (max_le nx a2) b2.1
      · exact le_trans (le_max_right _ _) (le_max_left _ _)
      · exact max_le (max_le a1 ny) b2.2
      · exact le_max_right _ _
      · exact max_le a3 nz
    · rintro t ⟨⟨c1, c2⟩, ⟨c3, c4⟩, ⟨c5, c6⟩⟩
      constructor
      · exact le_trans a5 (max_le (max_le c1 c3) c5)
      · exact le_trans (le_min (le_min c2 c4) c6) a6
  · rintro ⟨⟨t, ⟨c1, c2⟩, ⟨c3, c4⟩, ⟨c5, c6⟩⟩, hall⟩
    refine ⟨by linarith, by linarith, max_le (by linarith) (by linarith),
      le_min (by linarith) (by linarith), ?_, ?_⟩
    · refine (hall (max (max lx ly) lz) ⟨⟨?_, ?_⟩, ⟨?_, ?_⟩, ⟨?_, ?_⟩⟩).1
      · exact le_trans (le_max_left _ _) (le_max_left _ _)
      · exact max_le (max_le nx (by linarith)) (by linarith)
      · exact le_trans (le_max_right _ _) (le_max_left _ _)
      · exact max_le (max_le (by linarith) ny) (by linarith)
      · exact le_max_right _ _
      · exact max_le (max_le (by linarith) (by linarith)) nz
    · refine (hall (min (min ux uy) uz) ⟨⟨?_, ?_⟩, ⟨?_, ?_⟩, ⟨?_, ?_⟩⟩).2
      · exact le_min (le_min nx (by linarith)) (by linarith)
      · exact le_trans (min_le_left _ _) (min_le_left _ _)
      · exact le_min (le_min (by linarith) ny) (by linarith)
      · exact le_trans (min_le_left _ _) (min_le_right _ _)
      · exact le_min (le_min (by linarith) (by linarith)) nz
      · exact min_le_right _ _

/-- The coded accept rule at the segment from (-1,-1,-1) to (2,2,2) and the unit box. -/
theorem hitBoundingBox_chord_witness :
    boxWellFormed ⟨0, 0, 0⟩ ⟨1, 1, 1⟩ ∧
    Vec3.x ⟨3, 3, 3⟩ ≠ 0 ∧ Vec3.y ⟨3, 3, 3⟩ ≠ 0 ∧ Vec3.z ⟨3, 3, 3⟩ ≠ 0 ∧
    (hitBoundingBox ⟨0, 0, 0⟩ ⟨1, 1, 1⟩ ⟨-1, -1, -1⟩ ⟨3, 3, 3⟩ = true ↔
      (∃ t, pointInBox ⟨0, 0, 0⟩ ⟨1, 1, 1⟩ (pointAt ⟨-1, -1, -1⟩ ⟨3, 3, 3⟩ t) = true) ∧
      ∀ t, pointInBox ⟨0, 0, 0⟩ ⟨1, 1, 1⟩ (pointAt ⟨-1, -1, -1⟩ ⟨3, 3, 3⟩ t) = true →
        0 ≤ t ∧ t ≤ 1) :=
  ⟨by norm_num [boxWellFormed], by norm_num, by norm_num, by norm_num,
    hitBoundingBox_chord ⟨0, 0, 0⟩ ⟨1, 1, 1⟩ ⟨-1, -1, -1⟩ ⟨3, 3, 3⟩ (by norm_num [boxWellFormed])
      (by norm_num) (by norm_num) (by norm_num)⟩

theorem Flt.add_fin (p q : ℚ) : Flt.add (Flt.fin p) (Flt.fin q) = Flt.fin (p + q) := rfl

theorem hitTriangle_finite (eps : ℚ) (vStart vEnd a b c : Vec3)
    (hdet : triDet vStart vEnd a b c ≠ 0)
    (hguard : Flt.lt (Flt.abs (Flt.recip (triDet vStart vEnd a b c))) (Flt.fin eps) = false) :
    hitTriangle eps vStart vEnd a b c = true ↔
      0 ≤ (vStart.sub a).dot ((vEnd.sub vStart).cross (c.sub a)) / triDet vStart vEnd a b c ∧
      (vStart.sub a).dot ((vEnd.sub vStart).cross (c.sub a)) / triDet vStart vEnd a b c ≤ 1 ∧
      0 ≤ (vEnd.sub vStart).dot ((vStart.sub a).cross (b.sub a)) / triDet vStart vEnd a b c ∧
      (vStart.sub a).dot ((vEnd.sub vStart).cross (c.sub a)) / triDet vStart vEnd a b c +
        (vEnd.sub vStart).dot ((vStart.sub a).cross (b.sub a)) / triDet vStart vEnd a b c ≤ 1 ∧
      0 ≤ (c.sub a).dot ((vStart.sub a).cross (b.sub a)) / triDet vStart vEnd a b c ∧
      (c.sub a).dot ((vStart.sub a).cross (b.sub a)) / triDet vStart vEnd a b c ≤ 1 := by
  unfold hitTriangle
  simp only []
  rw [show (b.sub a).dot ((vEnd.sub vStart).cross (c.sub a)) = triDet vStart vEnd a b c from rfl,
    hguard]
  simp only [Flt.recip, hdet, if_false, Flt.scale, Flt.gt, Flt.lt_fin, Flt.add_fin,
    ← div_eq_mul_one_div, Bool.false_eq_true]
  generalize (vStart.sub a).dot ((vEnd.sub vStart).cross (c.sub a)) / triDet vStart vEnd a b c = U
  generalize (vEnd.sub vStart).dot ((vStart.sub a).cross (b.sub a)) / triDet vStart vEnd a b c = V
  generalize (c.sub a).dot ((vStart.sub a).cross (b.sub a)) / triDet vStart vEnd a b c = T
  by_cases h1 : U < 0 ∨ 1 < U
  · have : (decide (U < 0) || decide (1 < U)) = true := by simpa using h1
    rw [if_pos this]
    constructor
    · intro h; exact absurd h (by simp)
    · rintro ⟨a1, a2, _⟩; rcases h1 with h | h <;> linarith
  · have : ¬ ((decide (U < 0) || decide (1 < U)) = true) := by simpa using h1
    rw [if_neg this]
    push_neg at h1
    by_cases h2 : V < 0 ∨ 1 < U + V
    · have : (decide (V < 0) || decide (1 < U + V)) = true := by simpa using h2
      rw [if_pos this]
      constructor
      · intro h; exact absurd h (by simp)
      · rintro ⟨_, _, a1, a2, _⟩; rcases h2 with h | h <;> linarith
    · have : ¬ ((decide (V < 0) || decide (1 < U + V)) = true) := by simpa using h2
      rw [if_neg this]
      push_neg at h2
      by_cases h3 : T < 0 ∨ 1 < T
      · have : (decide (T < 0) || decide (1 < T)) = true := by simpa using h3
        rw [if_pos this]
        constructor
        · intro h; exact absurd h (by simp)
        · rintro ⟨_, _, _, _, a1, a2⟩; rcases h3 with h | h <;> linarith
      · have : ¬ ((decide (T < 0) || decide (1 < T)) = true) := by simpa using h3
        rw [if_neg this]
        push_neg at h3
        simp only [true_iff]
        exact ⟨h1.1, h1.2, h2.1, h2.2, h3.1, h3.2⟩

theorem cramer_numerators (vStart vEnd a b c : Vec3) (u v t : ℚ)
    (heq : pointAt vStart (vEnd.sub vStart) t =
      ⟨a.x + u * (b.x - a.x) + v * (c.x - a.x), a.y + u * (b.y - a.y) + v * (c.y - a.y),
        a.z + u * (b.z - a.z) + v * (c.z - a.z)⟩) :
    (vStart.sub a).dot ((vEnd.sub vStart).cross (c.sub a)) = u * triDet vStart vEnd a b c ∧
    (vEnd.sub vStart).dot ((vStart.sub a).cross (b.sub a)) = v * triDet vStart vEnd a b c ∧
    (c.sub a).dot ((vStart.sub a).cross (b.sub a)) = t * triDet vStart vEnd a b c := by
  obtain ⟨sx, sy, sz⟩ := vStart
  obtain ⟨ex, ey, ez⟩ := vEnd
  obtain ⟨ax, ay, az⟩ := a
  obtain ⟨bx, by_, bz⟩ := b
  obtain ⟨cx, cy, cz⟩ := c
  simp only [triDet, Vec3.sub, Vec3.dot, Vec3.cross, pointAt, Vec3.mk.injEq] at heq ⊢
  obtain ⟨e1, e2, e3⟩ := heq
  refine ⟨?_, ?_, ?_⟩
  · linear_combination ((ey - sy) * (cz - az) - (ez - sz) * (cy - ay)) * e1 +
      ((ez - sz) * (cx - ax) - (ex - sx) * (cz - az)) * e2 +
      ((ex - sx) * (cy - ay) - (ey - sy) * (cx - ax)) * e3
  · linear_combination ((by_ - ay) * (ez - sz) - (bz - az) * (ey - sy)) * e1 +
      ((bz - az) * (ex - sx) - (bx - ax) * (ez - sz)) * e2 +
      ((bx - ax) * (ey - sy) - (by_ - ay) * (ex - sx)) * e3
  · linear_combination ((by_ - ay) * (cz - az) - (bz - az) * (cy - ay)) * e1 +
      ((bz - az) * (cx - ax) - (bx - ax) * (cz - az)) * e2 +
      ((bx - ax) * (cy - ay) - (by_ - ay) * (cx - ax)) * e3

theorem cramer_solution (vStart vEnd a b c : Vec3) (hdet : triDet vStart vEnd a b c ≠ 0) :
    pointAt vStart (vEnd.sub vStart)
        ((c.sub a).dot ((vStart.sub a).cross (b.sub a)) / triDet vStart vEnd a b c) =
      ⟨a.x + (vStart.sub a).dot ((vEnd.sub vStart).cross (c.sub a)) / triDet vStart vEnd a b c *
          (b.x - a.x) +
        (vEnd.sub vStart).dot ((vStart.sub a).cross (b.sub a)) / triDet vStart vEnd a b c *
          (c.x - a.x),
       a.y + (vStart.sub a).dot ((vEnd.sub vStart).cross (c.sub a)) / triDet vStart vEnd a b c *
          (b.y - a.y) +
        (vEnd.sub vStart).dot ((vStart.sub a).cross (b.sub a)) / triDet vStart vEnd a b c *
          (c.y - a.y),
       a.z + (vStart.sub a).dot ((vEnd.sub vStart).cross (c.sub a)) / triDet vStart vEnd a b c *
          (b.z - a.z) +
        (vEnd.sub vStart).dot ((vStart.sub a).cross (b.sub a)) / triDet vStart vEnd a b c *
          (c.z - a.z)⟩ := by
  obtain ⟨sx, sy, sz⟩ := vStart
  obtain ⟨ex, ey, ez⟩ := vEnd
  obtain ⟨ax, ay, az⟩ := a
  obtain ⟨bx, by_, bz⟩ := b
  obtain ⟨cx, cy, cz⟩ := c
  simp only [triDet, Vec3.sub, Vec3.dot, Vec3.cross, pointAt, Vec3.mk.injEq] at hdet ⊢
  refine ⟨?_, ?_, ?_⟩
  · field_simp
    ring
  · field_simp
    ring
  · field_simp
    ring

/-- Behaviour of `hitTriangle` where its own guard `abs( invDet ) < KD_EPSILON` lets the
determinant pass: if the determinant is not zero and that test is false, `hitTriangle`
returns true exactly when the finite segment meets the triangle. -/
theorem hitTriangle_iff (eps : ℚ) (vStart vEnd a b c : Vec3)
    (hdet : triDet vStart vEnd a b c ≠ 0)
    (hguard : Flt.lt (Flt.abs (Flt.recip (triDet vStart vEnd a b c))) (Flt.fin eps) = false) :
    hitTriangle eps vStart vEnd a b c = true ↔ segmentMeetsTriangle vStart vEnd a b c := by
  rw [hitTriangle_finite eps vStart vEnd a b c hdet hguard]
  unfold segmentMeetsTriangle
  constructor
  · rintro ⟨h1, h2, h3, h4, h5, h6⟩
    exact ⟨_, _, _, h1, h2, h3, h4, h5, h6, cramer_solution vStart vEnd a b c hdet⟩
  · rintro ⟨u, v, t, h1, h2, h3, h4, h5, h6, heq⟩
    obtain ⟨n1, n2, n3⟩ := cramer_numerators vStart vEnd a b c u v t heq
    rw [n1, n2, n3, mul_div_assoc, mul_div_assoc, mul_div_assoc, div_self hdet, mul_one, mul_one,
      mul_one]
    exact ⟨h1, h2, h3, h4, h5, h6⟩

/-- The segment from (1/4,1/4,-1) to (1/4,1/4,1) and the triangle (0,0,0), (1,0,0),
(0,1,0), with determinant -2, pass the coded guard. -/
theorem hitTriangle_iff_witness :
    triDet ⟨1 / 4, 1 / 4, -1⟩ ⟨1 / 4, 1 / 4, 1⟩ ⟨0, 0, 0⟩ ⟨1, 0, 0⟩ ⟨0, 1, 0⟩ ≠ 0 ∧
    Flt.lt (Flt.abs (Flt.recip
      (triDet ⟨1 / 4, 1 / 4, -1⟩ ⟨1 / 4, 1 / 4, 1⟩ ⟨0, 0, 0⟩ ⟨1, 0, 0⟩ ⟨0, 1, 0⟩)))
      (Flt.fin (1 / 100000)) = false ∧
    (hitTriangle (1 / 100000) ⟨1 / 4, 1 / 4, -1⟩ ⟨1 / 4, 1 / 4, 1⟩ ⟨0, 0, 0⟩ ⟨1, 0, 0⟩ ⟨0, 1, 0⟩
        = true ↔
      segmentMeetsTriangle ⟨1 / 4, 1 / 4, -1⟩ ⟨1 / 4, 1 / 4, 1⟩ ⟨0, 0, 0⟩ ⟨1, 0, 0⟩ ⟨0, 1, 0⟩) :=
  have h1 : triDet ⟨1 / 4, 1 / 4, -1⟩ ⟨1 / 4, 1 / 4, 1⟩ ⟨0, 0, 0⟩ ⟨1, 0, 0⟩ ⟨0, 1, 0⟩ ≠ 0 := by
    norm_num [triDet, Vec3.sub, Vec3.dot, Vec3.cross]
  have h2 : Flt.lt (Flt.abs (Flt.recip
      (triDet ⟨1 / 4, 1 / 4, -1⟩ ⟨1 / 4, 1 / 4, 1⟩ ⟨0, 0, 0⟩ ⟨1, 0, 0⟩ ⟨0, 1, 0⟩)))
      (Flt.fin (1 / 100000)) = false := by
    norm_num [triDet, Vec3.sub, Vec3.dot, Vec3.cross, Flt.recip, Flt.abs, Flt.lt, abs_of_neg]
  ⟨h1, h2, hitTriangle_iff (1 / 100000) _ _ _ _ _ h1 h2⟩

/-- C18 fails: for every positive guard constant `eps` and every `L > 0` with
`eps <= 3 L^3` and `1 / eps < 3 L^3`, the segment from (0,0,0) to (L,L,L) and the triangle
(L,0,0), (0,L,0), (0,0,L) have the determinant `-3 L^3`, which is not zero and of magnitude at
least `eps`; the segment meets the triangle (at `t = 1/3`, `u = v = 1/3`), and `hitTriangle`
returns false, because its guard compares the reciprocal of the determinant with `eps`. -/
theorem hitTriangle_rejects_large_determinant (eps L : ℚ) (he : 0 < eps) (hL : 0 < L)
    (hpass : eps ≤ 3 * L ^ 3) (hbig : 1 / eps < 3 * L ^ 3) :
    triDet ⟨0, 0, 0⟩ ⟨L, L, L⟩ ⟨L, 0, 0⟩ ⟨0, L, 0⟩ ⟨0, 0, L⟩ = -(3 * L ^ 3) ∧
    triDet ⟨0, 0, 0⟩ ⟨L, L, L⟩ ⟨L, 0, 0⟩ ⟨0, L, 0⟩ ⟨0, 0, L⟩ ≠ 0 ∧
    eps ≤ |triDet ⟨0, 0, 0⟩ ⟨L, L, L⟩ ⟨L, 0, 0⟩ ⟨0, L, 0⟩ ⟨0, 0, L⟩| ∧
    segmentMeetsTriangle ⟨0, 0, 0⟩ ⟨L, L, L⟩ ⟨L, 0, 0⟩ ⟨0, L, 0⟩ ⟨0, 0, L⟩ ∧
    hitTriangle eps ⟨0, 0, 0⟩ ⟨L, L, L⟩ ⟨L, 0, 0⟩ ⟨0, L, 0⟩ ⟨0, 0, L⟩ = false := by
  have hd : triDet ⟨0, 0, 0⟩ ⟨L, L, L⟩ ⟨L, 0, 0⟩ ⟨0, L, 0⟩ ⟨0, 0, L⟩ = -(3 * L ^ 3) := by
    simp only [triDet, Vec3.sub, Vec3.dot, Vec3.cross]
    ring
  have hpos : 0 < 3 * L ^ 3 := by positivity
  refine ⟨hd, ?_, ?_, ?_, ?_⟩
  · rw [hd]; linarith
  · rw [hd, abs_neg, abs_of_pos hpos]; exact hpass
  · refine ⟨1 / 3, 1 / 3, 1 / 3, by norm_num, by norm_num, by norm_num, by norm_num,
      by norm_num, by norm_num, ?_⟩
    simp only [pointAt, Vec3.sub, Vec3.mk.injEq]
    refine ⟨by ring, by ring, by ring⟩
  · have hne : -(3 * L ^ 3) ≠ 0 := by linarith
    have hguard : Flt.lt (Flt.abs (Flt.recip
        (triDet ⟨0, 0, 0⟩ ⟨L, L, L⟩ ⟨L, 0, 0⟩ ⟨0, L, 0⟩ ⟨0, 0, L⟩))) (Flt.fin eps) = true := by
      rw [hd]
      simp only [Flt.recip, hne, if_false, Flt.abs, Flt.lt_fin, decide_eq_true_eq]
      rw [abs_of_neg (by rw [one_div_neg]; linarith), one_div, ← neg_inv, neg_neg, ← one_div,
        div_lt_iff₀ hpos]
      rw [div_lt_iff₀ he] at hbig
      linarith
    unfold hitTriangle
    simp only []
    rw [show (Vec3.sub ⟨0, L, 0⟩ ⟨L, 0, 0⟩).dot
        ((Vec3.sub ⟨L, L, L⟩ ⟨0, 0, 0⟩).cross (Vec3.sub ⟨0, 0, L⟩ ⟨L, 0, 0⟩)) =
        triDet ⟨0, 0, 0⟩ ⟨L, L, L⟩ ⟨L, 0, 0⟩ ⟨0, L, 0⟩ ⟨0, 0, L⟩ from rfl, hguard]
    rfl

/-- C18, instance for `eps = 1/100000` and `L = 100`: determinant -3000000. -/
theorem hitTriangle_rejects_large_determinant_witness :
    (0 : ℚ) < 1 / 100000 ∧ (0 : ℚ) < 100 ∧ (1 / 100000 : ℚ) ≤ 3 * 100 ^ 3 ∧
    1 / (1 / 100000 : ℚ) < 3 * 100 ^ 3 ∧
    (triDet ⟨0, 0, 0⟩ ⟨100, 100, 100⟩ ⟨100, 0, 0⟩ ⟨0, 100, 0⟩ ⟨0, 0, 100⟩ = -(3 * 100 ^ 3) ∧
    triDet ⟨0, 0, 0⟩ ⟨100, 100, 100⟩ ⟨100, 0, 0⟩ ⟨0, 100, 0⟩ ⟨0, 0, 100⟩ ≠ 0 ∧
    1 / 100000 ≤ |triDet ⟨0, 0, 0⟩ ⟨100, 100, 100⟩ ⟨100, 0, 0⟩ ⟨0, 100, 0⟩ ⟨0, 0, 100⟩| ∧
    segmentMeetsTriangle ⟨0, 0, 0⟩ ⟨100, 100, 100⟩ ⟨100, 0, 0⟩ ⟨0, 100, 0⟩ ⟨0, 0, 100⟩ ∧
    hitTriangle (1 / 100000) ⟨0, 0, 0⟩ ⟨100, 100, 100⟩ ⟨100, 0, 0⟩ ⟨0, 100, 0⟩ ⟨0, 0, 100⟩
      = false) :=
  ⟨by norm_num, by norm_num, by norm_num, by norm_num,
    hitTriangle_rejects_large_determinant (1 / 100000) 100 (by norm_num) (by norm_num)
      (by norm_num) (by norm_num)⟩

/-- C19 fails: for every positive guard constant `eps` the segment from (1/4,1/4,-h) to
(1/4,1/4,h) with `h = min(eps, 1/eps) / 4` and the triangle (0,0,0), (1,0,0), (0,1,0) have a
determinant that is not zero and of magnitude below `eps`, and `hitTriangle` returns true. -/
theorem hitTriangle_accepts_small_determinant (eps : ℚ) (he : 0 < eps) :
    triDet ⟨1 / 4, 1 / 4, -shortHalf eps⟩ ⟨1 / 4, 1 / 4, shortHalf eps⟩
      ⟨0, 0, 0⟩ ⟨1, 0, 0⟩ ⟨0, 1, 0⟩ ≠ 0 ∧
    |triDet ⟨1 / 4, 1 / 4, -shortHalf eps⟩ ⟨1 / 4, 1 / 4, shortHalf eps⟩
      ⟨0, 0, 0⟩ ⟨1, 0, 0⟩ ⟨0, 1, 0⟩| < eps ∧
    hitTriangle eps ⟨1 / 4, 1 / 4, -shortHalf eps⟩ ⟨1 / 4, 1 / 4, shortHalf eps⟩
      ⟨0, 0, 0⟩ ⟨1, 0, 0⟩ ⟨0, 1, 0⟩ = true := by
  have hpos : 0 < shortHalf eps := by
    unfold shortHalf
    have : 0 < min eps (1 / eps) := lt_min he (one_div_pos.mpr he)
    linarith
  have hle1 : shortHalf eps ≤ eps / 4 := by
    unfold shortHalf
    have := min_le_left eps (1 / eps)
    linarith
  have hle2 : shortHalf eps ≤ 1 / eps / 4 := by
    unfold shortHalf
    have := min_le_right eps (1 / eps)
    linarith
  have hd : triDet ⟨1 / 4, 1 / 4, -shortHalf eps⟩ ⟨1 / 4, 1 / 4, shortHalf eps⟩
      ⟨0, 0, 0⟩ ⟨1, 0, 0⟩ ⟨0, 1, 0⟩ = -(2 * shortHalf eps) := by
    simp only [triDet, Vec3.sub, Vec3.dot, Vec3.cross]
    ring
  generalize shortHalf eps = h at *
  have hne : triDet ⟨1 / 4, 1 / 4, -h⟩ ⟨1 / 4, 1 / 4, h⟩ ⟨0, 0, 0⟩ ⟨1, 0, 0⟩ ⟨0, 1, 0⟩ ≠ 0 := by
    rw [hd]; linarith
  have hguard : Flt.lt (Flt.abs (Flt.recip
      (triDet ⟨1 / 4, 1 / 4, -h⟩ ⟨1 / 4, 1 / 4, h⟩ ⟨0, 0, 0⟩ ⟨1, 0, 0⟩ ⟨0, 1, 0⟩)))
      (Flt.fin eps) = false := by
    have hne2 : -(2 * h) ≠ 0 := by linarith
    rw [hd]
    simp only [Flt.recip, hne2, if_false, Flt.abs, Flt.lt_fin, decide_eq_false_iff_not, not_lt]
    rw [abs_of_neg (by rw [one_div_neg]; linarith)]
    have h2 : eps * (2 * h) ≤ 1 / 2 := by
      have : eps * (1 / eps) = 1 := by field_simp
      nlinarith
    rw [one_div, ← neg_inv, neg_neg, ← one_div, le_div_iff₀ (by linarith)]
    linarith
  refine ⟨hne, ?_, ?_⟩
  · rw [hd, abs_neg, abs_of_pos (by linarith)]
    linarith
  · have heq : pointAt ⟨1 / 4, 1 / 4, -h⟩ (Vec3.sub ⟨1 / 4, 1 / 4, h⟩ ⟨1 / 4, 1 / 4, -h⟩) (1 / 2) =
        ⟨(0 : ℚ) + 1 / 4 * (1 - 0) + 1 / 4 * (0 - 0), 0 + 1 / 4 * (0 - 0) + 1 / 4 * (1 - 0),
          0 + 1 / 4 * (0 - 0) + 1 / 4 * (0 - 0)⟩ := by
      simp only [pointAt, Vec3.sub, Vec3.mk.injEq]
      refine ⟨by ring, by ring, by ring⟩
    obtain ⟨n1, n2, n3⟩ := cramer_numerators ⟨1 / 4, 1 / 4, -h⟩ ⟨1 / 4, 1 / 4, h⟩ ⟨0, 0, 0⟩
      ⟨1, 0, 0⟩ ⟨0, 1, 0⟩ (1 / 4) (1 / 4) (1 / 2) heq
    rw [hitTriangle_finite eps _ _ _ _ _ hne hguard, n1, n2, n3]
    simp only [mul_div_assoc, div_self hne]
    norm_num

/-- C19, instance for `eps = 1/100000`, where `h = 1/400000`. -/
theorem hitTriangle_accepts_small_determinant_witness :
    (0 : ℚ) < 1 / 100000 ∧ shortHalf (1 / 100000) = 1 / 400000 ∧
    (triDet ⟨1 / 4, 1 / 4, -shortHalf (1 / 100000)⟩ ⟨1 / 4, 1 / 4, shortHalf (1 / 100000)⟩
      ⟨0, 0, 0⟩ ⟨1, 0, 0⟩ ⟨0, 1, 0⟩ ≠ 0 ∧
    |triDet ⟨1 / 4, 1 / 4, -shortHalf (1 / 100000)⟩ ⟨1 / 4, 1 / 4, shortHalf (1 / 100000)⟩
      ⟨0, 0, 0⟩ ⟨1, 0, 0⟩ ⟨0, 1, 0⟩| < 1 / 100000 ∧
    hitTriangle (1 / 100000) ⟨1 / 4, 1 / 4, -shortHalf (1 / 100000)⟩
      ⟨1 / 4, 1 / 4, shortHalf (1 / 100000)⟩ ⟨0, 0, 0⟩ ⟨1, 0, 0⟩ ⟨0, 1, 0⟩ = true) :=
  ⟨by norm_num, by norm_num [shortHalf],
    hitTriangle_accepts_small_determinant (1 / 100000) (by norm_num)⟩

/-! ## Absent ropes -/

theorem optimizeRope_present (side : Nat) (mn mx : Vec3) (d : NodeData) (l r : KdNode)
    (hb : boxesLinked (KdNode.mk d l r)) :
    optimizeRope side mn mx (KdNode.mk d l r) ≠ KdNode.null := by
  rcases Nat.mod_two_eq_zero_or_one side with hs | hs
  · obtain ⟨d1, l1, r1, h, _⟩ := optimizeRope_even side mn mx hs _ d l r rfl hb
    rw [h]; exact KdNode.noConfusion
  · obtain ⟨d1, l1, r1, h, _⟩ := optimizeRope_odd side mn mx hs _ d l r rfl hb
    rw [h]; exact KdNode.noConfusion

theorem optimize_absent (mn mx : Vec3) (ropes : List KdNode) (hl : ropesLinked ropes) (j : Nat)
    (h : ((List.range 6).foldl (optimizeSide mn mx) ropes).getD j KdNode.null = KdNode.null) :
    ropes.getD j KdNode.null = KdNode.null := by
  rw [foldl_optimizeSide_getD] at h
  by_cases hj : j < 6
  · rw [if_pos hj] at h
    cases hr : ropes.getD j KdNode.null with
    | null => rfl
    | mk d l r =>
      rw [hr] at h
      exact absurd h (optimizeRope_present j mn mx d l r (hl j d l r hr))
  · rw [if_neg hj] at h
    exact h

theorem createRopes_scene (root : KdNode) (d : NodeData) (l r : KdNode)
    (hroot : root = KdNode.mk d l r) (hb : boxesLinked root) :
    ∀ p ∈ createRopes root (List.replicate 6 KdNode.null),
      ropesScene d.bbMin d.bbMax p.1.bbMin p.1.bbMax p.2 := by
  intro p hp
  have key := createRopes_inv
    (fun d1 l1 r1 ropes => boxesLinked (KdNode.mk d1 l1 r1) ∧ ropes.length = 6 ∧
      ropesLinked ropes ∧ ropesScene d.bbMin d.bbMax d1.bbMin d1.bbMax ropes) ?_ root
      (List.replicate 6 KdNode.null) d l r hroot ?_ p hp
  · obtain ⟨_, _, ⟨_, _, _, h4⟩, _⟩ := key
    exact h4
  · intro d1 left right ropes hax ⟨hbl, hlen, hlk, hsc⟩
    have hbl1 := hbl
    unfold boxesLinked at hbl1
    rcases hbl1 with hneg | ⟨ax, hax3, haxe, hlb, hrb, hll, hrl⟩
    · exact absurd hneg hax
    have htn : d1.axis.toNat = ax := by omega
    have hlen1 := foldl_optimizeSide_length d1.bbMin d1.bbMax 6 ropes
    have hlk1 := optimize_ropesLinked d1.bbMin d1.bbMax ropes hlk
    rw [htn]
    constructor
    · intro dl ll lr hleft
      rw [hleft] at hlb hll
      simp only [nodeBox, Option.some.injEq, Prod.mk.injEq] at hlb
      refine ⟨hll, by rw [List.length_set, hlen1, hlen], ropesLinked_set _ _ _ hlk1 hrl, ?_⟩
      intro a ha
      constructor
      · intro hj
        rw [getD_set_ne _ _ _ _ (by omega)] at hj
        rw [hlb.1]
        exact (hsc a ha).1 (optimize_absent _ _ _ hlk _ hj)
      · intro hj
        by_cases hae : a = ax
        · subst hae
          rw [show a * 2 + 1 = 2 * a + 1 by omega,
            getD_set_same _ _ _ (by rw [hlen1, hlen]; omega)] at hj
          rw [hj] at hrb
          simp [nodeBox] at hrb
        · rw [getD_set_ne _ _ _ _ (by omega)] at hj
          rw [hlb.2, Vec3.get_set_ne _ _ _ _ hax3 ha (Ne.symm hae)]
          exact (hsc a ha).2 (optimize_absent _ _ _ hlk _ hj)
    · intro dr0 rl0 rr0 hright
      rw [hright] at hrb hrl
      simp only [nodeBox, Option.some.injEq, Prod.mk.injEq] at hrb
      refine ⟨hrl, by rw [List.length_set, hlen1, hlen], ropesLinked_set _ _ _ hlk1 hll, ?_⟩
      intro a ha
      constructor
      · intro hj
        by_cases hae : a = ax
        · subst hae
          rw [show a * 2 = 2 * a by omega,
            getD_set_same _ _ _ (by rw [hlen1, hlen]; omega)] at hj
          rw [hj] at hlb
          simp [nodeBox] at hlb
        · rw [getD_set_ne _ _ _ _ (by omega)] at hj
          rw [hrb.1, Vec3.get_set_ne _ _ _ _ hax3 ha (Ne.symm hae)]
          exact (hsc a ha).1 (optimize_absent _ _ _ hlk _ hj)
      · intro hj
        rw [getD_set_ne _ _ _ _ (by omega)] at hj
        rw [hrb.2]
        exact (hsc a ha).2 (optimize_absent _ _ _ hlk _ hj)
  · rw [hroot] at hb
    refine ⟨hb, by simp, ?_, ?_⟩
    · intro j dr rl rr hj
      rw [getD_replicate_null] at hj
      cases hj
    · intro a _
      exact ⟨fun _ => rfl, fun _ => rfl⟩

/-- C20: the constructor returns a tree whose leaf ropes are those `createRopes` assigns
when started at the root with six absent ropes, and for every leaf and axis `a`: if the rope
on the negative side (entry `2 a`) is absent the leaf's `bbMin[a]` is the scene box's
`bbMin[a]`, and if the rope on the positive side (entry `2 a + 1`) is absent the leaf's
`bbMax[a]` is the scene box's `bbMax[a]`. -/
theorem absent_ropes_mark_scene_boundary (S : StdSort) (eps : ℚ) (cfg : Nat)
    (vertices : List ℚ) (faces : List Nat) (bbMin bbMax : Vec3) :
    ∃ t, construct S eps cfg vertices faces bbMin bbMax = some t ∧
      t.leafRopes = createRopes t.mRoot (List.replicate 6 KdNode.null) ∧
      ∀ p ∈ t.leafRopes, ∀ a, a < 3 →
        (p.2.getD (2 * a) KdNode.null = KdNode.null → p.1.bbMin.get a = bbMin.get a) ∧
        (p.2.getD (2 * a + 1) KdNode.null = KdNode.null → p.1.bbMax.get a = bbMax.get a) := by
  rcases construct_cases S eps cfg vertices faces bbMin bbMax with ⟨_, hc⟩ | ⟨_, root, st, hm, hc⟩
  · exact ⟨_, hc, by simp [Tree.init, createRopes], by simp [Tree.init]⟩
  · refine ⟨_, hc, rfl, ?_⟩
    intro p hp
    obtain ⟨hne, _, _, _⟩ := makeTreeFuel_shape S eps _ _ _ _ _ _ _ _ _ _ _ _ _ hm
    obtain ⟨hbox, hb⟩ := makeTreeFuel_boxes S eps _ _ _ _ _ _ _ _ _ _ _ _ _ hm (by norm_num)
    cases hr : root with
    | null => exact absurd hr hne
    | mk d l r =>
      have hp1 : p ∈ createRopes root (List.replicate 6 KdNode.null) := hp
      rw [hr] at hbox
      simp only [nodeBox, Option.some.injEq, Prod.mk.injEq] at hbox
      have := createRopes_scene root d l r hr hb p hp1
      rw [hbox.1, hbox.2] at this
      exact this

/-! ## Face classifier inside the box -/

theorem faceTriples_cons3 (f0 f1 f2 : Nat) (rest : List Nat) :
    faceTriples (f0 :: f1 :: f2 :: rest) = (f0, f1, f2) :: faceTriples rest := by
  rw [faceTriples]

theorem splitFaces_cons3 (vs : List ℚ) (mxL mnR : Vec3) (f0 f1 f2 : Nat) (rest : List Nat) :
    faceTriples (splitFaces vs mxL mnR (f0 :: f1 :: f2 :: rest)).1 =
      (if (getFaceBB (vertexAt vs f0) (vertexAt vs f1) (vertexAt vs f2)).1.x ≤ mxL.x ∨
          (getFaceBB (vertexAt vs f0) (vertexAt vs f1) (vertexAt vs f2)).1.y ≤ mxL.y ∨
          (getFaceBB (vertexAt vs f0) (vertexAt vs f1) (vertexAt vs f2)).1.z ≤ mxL.z
        then [(f0, f1, f2)] else []) ++ faceTriples (splitFaces vs mxL mnR rest).1 ∧
    faceTriples (splitFaces vs mxL mnR (f0 :: f1 :: f2 :: rest)).2 =
      (if (getFaceBB (vertexAt vs f0) (vertexAt vs f1) (vertexAt vs f2)).2.x ≥ mnR.x ∨
          (getFaceBB (vertexAt vs f0) (vertexAt vs f1) (vertexAt vs f2)).2.y ≥ mnR.y ∨
          (getFaceBB (vertexAt vs f0) (vertexAt vs f1) (vertexAt vs f2)).2.z ≥ mnR.z
        then [(f0, f1, f2)] else []) ++ faceTriples (splitFaces vs mxL mnR rest).2 := by
  rw [splitFaces]
  simp only [Nat.mul_div_cancel _ (show 0 < 3 by norm_num)]
  constructor
  · split <;> simp [faceTriples]
  · split <;> simp [faceTriples]

/-- Induction over the complete triples of a flat face array. -/
theorem faceTriples_induction (P : List Nat → Prop)
    (hshort : ∀ l, faceTriples l = [] → (∀ f0 f1 f2 rest, l ≠ f0 :: f1 :: f2 :: rest) → P l)
    (hcons : ∀ f0 f1 f2 rest, P rest → P (f0 :: f1 :: f2 :: rest)) : ∀ l, P l := by
  have key : ∀ n (l : List Nat), l.length ≤ n → P l := by
    intro n
    induction n with
    | zero =>
      intro l hl
      have : l = [] := List.length_eq_zero.mp (Nat.le_zero.mp hl)
      subst this
      exact hshort _ (by simp [faceTriples]) (by simp)
    | succ n ih =>
      intro l hl
      match l, hl with
      | [], _ => exact hshort _ (by simp [faceTriples]) (by simp)
      | [_], _ => exact hshort _ (by simp [faceTriples]) (by simp)
      | [_, _], _ => exact hshort _ (by simp [faceTriples]) (by simp)
      | f0 :: f1 :: f2 :: rest, hl =>
        exact hcons f0 f1 f2 rest (ih rest (by simp only [List.length_cons] at hl; omega))
  exact fun l => key l.length l (le_refl _)

theorem splitFaces_short (vs : List ℚ) (mxL mnR : Vec3) (l : List Nat)
    (h : ∀ f0 f1 f2 rest, l ≠ f0 :: f1 :: f2 :: rest) : splitFaces vs mxL mnR l = ([], []) := by
  match l, h with
  | [], _ => simp [splitFaces]
  | [_], _ => simp [splitFaces]
  | [_, _], _ => simp [splitFaces]
  | f0 :: f1 :: f2 :: rest, h => exact absurd rfl (h f0 f1 f2 rest)

theorem splitFaces_mem (vs : List ℚ) (mxL mnR : Vec3) :
    ∀ (faces : List Nat) (tr : Nat × Nat × Nat), tr ∈ faceTriples faces →
      (reachesLeft vs mxL tr → tr ∈ faceTriples (splitFaces vs mxL mnR faces).1) ∧
      (reachesRight vs mnR tr → tr ∈ faceTriples (splitFaces vs mxL mnR faces).2) := by
  intro faces
  induction faces using faceTriples_induction with
  | hshort l hl _ => intro tr htr; rw [hl] at htr; simp at htr
  | hcons f0 f1 f2 rest ih =>
    intro tr htr
    rw [(splitFaces_cons3 vs mxL mnR f0 f1 f2 rest).1, (splitFaces_cons3 vs mxL mnR f0 f1 f2 rest).2]
    rw [faceTriples_cons3] at htr
    rcases List.mem_cons.mp htr with rfl | htr
    · constructor
      · intro h
        simp only [reachesLeft] at h
        rw [if_pos h]
        simp
      · intro h
        simp only [reachesRight] at h
        rw [if_pos h]
        simp
    · exact ⟨fun h => List.mem_append_right _ ((ih tr htr).1 h),
        fun h => List.mem_append_right _ ((ih tr htr).2 h)⟩

theorem splitFaces_all (vs : List ℚ) (mxL mnR : Vec3) :
    ∀ (faces : List Nat),
      ((∀ tr ∈ faceTriples faces, reachesLeft vs mxL tr) →
        faceTriples (splitFaces vs mxL mnR faces).1 = faceTriples faces) ∧
      ((∀ tr ∈ faceTriples faces, reachesRight vs mnR tr) →
        faceTriples (splitFaces vs mxL mnR faces).2 = faceTriples faces) := by
  intro faces
  induction faces using faceTriples_induction with
  | hshort l hl hs =>
    rw [splitFaces_short vs mxL mnR l hs, hl]
    simp [faceTriples]
  | hcons f0 f1 f2 rest ih =>
    rw [(splitFaces_cons3 vs mxL mnR f0 f1 f2 rest).1, (splitFaces_cons3 vs mxL mnR f0 f1 f2 rest).2,
      faceTriples_cons3]
    constructor
    · intro h
      have h0 : reachesLeft vs mxL (f0, f1, f2) := h _ (List.mem_cons_self _ _)
      simp only [reachesLeft] at h0
      rw [if_pos h0, ih.1 (fun tr htr => h tr (List.mem_cons_of_mem _ htr))]
      rfl
    · intro h
      have h0 : reachesRight vs mnR (f0, f1, f2) := h _ (List.mem_cons_self _ _)
      simp only [reachesRight] at h0
      rw [if_pos h0, ih.2 (fun tr htr => h tr (List.mem_cons_of_mem _ htr))]
      rfl

theorem reachesLeft_of_touches (vs : List ℚ) (mn mxL : Vec3) (tr : Nat × Nat × Nat)
    (h : faceTouchesBox mn mxL vs tr) : reachesLeft vs mxL tr := by
  left
  rcases h with h | h | h
  · exact le_trans ((pointInBox_iff _ _ _).mp (getFaceBB_bounds _ _ _ _ (Or.inl rfl))).1
      ((pointInBox_iff _ _ _).mp h).2.2.2.1
  · exact le_trans ((pointInBox_iff _ _ _).mp (getFaceBB_bounds _ _ _ _ (Or.inr (Or.inl rfl)))).1
      ((pointInBox_iff _ _ _).mp h).2.2.2.1
  · exact le_trans ((pointInBox_iff _ _ _).mp (getFaceBB_bounds _ _ _ _ (Or.inr (Or.inr rfl)))).1
      ((pointInBox_iff _ _ _).mp h).2.2.2.1

theorem reachesRight_of_touches (vs : List ℚ) (mnR mx : Vec3) (tr : Nat × Nat × Nat)
    (h : faceTouchesBox mnR mx vs tr) : reachesRight vs mnR tr := by
  left
  rcases h with h | h | h
  · exact le_trans ((pointInBox_iff _ _ _).mp h).1
      ((pointInBox_iff _ _ _).mp (getFaceBB_bounds _ _ _ _ (Or.inl rfl))).2.2.2.1
  · exact le_trans ((pointInBox_iff _ _ _).mp h).1
      ((pointInBox_iff _ _ _).mp (getFaceBB_bounds _ _ _ _ (Or.inr (Or.inl rfl)))).2.2.2.1
  · exact le_trans ((pointInBox_iff _ _ _).mp h).1
      ((pointInBox_iff _ _ _).mp (getFaceBB_bounds _ _ _ _ (Or.inr (Or.inr rfl)))).2.2.2.1

theorem reaches_of_inside (vs : List ℚ) (mn mx : Vec3) (a : Nat) (s : ℚ) (tr : Nat × Nat × Nat)
    (h : faceInBox mn mx vs tr) :
    reachesLeft vs (mx.set a s) tr ∧ reachesRight vs (mn.set a s) tr := by
  have b := (pointInBox_iff _ _ _).mp (getFaceBB_bounds (vertexAt vs tr.1) (vertexAt vs tr.2.1)
    (vertexAt vs tr.2.2) (vertexAt vs tr.1) (Or.inl rfl))
  have c := (pointInBox_iff _ _ _).mp h.1
  obtain ⟨b1, b2, b3, b4, b5, b6⟩ := b
  obtain ⟨c1, c2, c3, c4, c5, c6⟩ := c
  unfold reachesLeft reachesRight
  match a with
  | 0 =>
    simp only [Vec3.set]
    exact ⟨Or.inr (Or.inl (by linarith)), Or.inr (Or.inl (by linarith))⟩
  | 1 =>
    simp only [Vec3.set]
    exact ⟨Or.inl (by linarith), Or.inl (by linarith)⟩
  | n + 2 =>
    simp only [Vec3.set]
    exact ⟨Or.inl (by linarith), Or.inl (by linarith)⟩

/-- C23: for a node with box `(mn, mx)`, any split axis `a` and any split coordinate `s`,
`splitFaces` called with the child corners `mx.set a s` and `mn.set a s` puts every face
whose three corners lie inside or on the node's box into both output lists; if all faces
are such, both output lists hold exactly the faces of the input. -/
theorem face_classifier_vacuous_inside (vs : List ℚ) (mn mx : Vec3) (a : Nat) (s : ℚ)
    (faces : List Nat) :
    (∀ tr ∈ faceTriples faces, faceInBox mn mx vs tr →
      tr ∈ faceTriples (splitFaces vs (mx.set a s) (mn.set a s) faces).1 ∧
      tr ∈ faceTriples (splitFaces vs (mx.set a s) (mn.set a s) faces).2) ∧
    ((∀ tr ∈ faceTriples faces, faceInBox mn mx vs tr) →
      faceTriples (splitFaces vs (mx.set a s) (mn.set a s) faces).1 = faceTriples faces ∧
      faceTriples (splitFaces vs (mx.set a s) (mn.set a s) faces).2 = faceTriples faces) := by
  constructor
  · intro tr htr hin
    obtain ⟨hl, hr⟩ := reaches_of_inside vs mn mx a s tr hin
    exact ⟨(splitFaces_mem vs _ _ faces tr htr).1 hl, (splitFaces_mem vs _ _ faces tr htr).2 hr⟩
  · intro hall
    exact ⟨(splitFaces_all vs _ _ faces).1 (fun tr htr => (reaches_of_inside vs mn mx a s tr
        (hall tr htr)).1),
      (splitFaces_all vs _ _ faces).2 (fun tr htr => (reaches_of_inside vs mn mx a s tr
        (hall tr htr)).2)⟩

/-- C23, instance: one triangle inside the box (0,0,0)-(2,2,3), split on axis 0 at 1. -/
theorem face_classifier_vacuous_inside_witness :
    (∀ tr ∈ faceTriples [0, 1, 2], faceInBox ⟨0, 0, 0⟩ ⟨2, 2, 3⟩ [0, 2, 1, 1, 0, 0, 2, 1, 3] tr) ∧
    faceTriples (splitFaces [0, 2, 1, 1, 0, 0, 2, 1, 3] (Vec3.set ⟨2, 2, 3⟩ 0 1)
      (Vec3.set ⟨0, 0, 0⟩ 0 1) [0, 1, 2]).1 = faceTriples [0, 1, 2] ∧
    faceTriples (splitFaces [0, 2, 1, 1, 0, 0, 2, 1, 3] (Vec3.set ⟨2, 2, 3⟩ 0 1)
      (Vec3.set ⟨0, 0, 0⟩ 0 1) [0, 1, 2]).2 = faceTriples [0, 1, 2] :=
  have h : ∀ tr ∈ faceTriples [0, 1, 2],
      faceInBox ⟨0, 0, 0⟩ ⟨2, 2, 3⟩ [0, 2, 1, 1, 0, 0, 2, 1, 3] tr := by
    intro tr htr
    simp only [faceTriples, List.mem_singleton] at htr
    subst htr
    norm_num [faceInBox, pointInBox, vertexAt]
  ⟨h, (face_classifier_vacuous_inside [0, 2, 1, 1, 0, 0, 2, 1, 3] ⟨0, 0, 0⟩ ⟨2, 2, 3⟩ 0 1
    [0, 1, 2]).2 h⟩

/-! ## Faces of the leaves -/

theorem boxInside_refl (mn mx : Vec3) : boxInside mn mx mn mx :=
  ⟨le_refl _, le_refl _, le_refl _, le_refl _, le_refl _, le_refl _⟩

theorem boxInside_trans (a1 a2 b1 b2 c1 c2 : Vec3) (h1 : boxInside a1 a2 b1 b2)
    (h2 : boxInside b1 b2 c1 c2) : boxInside a1 a2 c1 c2 := by
  obtain ⟨p1, p2, p3, p4, p5, p6⟩ := h1
  obtain ⟨q1, q2, q3, q4, q5, q6⟩ := h2
  exact ⟨le_trans q1 p1, le_trans q2 p2, le_trans q3 p3, le_trans p4 q4, le_trans p5 q5,
    le_trans p6 q6⟩

theorem pointInBox_of_boxInside (mn mx pmn pmx p : Vec3) (hb : boxInside mn mx pmn pmx)
    (h : pointInBox mn mx p = true) : pointInBox pmn pmx p = true := by
  rw [pointInBox_iff] at h ⊢
  obtain ⟨p1, p2, p3, p4, p5, p6⟩ := hb
  obtain ⟨q1, q2, q3, q4, q5, q6⟩ := h
  exact ⟨le_trans p1 q1, le_trans p2 q2, le_trans p3 q3, le_trans q4 p4, le_trans q5 p5,
    le_trans q6 p6⟩

theorem faceTouchesBox_of_boxInside (mn mx pmn pmx : Vec3) (vs : List ℚ)
    (tr : Nat × Nat × Nat) (hb : boxInside mn mx pmn pmx) (h : faceTouchesBox mn mx vs tr) :
    faceTouchesBox pmn pmx vs tr := by
  rcases h with h | h | h
  · exact Or.inl (pointInBox_of_boxInside _ _ _ _ _ hb h)
  · exact Or.inr (Or.inl (pointInBox_of_boxInside _ _ _ _ _ hb h))
  · exact Or.inr (Or.inr (pointInBox_of_boxInside _ _ _ _ _ hb h))

theorem leafFaces_mem (eps : ℚ) (mn mx : Vec3) (vs : List ℚ) :
    ∀ (faces : List Nat) (tr : Nat × Nat × Nat), tr ∈ faceTriples faces →
      faceTouchesBox mn mx vs tr → tr ∈ faceTriples (leafFaces eps mn mx vs faces) := by
  intro faces
  induction faces using faceTriples_induction with
  | hshort l hl _ => intro tr htr; rw [hl] at htr; simp at htr
  | hcons f0 f1 f2 rest ih =>
    intro tr htr htouch
    rw [faceTriples_cons3] at htr
    rcases List.mem_cons.mp htr with rfl | htr
    · rw [leafFaces_cons_of_point eps mn mx vs f0 f1 f2 rest htouch, faceTriples_cons3]
      exact List.mem_cons_self _ _
    · rw [leafFaces]
      split
      · simp only [List.cons_append, List.nil_append, faceTriples_cons3]
        exact List.mem_cons_of_mem _ (ih tr htr htouch)
      · simpa using ih tr htr htouch

theorem makeTreeFuel_leaves (S : StdSort) (eps : ℚ) (lim n : Nat) :
    ∀ (l : List Vec3) (axis : Nat) (bbMin bbMax : Vec3) (vertices : List ℚ) (faces : List Nat)
      (splits : List (List ℚ)) (depth : Nat) (st st' : Build) (t : KdNode),
      makeTreeFuel S eps lim n l axis bbMin bbMax vertices faces splits depth st = some (t, st') →
      st'.mLeaves = st.mLeaves ++ treeLeaves t := by
  induction n with
  | zero => intro l axis bbMin bbMax vertices faces splits depth st st' t h; simp [makeTreeFuel] at h
  | succ n ih =>
    intro l axis bbMin bbMax vertices faces splits depth st st' t h
    rcases makeTreeFuel_cases S eps lim n l axis bbMin bbMax vertices faces splits depth st st' t h
      with ⟨_, ht, hst⟩ | ⟨_, _, left, right, st2, hl, hr, ht⟩
    · subst ht hst
      simp [treeLeaves, createLeafNode, Build.pushLeaf]
    · subst ht
      have hnn : ¬ ((axis : Int) < 0) := by omega
      rw [ih _ _ _ _ _ _ _ _ _ _ _ hr, ih _ _ _ _ _ _ _ _ _ _ _ hl]
      simp [treeLeaves, hnn, Build.pushNonLeaf]

theorem makeTreeFuel_leaf_faces (S : StdSort) (eps : ℚ) (lim n : Nat) :
    ∀ (l : List Vec3) (axis : Nat) (bbMin bbMax : Vec3) (vertices : List ℚ) (faces : List Nat)
      (splits : List (List ℚ)) (depth : Nat) (st st' : Build) (t : KdNode),
      makeTreeFuel S eps lim n l axis bbMin bbMax vertices faces splits depth st = some (t, st') →
      axis < 3 → boxWellFormed bbMin bbMax → (∀ p ∈ l, pointInBox bbMin bbMax p = true) →
      ∀ leaf ∈ treeLeaves t, boxInside leaf.bbMin leaf.bbMax bbMin bbMax ∧
        ∀ tr ∈ faceTriples faces, faceTouchesBox leaf.bbMin leaf.bbMax vertices tr →
          tr ∈ faceTriples leaf.faces := by
  induction n with
  | zero => intro l axis bbMin bbMax vertices faces splits depth st st' t h; simp [makeTreeFuel] at h
  | succ n ih =>
    intro l axis bbMin bbMax vertices faces splits depth st st' t h hax hwf hin leaf hleaf
    rcases makeTreeFuel_cases S eps lim n l axis bbMin bbMax vertices faces splits depth st st' t h
      with ⟨_, ht, _⟩ | ⟨hc, _, left, right, st2, hl, hr, ht⟩
    · subst ht
      simp only [treeLeaves, createLeafNode, Int.reduceNeg, Left.neg_neg_iff, zero_lt_one,
        if_true, List.mem_singleton] at hleaf
      subst hleaf
      exact ⟨boxInside_refl _ _, fun tr htr htouch => leafFaces_mem eps _ _ vertices faces tr htr
        htouch⟩
    · subst ht
      have hnn : ¬ ((axis : Int) < 0) := by omega
      simp only [treeLeaves, hnn, if_false, List.mem_append] at hleaf
      have hne : l ≠ [] := by
        intro e; apply hc; right; simp [e]
      have hmem := findMedian_mem S l axis hne
      have hperm := findMedian_perm S l axis
      have hpw := findMedian_pairwise S l axis
      have hmb := hin _ (hperm.subset hmem)
      obtain ⟨hlo, hhi⟩ := pointInBox_get _ _ _ axis hax hmb
      obtain ⟨sl, sr⟩ := splitNodesAtMedian_sides axis _ _ hpw hmem
      obtain ⟨wfL, inL⟩ := cut_max_boxes bbMin bbMax axis _ hax hwf hlo hhi
      obtain ⟨wfR, inR⟩ := cut_min_boxes bbMin bbMax axis _ hax hwf hlo hhi
      have hax1 : (axis + 1) % 3 < 3 := Nat.mod_lt _ (by norm_num)
      rcases hleaf with hleaf | hleaf
      · obtain ⟨b, f⟩ := ih _ _ _ _ _ _ _ _ _ _ _ hl hax1 wfL (by
          intro p hp
          obtain ⟨h1, h2⟩ := sl p hp
          exact pointInBox_set_max _ _ _ _ _ hax (hin p (hperm.subset h2)) h1) leaf hleaf
        refine ⟨boxInside_trans _ _ _ _ _ _ b inL, ?_⟩
        intro tr htr htouch
        apply f tr _ htouch
        exact (splitFaces_mem vertices _ _ faces tr htr).1
          (reachesLeft_of_touches vertices bbMin _ tr
            (faceTouchesBox_of_boxInside _ _ _ _ _ _ b htouch))
      · obtain ⟨b, f⟩ := ih _ _ _ _ _ _ _ _ _ _ _ hr hax1 wfR (by
          intro p hp
          obtain ⟨h1, h2⟩ := sr p hp
          exact pointInBox_set_min _ _ _ _ _ hax (hin p (hperm.subset h2)) h1) leaf hleaf
        refine ⟨boxInside_trans _ _ _ _ _ _ b inR, ?_⟩
        intro tr htr htouch
        apply f tr _ htouch
        exact (splitFaces_mem vertices _ _ faces tr htr).2
          (reachesRight_of_touches vertices _ bbMax tr
            (faceTouchesBox_of_boxInside _ _ _ _ _ _ b htouch))

/-- C21: if the scene box is well-formed and contains every vertex, the constructor
returns a tree whose recorded leaves are the leaves of the tree, and the face list of every
leaf contains every face of the input that has a corner inside or on the leaf's box. -/
theorem leaf_holds_touching_faces (S : StdSort) (eps : ℚ) (cfg : Nat) (vertices : List ℚ)
    (faces : List Nat) (bbMin bbMax : Vec3) (hwf : boxWellFormed bbMin bbMax)
    (hin : ∀ p ∈ packVerts vertices, pointInBox bbMin bbMax p = true) :
    ∃ t, construct S eps cfg vertices faces bbMin bbMax = some t ∧
      t.mLeaves = treeLeaves t.mRoot ∧
      ∀ leaf ∈ t.mLeaves, ∀ tr ∈ faceTriples faces,
        faceTouchesBox leaf.bbMin leaf.bbMax vertices tr → tr ∈ faceTriples leaf.faces := by
  rcases construct_cases S eps cfg vertices faces bbMin bbMax with ⟨_, hc⟩ | ⟨_, root, st, hm, hc⟩
  · exact ⟨_, hc, by simp [Tree.init, treeLeaves], by simp [Tree.init]⟩
  · have hl : st.mLeaves = treeLeaves root := by
      simpa using makeTreeFuel_leaves S eps _ _ _ _ _ _ _ _ _ _ _ _ _ hm
    refine ⟨_, hc, hl, ?_⟩
    intro leaf hleaf
    have hleaf1 : leaf ∈ treeLeaves root := by rw [← hl]; exact hleaf
    exact (makeTreeFuel_leaf_faces S eps _ _ _ _ _ _ _ _ _ _ _ _ _ hm (by norm_num) hwf hin
      leaf hleaf1).2

/-- C21, witness: one triangle in the box (0,0,0)-(2,2,3). -/
theorem leaf_holds_touching_faces_witness :
    boxWellFormed ⟨0, 0, 0⟩ ⟨2, 2, 3⟩ ∧
    (∀ p ∈ packVerts [0, 2, 1, 1, 0, 0, 2, 1, 3], pointInBox ⟨0, 0, 0⟩ ⟨2, 2, 3⟩ p = true) ∧
    ∃ t, construct insertionStdSort (1 / 100000) 0 [0, 2, 1, 1, 0, 0, 2, 1, 3] [0, 1, 2]
        ⟨0, 0, 0⟩ ⟨2, 2, 3⟩ = some t ∧
      t.mLeaves = treeLeaves t.mRoot ∧
      ∀ leaf ∈ t.mLeaves, ∀ tr ∈ faceTriples [0, 1, 2],
        faceTouchesBox leaf.bbMin leaf.bbMax [0, 2, 1, 1, 0, 0, 2, 1, 3] tr →
          tr ∈ faceTriples leaf.faces :=
  have h1 : boxWellFormed ⟨0, 0, 0⟩ ⟨2, 2, 3⟩ := by norm_num [boxWellFormed]
  have h2 : ∀ p ∈ packVerts [0, 2, 1, 1, 0, 0, 2, 1, 3],
      pointInBox ⟨0, 0, 0⟩ ⟨2, 2, 3⟩ p = true := by
    intro p hp
    simp [packVerts, vertexAt, List.range, List.range.loop] at hp
    rcases hp with rfl | rfl | rfl <;> norm_num [pointInBox]
  ⟨h1, h2, leaf_holds_touching_faces insertionStdSort (1 / 100000) 0 _ [0, 1, 2] _ _ h1 h2⟩

/-! ## Edges with both ends outside the box -/

theorem boxInside_get (mn mx pmn pmx : Vec3) (k : Nat) (hk : k < 3)
    (h : boxInside mn mx pmn pmx) : pmn.get k ≤ mn.get k ∧ mx.get k ≤ pmx.get k := by
  obtain ⟨h1, h2, h3, h4, h5, h6⟩ := h
  interval_cases k <;> simp only [Vec3.get] <;> constructor <;> assumption

theorem optimizeRope_cover (side : Nat) (mn mx : Vec3) :
    ∀ (R : KdNode) (d : NodeData) (l r : KdNode), R = KdNode.mk d l r → boxesLinked R →
      coversBeside (side / 2) mn mx d →
      ∃ d1 l1 r1, optimizeRope side mn mx R = KdNode.mk d1 l1 r1 ∧
        coversBeside (side / 2) mn mx d1 := by
  intro R
  induction R with
  | null => intro d l r h; cases h
  | mk d0 l0 r0 ihl ihr =>
    intro d l r h hb hcov
    cases h
    unfold optimizeRope
    have hshift : side >>> 1 = side / 2 := by
      rw [Nat.shiftRight_eq_div_pow, pow_one]
    by_cases hax : d0.axis ≥ 0
    · simp only [hax, if_true]
      have hb1 := hb
      unfold boxesLinked at hb1
      rcases hb1 with hneg | ⟨a, ha3, hae, hlb, hrb, hll, hrl⟩
      · omega
      have htn : d0.axis.toNat = a := by omega
      rw [htn, hae, hshift]
      by_cases hs : side % 2 = 0
      · simp only [hs, if_true]
        by_cases hc : (a : Int) = ((side / 2 : Nat) : Int) ∨ d0.pos.get a ≤ mn.get a
        · rw [if_pos hc]
          obtain ⟨dr, rl, rr, hreq, hmin, hmax⟩ := nodeBox_some _ _ hrb
          simp only at hmin hmax
          apply ihr dr rl rr hreq hrl
          intro k hk hne
          obtain ⟨c1, c2⟩ := hcov k hk hne
          rw [hmin, hmax]
          refine ⟨?_, c2⟩
          by_cases hka : k = a
          · subst hka
            rw [Vec3.get_set_same]
            rcases hc with hc | hc
            · exact absurd (by exact_mod_cast hc) hne
            · exact hc
          · rw [Vec3.get_set_ne _ _ _ _ ha3 hk (Ne.symm hka)]
            exact c1
        · rw [if_neg hc]
          exact ⟨d0, l0, r0, rfl, hcov⟩
      · simp only [hs, if_false]
        by_cases hc : (a : Int) = ((side / 2 : Nat) : Int) ∨ d0.pos.get a ≥ mx.get a
        · rw [if_pos hc]
          obtain ⟨dl, ll, lr, hleq, hmin, hmax⟩ := nodeBox_some _ _ hlb
          simp only at hmin hmax
          apply ihl dl ll lr hleq hll
          intro k hk hne
          obtain ⟨c1, c2⟩ := hcov k hk hne
          rw [hmin, hmax]
          refine ⟨c1, ?_⟩
          by_cases hka : k = a
          · subst hka
            rw [Vec3.get_set_same]
            rcases hc with hc | hc
            · exact absurd (by exact_mod_cast hc) hne
            · exact hc
          · rw [Vec3.get_set_ne _ _ _ _ ha3 hk (Ne.symm hka)]
            exact c2
        · rw [if_neg hc]
          exact ⟨d0, l0, r0, rfl, hcov⟩
    · simp only [hax, if_false]
      exact ⟨d0, l0, r0, rfl, hcov⟩

theorem optimize_ropesCover (mn mx : Vec3) (ropes : List KdNode) (hl : ropesLinked ropes)
    (h : ropesCover mn mx ropes) :
    ropesCover mn mx ((List.range 6).foldl (optimizeSide mn mx) ropes) := by
  intro j dr rl rr hj
  rw [foldl_optimizeSide_getD] at hj
  by_cases hj6 : j < 6
  · rw [if_pos hj6] at hj
    cases hr : ropes.getD j KdNode.null with
    | null => rw [hr, optimizeRope_null] at hj; cases hj
    | mk d0 l0 r0 =>
      rw [hr] at hj
      obtain ⟨d1, l1, r1, e1, e2⟩ := optimizeRope_cover j mn mx _ d0 l0 r0 rfl (hl j d0 l0 r0 hr)
        (h j d0 l0 r0 hr)
      rw [e1] at hj
      cases hj
      exact e2
  · rw [if_neg hj6] at hj
    exact h j dr rl rr hj

theorem createRopes_cover (root : KdNode) (d : NodeData) (l r : KdNode)
    (hroot : root = KdNode.mk d l r) (hb : boxesLinked root) (hcb : childBoxes root) :
    ∀ p ∈ createRopes root (List.replicate 6 KdNode.null),
      ropesCover p.1.bbMin p.1.bbMax p.2 := by
  intro p hp
  have key := createRopes_inv
    (fun d1 l1 r1 ropes => boxesLinked (KdNode.mk d1 l1 r1) ∧ childBoxes (KdNode.mk d1 l1 r1) ∧
      ropes.length = 6 ∧ ropesLinked ropes ∧ ropesCover d1.bbMin d1.bbMax ropes) ?_ root
      (List.replicate 6 KdNode.null) d l r hroot ?_ p hp
  · obtain ⟨_, _, ⟨_, _, _, _, h5⟩, _⟩ := key
    exact h5
  · intro d1 left right ropes hax ⟨hbl, hcbl, hlen, hlk, hcov⟩
    have hbl1 := hbl
    unfold boxesLinked at hbl1
    rcases hbl1 with hneg | ⟨ax, hax3, haxe, hlb, hrb, hll, hrl⟩
    · exact absurd hneg hax
    have hcbl1 := hcbl
    unfold childBoxes at hcbl1
    obtain ⟨_, hcbl2⟩ := hcbl1
    rcases hcbl2 with hneg | ⟨ax1, _, haxe1, _, _, _, _, hinL, hinR, hcl, hcr⟩
    · exact absurd hneg hax
    have hax1 : ax1 = ax := by omega
    subst hax1
    have htn : d1.axis.toNat = ax1 := by omega
    have hlen1 := foldl_optimizeSide_length d1.bbMin d1.bbMax 6 ropes
    have hlk1 := optimize_ropesLinked d1.bbMin d1.bbMax ropes hlk
    have hcov1 := optimize_ropesCover d1.bbMin d1.bbMax ropes hlk hcov
    rw [htn]
    constructor
    · intro dl ll lr hleft
      rw [hleft] at hlb hll hcl
      simp only [nodeBox, Option.some.injEq, Prod.mk.injEq] at hlb
      refine ⟨hll, hcl, by rw [List.length_set, hlen1, hlen], ropesLinked_set _ _ _ hlk1 hrl, ?_⟩
      intro j dr rl rr hj k hk hne
      rw [hlb.1, hlb.2]
      by_cases hje : j = ax1 * 2 + 1
      · subst hje
        rw [getD_set_same _ _ _ (by rw [hlen1, hlen]; omega)] at hj
        rw [hj] at hrb
        simp only [nodeBox, Option.some.injEq, Prod.mk.injEq] at hrb
        have hka : k ≠ ax1 := by omega
        rw [hrb.1, hrb.2, Vec3.get_set_ne _ _ _ _ hax3 hk (Ne.symm hka),
          Vec3.get_set_ne _ _ _ _ hax3 hk (Ne.symm hka)]
        exact ⟨le_refl _, le_refl _⟩
      · rw [getD_set_ne _ _ _ _ (Ne.symm hje)] at hj
        obtain ⟨c1, c2⟩ := hcov1 j dr rl rr hj k hk hne
        exact ⟨c1, le_trans (boxInside_get _ _ _ _ k hk hinL).2 c2⟩
    · intro dr0 rl0 rr0 hright
      rw [hright] at hrb hrl hcr
      simp only [nodeBox, Option.some.injEq, Prod.mk.injEq] at hrb
      refine ⟨hrl, hcr, by rw [List.length_set, hlen1, hlen], ropesLinked_set _ _ _ hlk1 hll, ?_⟩
      intro j dr rl rr hj k hk hne
      rw [hrb.1, hrb.2]
      by_cases hje : j = ax1 * 2
      · subst hje
        rw [getD_set_same _ _ _ (by rw [hlen1, hlen]; omega)] at hj
        rw [hj] at hlb
        simp only [nodeBox, Option.some.injEq, Prod.mk.injEq] at hlb
        have hka : k ≠ ax1 := by omega
        rw [hlb.1, hlb.2, Vec3.get_set_ne _ _ _ _ hax3 hk (Ne.symm hka),
          Vec3.get_set_ne _ _ _ _ hax3 hk (Ne.symm hka)]
        exact ⟨le_refl _, le_refl _⟩
      · rw [getD_set_ne _ _ _ _ (Ne.symm hje)] at hj
        obtain ⟨c1, c2⟩ := hcov1 j dr rl rr hj k hk hne
        exact ⟨le_trans c1 (boxInside_get _ _ _ _ k hk hinR).1, c2⟩
  · rw [hroot] at hb hcb
    refine ⟨hb, hcb, by simp, ?_, ?_⟩
    · intro j dr rl rr hj
      rw [getD_replicate_null] at hj
      cases hj
    · intro j dr rl rr hj
      rw [getD_replicate_null] at hj
      cases hj

/-- C22: if the scene box is well-formed and contains every vertex, the constructor
returns a tree in which every rope of a leaf that is present, on either side of an axis `a`,
has a box that covers the leaf's box on the two other axes. -/
theorem ropes_cover_leaf (S : StdSort) (eps : ℚ) (cfg : Nat) (vertices : List ℚ)
    (faces : List Nat) (bbMin bbMax : Vec3) (hwf : boxWellFormed bbMin bbMax)
    (hin : ∀ p ∈ packVerts vertices, pointInBox bbMin bbMax p = true) :
    ∃ t, construct S eps cfg vertices faces bbMin bbMax = some t ∧
      ∀ p ∈ t.leafRopes, ∀ a, a < 3 → ∀ dr rl rr,
        (p.2.getD (2 * a) KdNode.null = KdNode.mk dr rl rr ∨
          p.2.getD (2 * a + 1) KdNode.null = KdNode.mk dr rl rr) →
        ∀ k, k < 3 → k ≠ a →
          dr.bbMin.get k ≤ p.1.bbMin.get k ∧ p.1.bbMax.get k ≤ dr.bbMax.get k := by
  rcases construct_cases S eps cfg vertices faces bbMin bbMax with ⟨_, hc⟩ | ⟨_, root, st, hm, hc⟩
  · exact ⟨_, hc, by simp [Tree.init]⟩
  · refine ⟨_, hc, ?_⟩
    intro p hp a ha dr rl rr hr k hk hne
    obtain ⟨hnn, _, _, _⟩ := makeTreeFuel_shape S eps _ _ _ _ _ _ _ _ _ _ _ _ _ hm
    obtain ⟨_, hb⟩ := makeTreeFuel_boxes S eps _ _ _ _ _ _ _ _ _ _ _ _ _ hm (by norm_num)
    obtain ⟨_, hcb⟩ := makeTreeFuel_childBoxes S eps _ _ _ _ _ _ _ _ _ _ _ _ _ hm (by norm_num)
      hwf hin
    cases hroot : root with
    | null => exact absurd hroot hnn
    | mk d l r =>
      have hp1 : p ∈ createRopes root (List.replicate 6 KdNode.null) := hp
      have hcov := createRopes_cover root d l r hroot hb hcb p hp1
      rcases hr with hr | hr
      · exact hcov (2 * a) dr rl rr hr k hk (by omega)
      · exact hcov (2 * a + 1) dr rl rr hr k hk (by omega)

/-- C22, witness: one triangle in the box (0,0,0)-(2,2,3). -/
theorem ropes_cover_leaf_witness :
    boxWellFormed ⟨0, 0, 0⟩ ⟨2, 2, 3⟩ ∧
    (∀ p ∈ packVerts [0, 2, 1, 1, 0, 0, 2, 1, 3], pointInBox ⟨0, 0, 0⟩ ⟨2, 2, 3⟩ p = true) ∧
    ∃ t, construct insertionStdSort (1 / 100000) 0 [0, 2, 1, 1, 0, 0, 2, 1, 3] [0, 1, 2]
        ⟨0, 0, 0⟩ ⟨2, 2, 3⟩ = some t ∧
      ∀ p ∈ t.leafRopes, ∀ a, a < 3 → ∀ dr rl rr,
        (p.2.getD (2 * a) KdNode.null = KdNode.mk dr rl rr ∨
          p.2.getD (2 * a + 1) KdNode.null = KdNode.mk dr rl rr) →
        ∀ k, k < 3 → k ≠ a →
          dr.bbMin.get k ≤ p.1.bbMin.get k ∧ p.1.bbMax.get k ≤ dr.bbMax.get k :=
  have h1 : boxWellFormed ⟨0, 0, 0⟩ ⟨2, 2, 3⟩ := by norm_num [boxWellFormed]
  have h2 : ∀ p ∈ packVerts [0, 2, 1, 1, 0, 0, 2, 1, 3],
      pointInBox ⟨0, 0, 0⟩ ⟨2, 2, 3⟩ p = true := by
    intro p hp
    simp [packVerts, vertexAt, List.range, List.range.loop] at hp
    rcases hp with rfl | rfl | rfl <;> norm_num [pointInBox]
  ⟨h1, h2, ropes_cover_leaf insertionStdSort (1 / 100000) 0 _ [0, 1, 2] _ _ h1 h2⟩

end KdTree
